import Mathlib

/-!
RPG chatbot state tracker: state store, patch applier, transcript ledger.

A shallow embedding of the state-handling core of `src/index.js`
(`applyStateUpdates`, `getDefaultState`, `mergeState`, `loadStateFromMetadata`,
`resetState`, `compressMemory`, `processWithLLMA` with its context injection, and
`buildSmartContextForLLMB`), followed by theorems about it.

Modelling conventions.

* The JavaScript values held in `stateManager.state` are JSON trees (`JVal`).  An
  object is the list of its own properties in insertion order; property reads take
  the first entry with the given key.  (JavaScript enumerates keys that are array
  indices before the others; the model keeps every key at its insertion place.)
  JSON numbers are modelled by integers: the code never computes with them, it
  only tests them for truthiness.
* The module is an ES module, hence strict-mode code: assigning a property on a
  primitive value throws a `TypeError` (`Fault.typeError`).
* Only own data properties are modelled, and for a list its items and its
  `length`.  A step of the code that would read a built-in member inherited from a
  prototype, invoke the `__proto__` setter, leave a hole in a list or define a
  named property on it leaves the JSON-tree model; such a run is reported as
  `Fault.outsideModel` and not followed further.
* The external LLM call is an oracle returning `some text` or `none` (the call
  threw); the clock read by `new Date().toISOString()` is an input.  Where a
  theorem speaks of the requests sent to the LLM, the function is modelled with the
  list of requests it sent beside its value (`Traced`); the only step that reads
  the oracle is `askLLMA`, which records the request.
* User-interface calls (debug panel, state panel, toasts) and the save to the
  metadata store are not modelled, except that an error shown by the outer `catch`
  of `processWithLLMA` is recorded in the outcome.
* Each operation runs to its end before the next one starts (one turn in flight
  per conversation).
-/

namespace RpgChatbot

/-! ## JSON values -/

/-- JSON trees: the values stored in `stateManager.state` and carried by patches. -/
inductive JVal where
  | null : JVal
  | bool (b : Bool) : JVal
  | num (n : Int) : JVal
  | str (s : String) : JVal
  | arr (items : List JVal) : JVal
  | obj (fields : List (String × JVal)) : JVal
  deriving Repr, Inhabited

/-- The ways a run of the code can stop early in this model. -/
inductive Fault where
  /-- A strict-mode `TypeError`: a property was assigned on a primitive value. -/
  | typeError : Fault
  /-- The run left the JSON-tree model (a built-in member inherited from a prototype,
  the `__proto__` setter, a hole or a named property of an array, an array length that is
  not a number or not an integer between zero and the present length, a property of a
  string); it is not followed further and nothing is said of its result. -/
  | outsideModel : Fault
  deriving Repr, DecidableEq

/-- JavaScript truthiness, as tested by `!target[keys[i]]`. -/
def truthy : JVal → Bool
  | .null => false
  | .bool b => b
  | .num n => n != 0
  | .str s => s != ""
  | .arr _ => true
  | .obj _ => true

/-- Own-property read `o[k]` on the property list of an object. -/
def lookupField (k : String) : List (String × JVal) → Option JVal
  | [] => none
  | (k', x) :: fs => if k' = k then some x else lookupField k fs

/-- Own-property write `o[k] = v` on the property list of an object: an existing key
keeps its position, a new key is appended. -/
def putField (k : String) (v : JVal) : List (String × JVal) → List (String × JVal)
  | [] => [(k, v)]
  | (k', x) :: fs => if k' = k then (k', v) :: fs else (k', x) :: putField k v fs

/-- Names of the members every plain object inherits from `Object.prototype`. -/
def inheritedKey (k : String) : Bool :=
  k ∈ ["__proto__", "constructor", "hasOwnProperty", "isPrototypeOf", "propertyIsEnumerable",
       "toLocaleString", "toString", "valueOf", "__defineGetter__", "__defineSetter__",
       "__lookupGetter__", "__lookupSetter__"]

/-- The value of a decimal digit. -/
def digitValue (c : Char) : Option Nat :=
  if '0' ≤ c ∧ c ≤ '9' then some (c.toNat - '0'.toNat) else none

/-- The number written by a list of decimal digits, after the digits already read. -/
def digitsValue : List Char → Nat → Option Nat
  | [], acc => some acc
  | c :: cs, acc =>
    match digitValue c with
    | some d => digitsValue cs (10 * acc + d)
    | none => none

/-- The array index a property key denotes: the key is the decimal form, without sign or
leading zero, of a number below `2^32 - 1`.  Any other key names an ordinary property. -/
def arrayIndex (k : String) : Option Nat :=
  match k.data with
  | [] => none
  | c :: cs =>
    if c = '0' then (if cs = [] then some 0 else none)
    else
      match digitsValue (c :: cs) 0 with
      | some n => if n < 4294967295 then some n else none
      | none => none

/-- Names of the members a string inherits from `String.prototype`, beside those of
`Object.prototype`. -/
def stringMemberNames : List String :=
  ["anchor", "at", "big", "blink", "bold", "charAt", "charCodeAt", "codePointAt", "concat",
   "endsWith", "fixed", "fontcolor", "fontsize", "includes", "indexOf", "isWellFormed",
   "italics", "lastIndexOf", "link", "localeCompare", "match", "matchAll", "normalize",
   "padEnd", "padStart", "repeat", "replace", "replaceAll", "search", "slice", "small",
   "split", "startsWith", "strike", "sub", "substr", "substring", "sup",
   "toLocaleLowerCase", "toLocaleUpperCase", "toLowerCase", "toUpperCase", "toWellFormed",
   "trim", "trimEnd", "trimLeft", "trimRight", "trimStart"]

/-- Names of the members a number inherits from `Number.prototype`, beside those of
`Object.prototype`. -/
def numberMemberNames : List String :=
  ["toExponential", "toFixed", "toPrecision"]

/-- The read `target[k]` on a primitive value other than `null` may find something: a
built-in member inherited from the prototype of the primitive or from `Object.prototype`
(`Boolean.prototype` has no names of its own), or an indexed character or the `length` of
a string.  When it does not, the read yields `undefined`. -/
def primitiveMember (target : JVal) (k : String) : Bool :=
  inheritedKey k ||
    match target with
    | .str _ => k == "length" || (arrayIndex k).isSome || decide (k ∈ stringMemberNames)
    | .num _ => decide (k ∈ numberMemberNames)
    | _ => false

/-- The assignment `target[k] = v` in strict mode.  On an object it sets the own
property `k`, except that `__proto__` reaches the inherited setter unless it is an own
property already.  On a list, an index below the length replaces the item, the index equal
to the length appends, and `length` set to an integer between zero and the present length
truncates; a larger index or length leaves holes, another length throws a `RangeError` or
is coerced, and any other key defines a named property: none of these is followed.  On a
primitive it throws, except that the `__proto__` setter ignores a primitive other than
`null`. -/
def assignProp (target : JVal) (k : String) (v : JVal) : Except Fault JVal :=
  match target with
  | .obj fs =>
    match lookupField k fs with
    | some _ => .ok (.obj (putField k v fs))
    | none => if k = "__proto__" then .error .outsideModel else .ok (.obj (putField k v fs))
  | .arr xs =>
    if k = "length" then
      match v with
      | .num n =>
        if 0 ≤ n ∧ n ≤ (xs.length : Int) then .ok (.arr (xs.take n.toNat))
        else .error .outsideModel
      | _ => .error .outsideModel
    else
      match arrayIndex k with
      | some i =>
        if i < xs.length then .ok (.arr (xs.set i v))
        else if i = xs.length then .ok (.arr (xs ++ [v]))
        else .error .outsideModel
      | none => .error .outsideModel
  | .null => .error .typeError
  | _ => if k = "__proto__" then .error .outsideModel else .error .typeError

/-! ## Dotted paths -/

/-- Splitting a list of characters at every `'.'`; the result is never empty. -/
def splitDot : List Char → List (List Char)
  | [] => [[]]
  | c :: cs =>
    match splitDot cs with
    | [] => [[]]
    | seg :: rest => if c = '.' then [] :: seg :: rest else (c :: seg) :: rest

/-- The segments `path.split('.')`. -/
def splitPath (path : String) : List String :=
  (splitDot path.data).map String.mk

/-! ## `applyStateUpdates` (src/index.js, lines 528-542) -/

/-- One iteration of the outer loop of `applyStateUpdates`, started at `target` with the
segments `keys`: walk the segments but the last, replacing a missing or falsy child by
`{}` before descending, then assign `v` at the last segment.  The child reached by
`target = target[keys[i]]` is aliased by its parent, so the parent is rebuilt around the
updated child.  In a list the walk follows an index: the item there, or a fresh `{}`
appended when the index is the length.  On a primitive other than `null` the read of a
name that is no member yields `undefined`, and the assignment of `{}` that follows throws;
the read of a member is not followed.  (`keys = []` cannot come from `split`; there
`keys[keys.length - 1]` is `undefined` and the assignment is made under the property name
`"undefined"`.) -/
def setPath (target : JVal) : List String → JVal → Except Fault JVal
  | [], v => assignProp target "undefined" v
  | [k], v => assignProp target k v
  | k :: k2 :: rest, v =>
    match target with
    | .obj fs =>
      match lookupField k fs with
      | some c =>
        if truthy c then
          (setPath c (k2 :: rest) v).map (fun c' => .obj (putField k c' fs))
        else
          (setPath (.obj []) (k2 :: rest) v).map (fun c' => .obj (putField k c' fs))
      | none =>
        if inheritedKey k then .error .outsideModel
        else (setPath (.obj []) (k2 :: rest) v).map (fun c' => .obj (putField k c' fs))
    | .arr xs =>
      match arrayIndex k with
      | some i =>
        match xs[i]? with
        | some c =>
          if truthy c then
            (setPath c (k2 :: rest) v).map (fun c' => .arr (xs.set i c'))
          else
            (setPath (.obj []) (k2 :: rest) v).map (fun c' => .arr (xs.set i c'))
        | none =>
          if i = xs.length then
            (setPath (.obj []) (k2 :: rest) v).map (fun c' => .arr (xs ++ [c']))
          else .error .outsideModel
      | none => .error .outsideModel
    | .null => .error .typeError
    | _ => if primitiveMember target k then .error .outsideModel else .error .typeError

/-- The function `applyStateUpdates(updates)` on `stateManager.state`: the entries of the
patch are applied in order.  The result is the state reached and the exception, if any,
that ended the loop; entries applied before the exception stay applied, and the entry that
throws a `TypeError` has written nothing (it throws while still walking existing nodes).
When an entry leaves the model (`Fault.outsideModel`) the run is not followed: the first
component is then the state before that entry, not a state of the code. -/
def applyStateUpdates (state : JVal) : List (String × JVal) → JVal × Option Fault
  | [] => (state, none)
  | (path, value) :: more =>
    match setPath state (splitPath path) value with
    | .ok state' => applyStateUpdates state' more
    | .error e => (state, some e)

/-- Reading the value at a list of segments through own properties of objects and through
the items and the `length` of lists (`state.a.b.c`, `state.a.items.0`, with `undefined`
rendered as `none`). -/
def getPath (t : JVal) : List String → Option JVal
  | [] => some t
  | k :: rest =>
    match t with
    | .obj fs => (lookupField k fs).bind (fun c => getPath c rest)
    | .arr xs =>
      if k = "length" then getPath (.num xs.length) rest
      else
        match arrayIndex k with
        | some i => (xs[i]?).bind (fun c => getPath c rest)
        | none => none
    | _ => none

/-- The inputs on which one patch entry is applied by walking objects only: every node the
walk descends into is an object (a missing or falsy child is replaced by a fresh object),
no segment is read from `Object.prototype`, and the last assignment is made on an object
and does not hit the `__proto__` setter.  Such an entry is applied without exception. -/
def walkable (target : JVal) : List String → Bool
  | [] => false
  | [k] =>
    match target with
    | .obj fs => (lookupField k fs).isSome || k != "__proto__"
    | _ => false
  | k :: k2 :: rest =>
    match target with
    | .obj fs =>
      match lookupField k fs with
      | some c => if truthy c then walkable c (k2 :: rest) else walkable (.obj []) (k2 :: rest)
      | none => !inheritedKey k && walkable (.obj []) (k2 :: rest)
    | _ => false

/-- Two segment lists that part ways at some position: neither is a prefix of the other. -/
def diverge : List String → List String → Bool
  | a :: p, b :: q => if a = b then diverge p q else true
  | _, _ => false

/-- The content of a node seen from outside: an object shows only that it is an object
(its fields are seen through longer paths), every other value shows itself. -/
def leaf : JVal → JVal
  | .obj _ => .obj []
  | x => x

/-- Two states hold the same content: every path is defined in both or in neither, and
holds the same scalar or list, or an object in both.  This is equality of JSON trees up to
the enumeration order of object keys. -/
def sameContent (s t : JVal) : Prop :=
  ∀ q : List String, (getPath s q).map leaf = (getPath t q).map leaf

/-- The node the walk descends into at segment `k` of an object: the child when it is
truthy, a fresh `{}` otherwise. -/
def childOf (fs : List (String × JVal)) (k : String) : JVal :=
  match lookupField k fs with
  | some c => if truthy c then c else .obj []
  | none => .obj []

/-- The entries of a patch write to independent places: the paths diverge two by two. -/
def independentPaths (patch : List (String × JVal)) : Prop :=
  patch.Pairwise (fun a b => diverge (splitPath a.1) (splitPath b.1) = true)

/-- The patch is applied by walking objects only: every entry, at the moment it is applied,
is walkable, or its walk reaches a scalar and the `TypeError` thrown there ends the
patch. -/
def walkablePatch (state : JVal) : List (String × JVal) → Bool
  | [] => true
  | (path, value) :: more =>
    match setPath state (splitPath path) value with
    | .ok state' => walkable state (splitPath path) && walkablePatch state' more
    | .error e => e == Fault.typeError

/-! ## `getDefaultState` (src/index.js, lines 781-834) -/

/-- The value returned by `getDefaultState()`; the initial `stateManager.state`
(lines 102-153) is the same literal. -/
def getDefaultState : JVal :=
  .obj [
    ("character", .obj [
      ("mood", .str "neutral"),
      ("mood_intensity", .num 5),
      ("affection", .num 5),
      ("energy", .num 10),
      ("emotional_state", .str "calm"),
      ("focus_on", .str "user")]),
    ("appearance", .obj [
      ("clothes", .arr []),
      ("clothes_state", .str "pristine"),
      ("clothes_details", .obj []),
      ("body_exposure", .str "none"),
      ("visible_features", .arr [])]),
    ("environment", .obj [
      ("location", .str "unknown"),
      ("time_of_day", .str "afternoon"),
      ("lighting", .str "normal"),
      ("privacy_level", .str "public"),
      ("nearby_people", .arr [])]),
    ("scene", .obj [
      ("characters_present", .arr []),
      ("current_activity", .str "conversation"),
      ("pov_character", .str ""),
      ("scene_intensity", .str "calm"),
      ("scene_type", .str "casual")]),
    ("conversation", .obj [
      ("mode", .str "in_person"),
      ("pacing", .str "normal"),
      ("exchange_style", .str "dialogue_with_action"),
      ("response_length", .str "balanced"),
      ("turn_count", .num 0),
      ("topic", .str "general")]),
    ("pov", .obj [
      ("current_character", .str ""),
      ("can_see", .bool true),
      ("can_hear", .bool true),
      ("can_touch", .bool false),
      ("can_smell", .bool false),
      ("awareness_level", .str "full")]),
    ("history", .obj [
      ("recent_actions", .arr []),
      ("important_events", .arr []),
      ("relationship_changes", .arr [])])]

/-- The seven top-level domains of the conversation state. -/
def domainKeys : List String :=
  ["character", "appearance", "environment", "scene", "conversation", "pov", "history"]

/-- A path has an empty segment: it is empty, starts or ends with a dot, or has two dots
in a row. -/
def hasEmptySegment (path : String) : Bool :=
  decide ("" ∈ splitPath path)

/-- The default state in which a blouse and a skirt are tracked, the blouse with all five
garment fields. -/
def blouseState : JVal :=
  match getDefaultState with
  | .obj fs =>
    .obj (putField "appearance" (.obj [
      ("clothes", .arr []),
      ("clothes_state", .str "pristine"),
      ("clothes_details", .obj [
        ("blouse", .obj [
          ("state", .str "worn"),
          ("position", .str "normal"),
          ("fastened", .bool true),
          ("condition", .str "pristine"),
          ("visibility", .str "visible")]),
        ("skirt", .obj [("state", .str "worn"), ("fastened", .bool true)])]),
      ("body_exposure", .str "none"),
      ("visible_features", .arr [])]) fs)
  | x => x

/-! ## `mergeState`, `loadStateFromMetadata`, `resetState` (src/index.js, lines 839-869, 977-981) -/

/-- The own enumerable properties of a value, as `for (const key in value)`, `value[key]`
and object spread see them: the fields of an object, the indexed items of a list, the
indexed characters of a string; other values have none. -/
def ownEntries : JVal → List (String × JVal)
  | .obj fs => fs
  | .arr xs => (List.range xs.length).zip xs |>.map (fun e => (toString e.1, e.2))
  | .str s => (List.range s.data.length).zip s.data |>.map
      (fun e => (toString e.1, .str (String.singleton e.2)))
  | _ => []

/-- The keys visited by `for (const key in value)`. -/
def ownKeys (t : JVal) : List String :=
  (ownEntries t).map Prod.fst

/-- The own-property read `value[key]`. -/
def getOwn (t : JVal) (k : String) : Option JVal :=
  lookupField k (ownEntries t)

/-- One object spread `...src` into the object literal built so far: every own property
of `src` is defined on the result, a key already there keeping its position. -/
def spreadInto (acc : List (String × JVal)) (src : Option JVal) : List (String × JVal) :=
  match src with
  | none => acc
  | some t =>
    (ownKeys t).foldl
      (fun a k => match getOwn t k with
        | some x => putField k x a
        | none => a)
      acc

/-- The body of the loop of `mergeState` for one key of `savedState`. -/
def mergeStep (savedState defaultState merged : JVal) (key : String) : Except Fault JVal :=
  match getOwn savedState key with
  | some (.obj sf) =>
    assignProp merged key
      (.obj (spreadInto (spreadInto [] (getOwn defaultState key)) (some (.obj sf))))
  | some x => assignProp merged key x
  | none => .error .outsideModel

/-- The loop of `mergeState` over the keys of `savedState`. -/
def mergeLoop (savedState defaultState : JVal) : JVal → List String → Except Fault JVal
  | merged, [] => .ok merged
  | merged, key :: keys =>
    match mergeStep savedState defaultState merged key with
    | .ok merged' => mergeLoop savedState defaultState merged' keys
    | .error e => .error e

/-- The function `mergeState(savedState, defaultState)`.  The deep clone
`JSON.parse(JSON.stringify(defaultState))` of a JSON tree is that tree. -/
def mergeState (savedState defaultState : JVal) : Except Fault JVal :=
  mergeLoop savedState defaultState defaultState (ownKeys savedState)

/-- One record of `stateManager.compressedMemories`. -/
structure Memory where
  summary : String
  original_count : Nat
  timestamp : String
  deriving Repr, DecidableEq

/-- The module-level `stateManager`. -/
structure StateManager where
  state : JVal
  messageHistory : List String
  compressedMemories : List Memory
  initialized : Bool

/-- The value of `chat_metadata.rpg_chatbot` when it is set; a field that is absent (or
holds no list) is `none`. -/
structure SavedChat where
  state : Option JVal
  messageHistory : Option (List String)
  compressedMemories : Option (List Memory)

/-- The `stateManager` the module starts with (lines 101-157). -/
def initialStateManager : StateManager :=
  { state := getDefaultState, messageHistory := [], compressedMemories := [],
    initialized := false }

/-- The function `loadStateFromMetadata()`, with `chat_metadata.rpg_chatbot` as input.  An
exception of `mergeState` leaves `stateManager` as it was. -/
def loadStateFromMetadata (rpg_chatbot : Option SavedChat) (sm : StateManager) :
    StateManager × Option Fault :=
  match rpg_chatbot.bind (fun saved => saved.state.bind
      (fun st => if truthy st then some (saved, st) else none)) with
  | some (saved, st) =>
    match mergeState st getDefaultState with
    | .ok merged =>
      ({ sm with
          state := merged
          messageHistory := saved.messageHistory.getD []
          compressedMemories := saved.compressedMemories.getD [] }, none)
    | .error e => (sm, some e)
  | none => ({ sm with state := getDefaultState }, none)

/-- The function `resetState()`. -/
def resetState (_sm : StateManager) : StateManager :=
  { state := getDefaultState, messageHistory := [], compressedMemories := [],
    initialized := false }

/-- All seven top-level domains are own properties of the state. -/
def hasDomains (s : JVal) : Bool :=
  domainKeys.all (fun k => (getPath s [k]).isSome)

/-! ## `compressMemory` and the ledger steps (src/index.js, lines 394-400, 547-574, 1061-1072) -/

/-- One message of the request sent to the LLM. -/
structure ChatMessage where
  role : String
  content : String
  deriving Repr, DecidableEq

/-- The part of `extension_settings` read by the ledger steps. -/
structure Settings where
  memory_compression : Bool
  compression_threshold : Int

/-- The request `compressMemory` sends to the summarizer for the batch `toCompress`: the
turns of the batch joined with newlines, in their order, after the instruction. -/
def compressionMessages (toCompress : List String) : List ChatMessage :=
  [ { role := "system", content := "You summarize conversations concisely." },
    { role := "user",
      content := "Summarize the following conversation into 2-3 sentences, capturing key events and emotional moments:\n\n"
        ++ "\n".intercalate toCompress } ]

/-- The function `compressMemory()`.  `callLLMA` answers `some summary` or `none` when the
call throws; `now` is the value of `new Date().toISOString()`. -/
def compressMemory (callLLMA : List ChatMessage → Option String) (now : String)
    (sm : StateManager) : StateManager :=
  let keepRecent := 6
  let toCompress := sm.messageHistory.take (sm.messageHistory.length - keepRecent)
  if toCompress.length = 0 then sm
  else
    match callLLMA (compressionMessages toCompress) with
    | some summary =>
      { sm with
          compressedMemories := sm.compressedMemories ++
            [{ summary := summary, original_count := toCompress.length, timestamp := now }]
          messageHistory := sm.messageHistory.drop (sm.messageHistory.length - keepRecent) }
    | none => sm

/-- The statement `stateManager.messageHistory.push(turn)`. -/
def pushTurn (turn : String) (sm : StateManager) : StateManager :=
  { sm with messageHistory := sm.messageHistory ++ [turn] }

/-- Steps 3 and 4 of `processWithLLMA` (lines 394-400): the user turn is appended, then
`compressMemory` runs when compression is enabled and the ledger exceeds the threshold. -/
def recordUserTurn (settings : Settings) (callLLMA : List ChatMessage → Option String)
    (now : String) (userMessage : String) (sm : StateManager) : StateManager :=
  let sm₁ := pushTurn ("User: " ++ userMessage) sm
  if settings.memory_compression
      && decide ((sm₁.messageHistory.length : Int) > settings.compression_threshold) then
    compressMemory callLLMA now sm₁
  else sm₁

/-- The ledger append of the `MESSAGE_RECEIVED` handler (line 1068). -/
def recordCharacterTurn (characterName mes : String) (sm : StateManager) : StateManager :=
  pushTurn (characterName ++ ": " ++ mes) sm

/-- The events that change the ledger and the compaction log. -/
inductive LedgerEvent where
  | userTurn (settings : Settings) (callLLMA : List ChatMessage → Option String)
      (now : String) (userMessage : String) : LedgerEvent
  | characterTurn (characterName mes : String) : LedgerEvent
  | compress (callLLMA : List ChatMessage → Option String) (now : String) : LedgerEvent

/-- The effect of one event. -/
def runEvent (sm : StateManager) : LedgerEvent → StateManager
  | .userTurn settings callLLMA now userMessage =>
    recordUserTurn settings callLLMA now userMessage sm
  | .characterTurn characterName mes => recordCharacterTurn characterName mes sm
  | .compress callLLMA now => compressMemory callLLMA now sm

/-- The effect of a sequence of events, oldest first. -/
def runEvents (sm : StateManager) (events : List LedgerEvent) : StateManager :=
  events.foldl runEvent sm

/-- The number of turns an event appends to the ledger. -/
def LedgerEvent.appended : LedgerEvent → Nat
  | .userTurn _ _ _ _ => 1
  | .characterTurn _ _ => 1
  | .compress _ _ => 0

/-- The number of turns a sequence of events appends. -/
def appendedTurns (events : List LedgerEvent) : Nat :=
  (events.map LedgerEvent.appended).sum

/-- The turns the manager stands for: those folded into compaction records plus the live
ones. -/
def representedTurns (sm : StateManager) : Nat :=
  (sm.compressedMemories.map Memory.original_count).sum + sm.messageHistory.length

/-- The default settings of the ledger steps (lines 87-88). -/
def defaultSettings : Settings :=
  { memory_compression := true, compression_threshold := 20 }

/-- The ledger after twenty-one user turns without compaction. -/
def ledgerOf21 : StateManager :=
  { initialStateManager with messageHistory := List.replicate 21 "User: hi" }

/-- The value `mergeState` stores under a key of `savedState`: the saved fields spread
over the default ones when the saved value is an object, the saved value itself
otherwise. -/
def mergedValue (savedState defaultState : JVal) (key : String) : JVal :=
  match getOwn savedState key with
  | some (.obj sf) =>
    .obj (spreadInto (spreadInto [] (getOwn defaultState key)) (some (.obj sf)))
  | some x => x
  | none => .null

/-! ## Runs that consult the LLM (src/index.js, lines 397-400, 547-574) -/

/-- The outcome of a piece of code that may call `llmClients.callLLMA`: the value it
computes and the requests it sent, oldest first. -/
structure Traced (α : Type) where
  value : α
  requests : List (List ChatMessage)

/-- A piece of code that sends nothing. -/
def Traced.pure {α : Type} (a : α) : Traced α :=
  { value := a, requests := [] }

/-- Sequencing: the requests of the first piece, then those of the piece that continues
with its value. -/
def Traced.bind {α β : Type} (x : Traced α) (f : α → Traced β) : Traced β :=
  { value := (f x.value).value, requests := x.requests ++ (f x.value).requests }

/-- The call `await llmClients.callLLMA(messages)`: the request is sent, and the value is
the answer, `none` when the call throws.  The code reaches the LLM through this call
only. -/
def askLLMA (callLLMA : List ChatMessage → Option String) (messages : List ChatMessage) :
    Traced (Option String) :=
  { value := callLLMA messages, requests := [messages] }

/-- The function `compressMemory()` together with the requests it sends: none when the
batch is empty (line 552 returns before the call), one for the batch otherwise. -/
def compressMemoryTraced (callLLMA : List ChatMessage → Option String) (now : String)
    (sm : StateManager) : Traced StateManager :=
  let keepRecent := 6
  let toCompress := sm.messageHistory.take (sm.messageHistory.length - keepRecent)
  if toCompress.length = 0 then Traced.pure sm
  else
    (askLLMA callLLMA (compressionMessages toCompress)).bind (fun answer =>
      match answer with
      | some summary =>
        Traced.pure { sm with
          compressedMemories := sm.compressedMemories ++
            [{ summary := summary, original_count := toCompress.length, timestamp := now }]
          messageHistory := sm.messageHistory.drop (sm.messageHistory.length - keepRecent) }
      | none => Traced.pure sm)

/-- Step 4 of `processWithLLMA` (lines 397-400) on the ledger as it stands after the
append: `compressMemory` runs when compression is enabled and the live turn count exceeds
the threshold. -/
def compactionTrigger (settings : Settings) (callLLMA : List ChatMessage → Option String)
    (now : String) (sm : StateManager) : StateManager :=
  if settings.memory_compression
      && decide ((sm.messageHistory.length : Int) > settings.compression_threshold) then
    compressMemory callLLMA now sm
  else sm

/-- Step 4 of `processWithLLMA` together with the requests it sends. -/
def compactionTriggerTraced (settings : Settings)
    (callLLMA : List ChatMessage → Option String) (now : String) (sm : StateManager) :
    Traced StateManager :=
  if settings.memory_compression
      && decide ((sm.messageHistory.length : Int) > settings.compression_threshold) then
    compressMemoryTraced callLLMA now sm
  else Traced.pure sm

/-- The call `applyStateUpdates(updates)` seen on the whole `stateManager`: only the
`state` member is touched. -/
def applyStateUpdatesOn (sm : StateManager) (updates : List (String × JVal)) :
    StateManager × Option Fault :=
  ({ sm with state := (applyStateUpdates sm.state updates).1 },
    (applyStateUpdates sm.state updates).2)

/-! ## Values in templates and property reads with fixed names -/

mutual
/-- The string a template literal or a property key makes of a JSON value (`ToString`). -/
def jsToString : JVal → String
  | .null => "null"
  | .bool b => if b then "true" else "false"
  | .num n => toString n
  | .str s => s
  | .arr xs => ",".intercalate (jsItems xs)
  | .obj _ => "[object Object]"
/-- The strings `Array.prototype.join` makes of the items of a list: `null` gives the
empty string. -/
def jsItems : List JVal → List String
  | [] => []
  | .null :: xs => "" :: jsItems xs
  | x :: xs => jsToString x :: jsItems xs
end

/-- A value interpolated in a template literal, `undefined` included. -/
def renderValue : Option JVal → String
  | some v => jsToString v
  | none => "undefined"

/-- The read `value.name` for one of the fixed member names the code uses (none of them
is a built-in member of a string, list or object): the own property of an object,
`undefined` on any other value.  Reading a member of `null` throws; the callers test for
`null` first. -/
def getField (t : JVal) (name : String) : Option JVal :=
  match t with
  | .obj fs => lookupField name fs
  | _ => none

/-- The expression `value || fallback`. -/
def jsOr (v : Option JVal) (fallback : JVal) : JVal :=
  match v with
  | some x => if truthy x then x else fallback
  | none => fallback

/-- The truthiness of a value that may be `undefined`. -/
def isTruthy (v : Option JVal) : Bool :=
  match v with
  | some x => truthy x
  | none => false

/-- The test `value === "text"`. -/
def isStr (v : Option JVal) (text : String) : Bool :=
  match v with
  | some (.str s) => s == text
  | _ => false

/-- The test `sub` occurs in `cs`, on lists of characters. -/
def includesChars (sub : List Char) : List Char → Bool
  | [] => sub.isEmpty
  | c :: cs => sub.isPrefixOf (c :: cs) || includesChars sub cs

/-- The call `item.includes(sub)`. -/
def jsIncludes (item sub : String) : Bool :=
  includesChars sub.data item.data

/-- The value of `text.length`: the number of UTF-16 code units. -/
def utf16Length (text : String) : Nat :=
  (text.data.map (fun c => if c.val ≥ 0x10000 then 2 else 1)).sum

/-! ## Lookup tables (src/index.js, lines 14-75) -/

/-- One entry of `CONVERSATION_MODES`. -/
structure ModeEntry where
  allows : List String
  restricts : List String
  instruction : String
  length_default : String

/-- The table `CONVERSATION_MODES`. -/
def CONVERSATION_MODES : List (String × ModeEntry) :=
  [ ("in_person",
      { allows := ["dialogue", "actions", "expressions", "environment", "touch"],
        restricts := [],
        instruction := "Full roleplay with actions and narration",
        length_default := "balanced" }),
    ("phone_call",
      { allows := ["dialogue", "voice_tone", "background_sounds"],
        restricts := ["visual_descriptions", "body_language", "physical_actions"],
        instruction := "CRITICAL: User can ONLY hear audio. NO visual descriptions, body language, or physical actions. Only dialogue, voice tone, and sounds.",
        length_default := "brief" }),
    ("text_message",
      { allows := ["text_content", "emojis"],
        restricts := ["all_physical_descriptions", "actions", "narration"],
        instruction := "CRITICAL: Respond ONLY with the text message content. NO actions, narration, or descriptions. Just the message text.",
        length_default := "brief" }),
    ("video_call",
      { allows := ["dialogue", "facial_expressions", "upper_body", "background"],
        restricts := ["full_body", "physical_touch", "smell"],
        instruction := "CRITICAL: User can only see upper body/face on camera. NO full body descriptions or physical touch. Limited to what's visible on screen.",
        length_default := "balanced" }),
    ("letter",
      { allows := ["written_content", "formal_tone"],
        restricts := ["realtime_interaction"],
        instruction := "Written correspondence - formal letter format with greeting and closing.",
        length_default := "detailed" }),
    ("thoughts",
      { allows := ["internal_monologue", "character_perspective"],
        restricts := ["direct_interaction"],
        instruction := "Character's internal thoughts - first-person perspective, no direct interaction with user.",
        length_default := "detailed" }) ]

/-- One entry of `PACING_TYPES`. -/
structure PacingEntry where
  sentences : String
  instruction : String
  use_when : List String

/-- The table `PACING_TYPES`. -/
def PACING_TYPES : List (String × PacingEntry) :=
  [ ("rapid_fire",
      { sentences := "1-2",
        instruction := "Keep response BRIEF: 1-2 sentences max. Quick exchange.",
        use_when := ["phone_calls", "arguments", "urgent_situations", "quick_questions"] }),
    ("normal",
      { sentences := "2-4",
        instruction := "Standard conversation flow with dialogue and some action/description.",
        use_when := ["regular_dialogue", "casual_chat"] }),
    ("slow_burn",
      { sentences := "4-8",
        instruction := "Detailed response allowed: Full narration with internal thoughts and atmosphere.",
        use_when := ["emotional_moments", "important_decisions", "intimate_scenes"] }),
    ("contemplative",
      { sentences := "6-10",
        instruction := "Detailed, atmospheric narration with deep introspection.",
        use_when := ["character_alone", "processing_events", "time_passage"] }) ]

/-- Own-property lookup in a table keyed by strings. -/
def tableLookup {α : Type} (key : String) : List (String × α) → Option α
  | [] => none
  | (k, x) :: rest => if k = key then some x else tableLookup key rest

/-! ## The context injection of `processWithLLMA` (src/index.js, lines 402-501) -/

/-- The five lists filled by the loop over `clothes_details` (lines 425-429). -/
structure ClothingGroups where
  worn : List String
  removed : List String
  loosened : List String
  damaged : List String
  underwearVisible : List String

/-- The description pushed to `worn` for an item whose state is `"worn"` (lines 433-436). -/
def wornDescription (item : String) (details : JVal) : String :=
  item
    ++ (if isStr (getField details "position") "normal" then ""
        else " (" ++ renderValue (getField details "position") ++ ")")
    ++ (if isStr (getField details "condition") "pristine" then ""
        else " [" ++ renderValue (getField details "condition") ++ "]")
    ++ (if isTruthy (getField details "fastened") then "" else " [unfastened]")

/-- The test of line 440: the item name contains `bra`, `panties` or `underwear`, and the
visibility is `"visible"`. -/
def flagsUnderwear (item : String) (details : JVal) : Bool :=
  (jsIncludes item "bra" || jsIncludes item "panties" || jsIncludes item "underwear")
    && isStr (getField details "visibility") "visible"

/-- One iteration of the loop of lines 431-450.  Reading `details.state` of `null`
throws. -/
def clothingStep (groups : ClothingGroups) (item : String) (details : JVal) :
    Except Fault ClothingGroups :=
  match details with
  | .null => .error .typeError
  | _ =>
    if isStr (getField details "state") "worn" then
      .ok { groups with
        worn := groups.worn ++ [wornDescription item details]
        underwearVisible :=
          if flagsUnderwear item details then groups.underwearVisible ++ [item]
          else groups.underwearVisible }
    else if isStr (getField details "state") "removed" then
      .ok { groups with removed := groups.removed ++ [item] }
    else if isStr (getField details "state") "loosened"
        || isStr (getField details "state") "shifted" then
      .ok { groups with
        loosened := groups.loosened
          ++ [item ++ " (" ++ renderValue (getField details "state") ++ ")"] }
    else if isStr (getField details "state") "torn" then
      .ok { groups with damaged := groups.damaged ++ [item ++ " (torn)"] }
    else .ok groups

/-- The loop of lines 431-450 over `Object.entries(clothesDetails)`. -/
def clothingLoop : ClothingGroups → List (String × JVal) → Except Fault ClothingGroups
  | groups, [] => .ok groups
  | groups, (item, details) :: rest =>
    match clothingStep groups item details with
    | .ok groups' => clothingLoop groups' rest
    | .error e => .error e

/-- The line appended for one group when it is not empty. -/
def groupLine (label : String) (items : List String) : String :=
  if items.length > 0 then label ++ ", ".intercalate items ++ "\n" else ""

/-- The flagged line for visible underwear (line 457). -/
def underwearLine (items : List String) : String :=
  groupLine "⚠️ Underwear visible: " items

/-- The text assembled from the five lists (lines 452-458). -/
def clothingText (groups : ClothingGroups) (bodyExposure : JVal) : String :=
  "CLOTHING STATE:\n"
    ++ groupLine "Wearing: " groups.worn
    ++ groupLine "Removed: " groups.removed
    ++ groupLine "Loosened/Shifted: " groups.loosened
    ++ groupLine "Damaged: " groups.damaged
    ++ underwearLine groups.underwearVisible
    ++ "Body exposure: " ++ jsToString bodyExposure

/-- The lists the loop of lines 431-450 computes for `appearance`. -/
def clothingGroups (appearance : JVal) : Except Fault ClothingGroups :=
  clothingLoop
    { worn := [], removed := [], loosened := [], damaged := [], underwearVisible := [] }
    (ownEntries (jsOr (getField appearance "clothes_details") (.obj [])))

/-- The clothing summary of lines 419-461 for the `appearance` domain. -/
def clothingSummary (appearance : JVal) : Except Fault String :=
  if (ownKeys (jsOr (getField appearance "clothes_details") (.obj []))).length > 0 then
    (clothingGroups appearance).map
      (fun groups => clothingText groups (jsOr (getField appearance "body_exposure") (.str "none")))
  else .ok "CLOTHING: Not tracked (no outfit specified yet)"

/-- The block of lines 481-486 for the active conversation mode.  A name inherited from
`Object.prototype` yields a built-in without `restricts`, and reading its `length`
throws. -/
def modeInstructionBlock (conversationMode : JVal) : Except Fault String :=
  match tableLookup (jsToString conversationMode) CONVERSATION_MODES with
  | some modeConfig =>
    if modeConfig.restricts.length > 0 then
      .ok ("\n[RESPONSE INSTRUCTIONS]\n" ++ modeConfig.instruction ++ "\n")
    else .ok ""
  | none =>
    if inheritedKey (jsToString conversationMode) then .error .typeError else .ok ""

/-- The line of lines 488-492 for the active pacing.  A name inherited from
`Object.prototype` yields a built-in whose `instruction` is `undefined`. -/
def pacingInstructionLine (pacing : JVal) : String :=
  match tableLookup (jsToString pacing) PACING_TYPES with
  | some pacingConfig => pacingConfig.instruction ++ "\n"
  | none => if inheritedKey (jsToString pacing) then "undefined\n" else ""

/-- The sentence range shown in the trailer (line 494). -/
def pacingSentences (pacing : JVal) : String :=
  match tableLookup (jsToString pacing) PACING_TYPES with
  | some pacingConfig => pacingConfig.sentences
  | none => if inheritedKey (jsToString pacing) then "undefined" else "2-4"

/-- The active conversation mode: `conversation.mode || "in_person"` with
`conversation = stateManager.state.conversation || {}` (lines 408, 415). -/
def activeConversationMode (state : JVal) : JVal :=
  jsOr (getField (jsOr (getField state "conversation") (.obj [])) "mode") (.str "in_person")

/-- The items the loop of lines 431-450 pushes to `underwearVisible`: the names of the
entries whose state is `"worn"` and that pass the test of line 440, in the order of the
entries. -/
def flaggedItems (entries : List (String × JVal)) : List String :=
  (entries.filter
    (fun e => isStr (getField e.2 "state") "worn" && flagsUnderwear e.1 e.2)).map Prod.fst

/-- The entries of `appearance.clothes_details || {}` (line 421). -/
def clothesEntries (appearance : JVal) : List (String × JVal) :=
  ownEntries (jsOr (getField appearance "clothes_details") (.obj []))

/-- The pieces of `extensionPromptText`, in the order in which they are appended. -/
structure PromptParts where
  sceneContext : String
  modeBlock : String
  pacingLine : String
  trailer : String
  povLine : String
  footer : String

/-- The text handed to `setExtensionPrompt`: the pieces in order. -/
def PromptParts.text (parts : PromptParts) : String :=
  parts.sceneContext ++ parts.modeBlock ++ parts.pacingLine ++ parts.trailer
    ++ parts.povLine ++ parts.footer

/-- Step 5 of `processWithLLMA` (lines 402-501): the pieces of the context injection
built from the state, the analysis and the character name.  Reading a member of a `null`
state throws. -/
def renderPromptParts (state analysis : JVal) (characterName : String) :
    Except Fault PromptParts :=
  match state with
  | .null => .error .typeError
  | _ =>
    let contextSummary := jsOr (getField analysis "context_summary") (.str "Continuing conversation")
    let pov := jsOr (getField state "pov") (.obj [])
    let conversation := jsOr (getField state "conversation") (.obj [])
    let character := jsOr (getField state "character") (.obj [])
    let environment := jsOr (getField state "environment") (.obj [])
    let scene := jsOr (getField state "scene") (.obj [])
    let appearance := jsOr (getField state "appearance") (.obj [])
    let povCharacter := jsOr (getField pov "current_character") (.str characterName)
    let conversationMode := jsOr (getField conversation "mode") (.str "in_person")
    let pacing := jsOr (getField conversation "pacing") (.str "normal")
    match clothingSummary appearance with
    | .error e => .error e
    | .ok clothes_summary =>
      match modeInstructionBlock conversationMode with
      | .error e => .error e
      | .ok modeBlock =>
        .ok {
          sceneContext :=
            "[SCENE CONTEXT]\n" ++ jsToString contextSummary ++ "\n"
              ++ "Mood: " ++ jsToString (jsOr (getField character "mood") (.str "neutral"))
              ++ " | Location: "
              ++ jsToString (jsOr (getField environment "location") (.str "unknown"))
              ++ " | Intensity: "
              ++ jsToString (jsOr (getField scene "scene_intensity") (.str "calm")) ++ "\n"
              ++ "\n" ++ clothes_summary ++ "\n"
          modeBlock := modeBlock
          pacingLine := pacingInstructionLine pacing
          trailer :=
            "\nMode: " ++ jsToString conversationMode ++ " | Pacing: " ++ jsToString pacing
              ++ " (" ++ pacingSentences pacing ++ " sentences)\n"
          povLine :=
            if (match povCharacter with
                | .str s => s != characterName
                | _ => true) then
              "\nPOV: Respond from " ++ jsToString povCharacter
                ++ "'s perspective. Awareness level: "
                ++ jsToString (jsOr (getField pov "awareness_level") (.str "full")) ++ "\n"
            else ""
          footer := "[END CONTEXT]\n" }

/-! ## `processWithLLMA` (src/index.js, lines 336-523) -/

/-- The settings read by `processWithLLMA` and `buildSmartContextForLLMB`. -/
structure ExtensionSettings extends Settings where
  enabled : Bool
  smart_context_mode : Option String
  compress_character_card : Bool

/-- The match of `/\{[\s\S]*\}/` in the reply: from the first opening brace to the last
closing brace after it. -/
def extractJson (reply : String) : Option String :=
  match reply.data.dropWhile (fun c => c != '{') with
  | [] => none
  | brace :: rest =>
    match rest.reverse.dropWhile (fun c => c != '}') with
    | [] => none
    | tail => some (String.mk (brace :: tail.reverse))

/-- The analysis substituted when the reply cannot be parsed (lines 378-382). -/
def fallbackAnalysis : JVal :=
  .obj [
    ("state_updates", .obj []),
    ("context_summary", .str "Continuing conversation"),
    ("response_style", .str "balanced")]

/-- The inner `try` of lines 367-383: the analysis parsed from the reply, or the fallback
when no braces are found or `JSON.parse` (the argument `jsonParse`, `none` when it
throws) rejects the text. -/
def parseAnalysis (jsonParse : String → Option JVal) (reply : String) : JVal :=
  match extractJson reply with
  | some text =>
    match jsonParse text with
    | some analysis => analysis
    | none => fallbackAnalysis
  | none => fallbackAnalysis

/-- What the outer `catch` of `processWithLLMA` reports with `toastr.error`. -/
inductive TurnError where
  /-- The classifier call threw. -/
  | transport : TurnError
  /-- An exception of the steps after the call. -/
  | fault (f : Fault) : TurnError

/-- The inputs of one call of `processWithLLMA` that come from outside the module. -/
structure TurnInput where
  userMessage : String
  /-- The member `name2` of `getContext()`; absent or empty gives `"Character"`. -/
  name2 : Option String
  /-- The answer of the classifier call of line 364; `none` when the call throws. -/
  llmAResponse : Option String
  /-- The value of `new Date().toISOString()` during the call. -/
  now : String

/-- The effects of one call of `processWithLLMA`. -/
structure TurnOutcome where
  manager : StateManager
  /-- The return value: the analysis, or `none` for `null`. -/
  result : Option JVal
  /-- The text handed to `setExtensionPrompt`, when the call gets there. -/
  extensionPrompt : Option String
  /-- The error shown by the outer `catch`. -/
  error : Option TurnError

/-- The expression `context.name2 || "Character"` (line 347). -/
def characterNameOf (name2 : Option String) : String :=
  match name2 with
  | some name => if name = "" then "Character" else name
  | none => "Character"

/-- The function `processWithLLMA(userMessage)`.  `jsonParse` is `JSON.parse` and
`callLLMA` answers the request of `compressMemory`.  The debug panel, the state panel and
the save to the metadata store are not modelled. -/
def processWithLLMA (settings : ExtensionSettings) (jsonParse : String → Option JVal)
    (callLLMA : List ChatMessage → Option String) (input : TurnInput) (sm : StateManager) :
    TurnOutcome :=
  if !settings.enabled then
    { manager := sm, result := none, extensionPrompt := none, error := none }
  else
    match input.llmAResponse with
    | none =>
      { manager := sm, result := none, extensionPrompt := none, error := some .transport }
    | some reply =>
      let analysis := parseAnalysis jsonParse reply
      match analysis with
      | .null =>
        { manager := sm, result := none, extensionPrompt := none,
          error := some (.fault .typeError) }
      | _ =>
        match applyStateUpdatesOn sm
            (ownEntries (jsOr (getField analysis "state_updates") (.obj []))) with
        | (sm₁, some f) =>
          { manager := sm₁, result := none, extensionPrompt := none, error := some (.fault f) }
        | (sm₁, none) =>
          let sm₂ := recordUserTurn settings.toSettings callLLMA input.now input.userMessage sm₁
          match renderPromptParts sm₂.state analysis (characterNameOf input.name2) with
          | .error f =>
            { manager := sm₂, result := none, extensionPrompt := none,
              error := some (.fault f) }
          | .ok parts =>
            { manager := sm₂, result := some analysis, extensionPrompt := some parts.text,
              error := none }

/-! ## `buildSmartContextForLLMB` (src/index.js, lines 586-687) -/

/-- One entry of `modeConfigs`; a member that is `undefined` is `none`. -/
structure ModeConfig where
  keepMessages : Option Nat
  charCardTokens : Option Nat
  includeCompressed : Bool
  deriving Repr, DecidableEq

/-- The table `modeConfigs` (lines 597-602). -/
def modeConfigs : List (String × ModeConfig) :=
  [ ("minimal", { keepMessages := some 3, charCardTokens := some 150, includeCompressed := false }),
    ("balanced", { keepMessages := some 6, charCardTokens := some 300, includeCompressed := true }),
    ("aggressive", { keepMessages := some 10, charCardTokens := some 500, includeCompressed := true }),
    ("auto", { keepMessages := some 6, charCardTokens := some 300, includeCompressed := true }) ]

/-- The expression `modeConfigs[mode] || modeConfigs["balanced"]` (line 604).  A name
inherited from `Object.prototype` yields a truthy built-in, all of whose configuration
members are `undefined`. -/
def configFor (mode : String) : ModeConfig :=
  match tableLookup mode modeConfigs with
  | some config => config
  | none =>
    if inheritedKey mode then
      { keepMessages := none, charCardTokens := none, includeCompressed := false }
    else { keepMessages := some 6, charCardTokens := some 300, includeCompressed := true }

/-- The expression `settings.smart_context_mode || "auto"` (line 591). -/
def activeProfile (settings : ExtensionSettings) : String :=
  match settings.smart_context_mode with
  | some mode => if mode = "" then "auto" else mode
  | none => "auto"

/-- One message of the host chat `context.chat`, with the members the function reads. -/
structure ChatEntry where
  is_user : Bool
  mes : String
  name : String
  deriving Repr, DecidableEq

/-- The members of `getContext()` read by `buildSmartContextForLLMB`; an absent chat is
the empty list. -/
structure HostContext where
  characterDescription : Option String
  chat : List ChatEntry

/-- One item of `smartContext.compressedHistory`. -/
structure CompressedEntry where
  summary : String
  messageCount : Nat
  deriving Repr, DecidableEq

/-- One item of `smartContext.recentMessages`. -/
structure RecentMessage where
  role : String
  content : String
  name : String
  deriving Repr, DecidableEq

/-- The object `smartContext`. -/
structure SmartContext where
  characterCard : String
  compressedHistory : List CompressedEntry
  recentMessages : List RecentMessage
  stateContext : String
  deriving Repr, DecidableEq

/-- The estimate `Math.ceil(charDesc.length / 4)` (line 613). -/
def estimatedTokens (charDesc : String) : Nat :=
  (utf16Length charDesc + 3) / 4

/-- The request for a condensed character card (lines 615-629). -/
def characterCardMessages (charCardTokens : Nat) (charDesc : String) : List ChatMessage :=
  [ { role := "system", content := "You extract key character information concisely." },
    { role := "user",
      content := "Condense this character description to " ++ toString charCardTokens
        ++ " tokens max, keeping ONLY:\n- Name, age, key personality traits\n- Current relationship with user\n- Critical background facts\n- Physical appearance (brief)\n\nCharacter Description:\n"
        ++ charDesc ++ "\n\nCondensed version (" ++ toString charCardTokens ++ " tokens max):" } ]

/-- The test of lines 609-614: the card is sent to the summarizer when compression of the
card is enabled, the description is not empty and its estimate exceeds the budget.  The
result is the budget in that case. -/
def cardBudgetExceeded (settings : ExtensionSettings) (context : HostContext)
    (config : ModeConfig) : Option (Nat × String) :=
  match context.characterDescription, config.charCardTokens with
  | some charDesc, some budget =>
    if settings.compress_character_card && charDesc != ""
        && decide (estimatedTokens charDesc > budget) then some (budget, charDesc)
    else none
  | _, _ => none

/-- Step 1 of `buildSmartContextForLLMB` (lines 607-637): the character card, `none` when
the call to the summarizer throws, together with the request sent. -/
def compressCharacterCard (settings : ExtensionSettings) (context : HostContext)
    (config : ModeConfig) (callLLMA : List ChatMessage → Option String) :
    Traced (Option String) :=
  match cardBudgetExceeded settings context config with
  | some (budget, charDesc) => askLLMA callLLMA (characterCardMessages budget charDesc)
  | none =>
    match context.characterDescription with
    | some charDesc =>
      Traced.pure (if settings.compress_character_card then some charDesc else some "")
    | none => Traced.pure (some "")

/-- The conversion of one chat message (lines 661-665). -/
def toRecentMessage (msg : ChatEntry) : RecentMessage :=
  { role := if msg.is_user then "user" else "assistant", content := msg.mes, name := msg.name }

/-- Step 5 of `buildSmartContextForLLMB` (lines 659-665): the messages from
`Math.max(0, totalMessages - config.keepMessages)` on; with `keepMessages` undefined the
start is `NaN` and `slice` starts at 0. -/
def recentMessagesOf (config : ModeConfig) (chat : List ChatEntry) : List RecentMessage :=
  match config.keepMessages with
  | some keep => (chat.drop (chat.length - keep)).map toRecentMessage
  | none => chat.map toRecentMessage

/-- Step 4 of `buildSmartContextForLLMB` (lines 651-657). -/
def compressedHistoryOf (config : ModeConfig) (compressedMemories : List Memory) :
    List CompressedEntry :=
  if config.includeCompressed && decide (compressedMemories.length > 0) then
    compressedMemories.map (fun mem => { summary := mem.summary, messageCount := mem.original_count })
  else []

/-- The expression `state.history?.important_events?.slice(-3).join("; ") || "None"`
(line 679): a missing or `null` link gives `"None"`; a list gives its last three items
joined, or `"None"` when that is empty; any other value has no `slice` or no `join`, and
the call throws. -/
def recentEventsText (state : JVal) : Except Fault String :=
  match getField state "history" with
  | none => .ok "None"
  | some history =>
    match getField history "important_events" with
    | none => .ok "None"
    | some .null => .ok "None"
    | some (.arr events) =>
      let joined := "; ".intercalate (jsItems (events.drop (events.length - 3)))
      .ok (if joined = "" then "None" else joined)
    | some _ => .error .typeError

/-- Step 6 of `buildSmartContextForLLMB` (lines 667-679): the rendered state.  Reading a
member of a `null` state throws. -/
def renderStateContext (state : JVal) : Except Fault String :=
  match state with
  | .null => .error .typeError
  | _ =>
    let character := jsOr (getField state "character") (.obj [])
    let appearance := jsOr (getField state "appearance") (.obj [])
    let environment := jsOr (getField state "environment") (.obj [])
    let scene := jsOr (getField state "scene") (.obj [])
    (recentEventsText state).map (fun events =>
      "[CURRENT STATE - Replaces old chat history]\n"
        ++ "Relationship: Affection " ++ renderValue (getField character "affection")
        ++ "/10, Mood: " ++ renderValue (getField character "mood")
        ++ " (" ++ renderValue (getField character "mood_intensity") ++ "/10)\n"
        ++ "Location: " ++ renderValue (getField environment "location")
        ++ " (" ++ renderValue (getField environment "time_of_day")
        ++ ", " ++ renderValue (getField environment "lighting") ++ " lighting)\n"
        ++ "Scene: " ++ renderValue (getField scene "current_activity")
        ++ ", Intensity: " ++ renderValue (getField scene "scene_intensity") ++ "\n"
        ++ "Clothing: "
        ++ (if isTruthy (getField appearance "clothes_details") then
              ", ".intercalate (ownKeys (jsOr (getField appearance "clothes_details") (.obj [])))
            else "Not tracked") ++ "\n"
        ++ "Recent events: " ++ events)

/-- The function `buildSmartContextForLLMB()` together with the requests it sends: the
value `none` is the result `null` (profile `off`, or an exception caught by the `catch` of
lines 683-686). -/
def buildSmartContextForLLMB (settings : ExtensionSettings) (context : HostContext)
    (callLLMA : List ChatMessage → Option String) (sm : StateManager) :
    Traced (Option SmartContext) :=
  if activeProfile settings = "off" then Traced.pure none
  else
    let config := configFor (activeProfile settings)
    (compressCharacterCard settings context config callLLMA).bind (fun card =>
      match card with
      | none => Traced.pure none
      | some compressedCharCard =>
        match renderStateContext sm.state with
        | .error _ => Traced.pure none
        | .ok stateContext =>
          Traced.pure (some {
            characterCard := compressedCharCard
            compressedHistory := compressedHistoryOf config sm.compressedMemories
            recentMessages := recentMessagesOf config context.chat
            stateContext := stateContext }))

/-! ## Sample inputs -/

/-- Settings with the extension enabled, the default ledger settings and the given budget
profile and card switch. -/
def settingsWith (profile : String) (compressCard : Bool) : ExtensionSettings :=
  { memory_compression := true, compression_threshold := 20, enabled := true,
    smart_context_mode := some profile, compress_character_card := compressCard }

/-- A character sheet of the given number of characters. -/
def sheetOf (n : Nat) : String :=
  String.mk (List.replicate n 'a')

/-- A host chat of the given number of messages, alternating user and character. -/
def chatOf (n : Nat) : List ChatEntry :=
  (List.range n).map (fun i =>
    { is_user := i % 2 == 0, mes := if i % 2 == 0 then "hello" else "hi there",
      name := if i % 2 == 0 then "User" else "Mira" })

/-- A manager with the default state and two compaction records. -/
def managerWithTwoRecords : StateManager :=
  { state := getDefaultState, messageHistory := ["User: hi"],
    compressedMemories :=
      [ { summary := "They met.", original_count := 15, timestamp := "t1" },
        { summary := "They talked.", original_count := 9, timestamp := "t2" } ],
    initialized := true }

/-- An `appearance` domain in which the bra is removed and marked visible. -/
def removedBraAppearance : JVal :=
  .obj [
    ("clothes_details", .obj [
      ("bra", .obj [
        ("state", .str "removed"),
        ("position", .str "normal"),
        ("fastened", .bool false),
        ("condition", .str "pristine"),
        ("visibility", .str "visible")])]),
    ("body_exposure", .str "partial")]

/-- An `appearance` domain in which the only item is a bracelet, worn and visible. -/
def braceletAppearance : JVal :=
  .obj [
    ("clothes_details", .obj [
      ("bracelet", .obj [
        ("state", .str "worn"),
        ("position", .str "normal"),
        ("fastened", .bool true),
        ("condition", .str "pristine"),
        ("visibility", .str "visible")])]),
    ("body_exposure", .str "none")]

/-- An `appearance` domain in which the blouse is removed and the bra is worn and
visible. -/
def visibleBraAppearance : JVal :=
  .obj [
    ("clothes_details", .obj [
      ("blouse", .obj [("state", .str "removed"), ("visibility", .str "visible")]),
      ("bra", .obj [
        ("state", .str "worn"),
        ("position", .str "normal"),
        ("fastened", .bool true),
        ("condition", .str "pristine"),
        ("visibility", .str "visible")])]),
    ("body_exposure", .str "significant")]

/-- An `appearance` domain as the two example patches of the classifier prompt leave it
(lines 316-319, each record replaced wholesale): the blouse record holds `fastened` only
and the bra record `visibility` only, neither has a state. -/
def statelessBraAppearance : JVal :=
  .obj [
    ("clothes_details", .obj [
      ("blouse", .obj [("fastened", .bool false)]),
      ("bra", .obj [("visibility", .str "visible")])]),
    ("body_exposure", .str "partial")]

/-- The default state in which two important events are recorded. -/
def eventsState : JVal :=
  (applyStateUpdates getDefaultState
    [("history.important_events", .arr [.str "met at the library", .str "first kiss"])]).1

/-- The default state with the given conversation mode. -/
def stateWithMode (mode : String) : JVal :=
  (applyStateUpdates getDefaultState [("conversation.mode", .str mode)]).1

/-! ## Well-formed property lists -/

/-- The keys of a property list, in order. -/
def fieldKeys (fs : List (String × JVal)) : List String :=
  fs.map Prod.fst

/-- The key order after assigning the keys `ks` one by one: a key already present keeps
its place, a new key goes to the end. -/
def appendNew (acc : List String) (ks : List String) : List String :=
  ks.foldl (fun a k => if k ∈ a then a else a ++ [k]) acc

/-- A property list in which every key occurs once, as in a JavaScript object. -/
def uniqueKeys (fs : List (String × JVal)) : Bool :=
  decide (fieldKeys fs).Nodup

/-- A default state as a JavaScript object holds it: every key occurs once at the top
level and in every domain that is an object. -/
def wellKeyed (df : List (String × JVal)) : Bool :=
  uniqueKeys df && df.all (fun e =>
    match e.2 with
    | .obj fs => uniqueKeys fs
    | _ => true)

/-- A state holds every default field of every domain: every key of the default is a key
of the state, and where both values are objects every field of the default domain is a
field of the state's domain. -/
def holdsDefaults (sf df : List (String × JVal)) : Prop :=
  ∀ k d, lookupField k df = some d →
    ∃ x, lookupField k sf = some x ∧
      ∀ xs, x = .obj xs → ∀ f, (getOwn d f).isSome = true → (lookupField f xs).isSome = true

/-! ## Lemmas on property lists and path walks -/

theorem lookupField_putField_same (k : String) (v : JVal) (fs : List (String × JVal)) :
    lookupField k (putField k v fs) = some v := by
  induction fs with
  | nil => simp [putField, lookupField]
  | cons e fs ih =>
    obtain ⟨k', x⟩ := e
    by_cases h : k' = k
    · simp [putField, lookupField, h]
    · simp [putField, lookupField, h, ih]

theorem lookupField_putField_other {k k' : String} (h : k' ≠ k) (v : JVal)
    (fs : List (String × JVal)) :
    lookupField k' (putField k v fs) = lookupField k' fs := by
  induction fs with
  | nil => simp [putField, lookupField, Ne.symm h]
  | cons e fs ih =>
    obtain ⟨k₀, x⟩ := e
    by_cases h₀ : k₀ = k
    · subst h₀
      simp [putField, lookupField, Ne.symm h]
    · by_cases h₁ : k₀ = k'
      · subst h₁
        simp [putField, lookupField, h₀]
      · simp [putField, lookupField, h₀, h₁, ih]

theorem applyStateUpdates_single_ok {s s' : JVal} {path : String} {v : JVal}
    (h : setPath s (splitPath path) v = .ok s') (more : List (String × JVal)) :
    applyStateUpdates s ((path, v) :: more) = applyStateUpdates s' more := by
  simp [applyStateUpdates, h]

theorem splitDot_ne_nil (cs : List Char) : splitDot cs ≠ [] := by
  induction cs with
  | nil => simp [splitDot]
  | cons c cs ih =>
    simp only [splitDot]
    cases h : splitDot cs with
    | nil => simp
    | cons seg rest => by_cases hc : c = '.' <;> simp [hc]

theorem splitPath_ne_nil (path : String) : splitPath path ≠ [] := by
  simp [splitPath, splitDot_ne_nil]

theorem walkable_single {t : JVal} {k : String} (h : walkable t [k] = true) :
    ∃ fs, t = .obj fs ∧ ((lookupField k fs).isSome = true ∨ k ≠ "__proto__") := by
  cases t with
  | obj fs =>
    refine ⟨fs, rfl, ?_⟩
    simpa [walkable] using h
  | _ => simp [walkable] at h

theorem walkable_cons_cons {t : JVal} {k k2 : String} {rest : List String}
    (h : walkable t (k :: k2 :: rest) = true) :
    ∃ fs, t = .obj fs ∧ (lookupField k fs = none → inheritedKey k = false) ∧
      walkable (childOf fs k) (k2 :: rest) = true := by
  cases t with
  | obj fs =>
    refine ⟨fs, rfl, ?_⟩
    simp only [walkable] at h
    cases hl : lookupField k fs with
    | none =>
      rw [hl] at h
      simp only [Bool.and_eq_true, Bool.not_eq_true'] at h
      exact ⟨fun _ => h.1, by simpa [childOf, hl] using h.2⟩
    | some c =>
      rw [hl] at h
      simp only at h
      refine ⟨nofun, ?_⟩
      by_cases hc : truthy c = true
      · simpa [childOf, hl, hc] using h
      · simpa [childOf, hl, hc] using h
  | _ => simp [walkable] at h

theorem setPath_cons_cons_eq (fs : List (String × JVal)) (k k2 : String) (rest : List String)
    (v : JVal) (hk : lookupField k fs = none → inheritedKey k = false) :
    setPath (.obj fs) (k :: k2 :: rest) v =
      (setPath (childOf fs k) (k2 :: rest) v).map (fun c' => .obj (putField k c' fs)) := by
  simp only [setPath]
  cases hl : lookupField k fs with
  | none => simp [childOf, hl, hk hl]
  | some c =>
    by_cases hc : truthy c = true
    · simp [childOf, hl, hc]
    · simp [childOf, hl, hc]

/-- The last assignment of a walkable entry is made on an object. -/
theorem setPath_single_ok {t t' : JVal} {k : String} {v : JVal}
    (hw : walkable t [k] = true) (h : setPath t [k] v = .ok t') :
    ∃ fs, t = .obj fs ∧ t' = .obj (putField k v fs) := by
  obtain ⟨fs, rfl, _⟩ := walkable_single hw
  refine ⟨fs, rfl, ?_⟩
  simp only [setPath, assignProp] at h
  split at h
  · injection h with h; exact h.symm
  · split at h
    · cases h
    · injection h with h; exact h.symm

/-- A walkable entry of two segments or more rebuilds the object around the child the walk
descends into. -/
theorem setPath_cons_cons_ok {t t' : JVal} {k k2 : String} {rest : List String} {v : JVal}
    (hw : walkable t (k :: k2 :: rest) = true) (h : setPath t (k :: k2 :: rest) v = .ok t') :
    ∃ fs c', t = .obj fs ∧ walkable (childOf fs k) (k2 :: rest) = true ∧
      setPath (childOf fs k) (k2 :: rest) v = .ok c' ∧ t' = .obj (putField k c' fs) := by
  obtain ⟨fs, rfl, hk, hw'⟩ := walkable_cons_cons hw
  rw [setPath_cons_cons_eq fs k k2 rest v hk] at h
  cases hs : setPath (childOf fs k) (k2 :: rest) v with
  | error e => rw [hs] at h; simp [Except.map] at h
  | ok c' =>
    rw [hs] at h
    simp only [Except.map] at h
    injection h with h
    exact ⟨fs, c', rfl, hw', hs, h.symm⟩

/-- An entry whose path is walkable is applied without exception. -/
theorem setPath_ok_of_walkable (p : List String) :
    ∀ (t v : JVal), walkable t p = true → ∃ t', setPath t p v = .ok t' := by
  induction p with
  | nil => intro t v h; simp [walkable] at h
  | cons k rest ih =>
    intro t v h
    cases rest with
    | nil =>
      obtain ⟨fs, rfl, hk⟩ := walkable_single h
      simp only [setPath, assignProp]
      cases hl : lookupField k fs with
      | some c => exact ⟨_, rfl⟩
      | none =>
        rcases hk with hk | hk
        · simp [hl] at hk
        · simp only [hk, if_false]; exact ⟨_, rfl⟩
    | cons k2 rest =>
      obtain ⟨fs, rfl, hk, hw⟩ := walkable_cons_cons h
      obtain ⟨c', hc'⟩ := ih (childOf fs k) v hw
      rw [setPath_cons_cons_eq fs k k2 rest v hk, hc']
      exact ⟨_, rfl⟩

theorem getPath_obj_cons (fs : List (String × JVal)) (k : String) (q : List String) :
    getPath (.obj fs) (k :: q) = (lookupField k fs).bind (fun c => getPath c q) := by
  simp [getPath]

theorem getPath_of_falsy {c : JVal} (h : truthy c = false) (k : String) (q : List String) :
    getPath c (k :: q) = none := by
  cases c with
  | arr xs => simp [truthy] at h
  | obj fs => simp [truthy] at h
  | _ => simp [getPath]

/-- Below the segment `k`, reading the object and reading the node the walk descends into
give the same result. -/
theorem getPath_childOf (fs : List (String × JVal)) (k b : String) (q : List String) :
    getPath (childOf fs k) (b :: q) = getPath (.obj fs) (k :: b :: q) := by
  rw [getPath_obj_cons]
  cases hl : lookupField k fs with
  | none => simp [childOf, hl, getPath, lookupField]
  | some c =>
    by_cases hc : truthy c = true
    · simp [childOf, hl, hc]
    · have hc' : truthy c = false := by simpa using hc
      have h1 : getPath c (b :: q) = none := getPath_of_falsy hc' b q
      have h2 : getPath (.obj []) (b :: q) = none := by simp [getPath, lookupField]
      simp only [childOf, hl, hc, Option.bind]
      rw [h1]
      simpa using h2

theorem diverge_cons_cons (a b : String) (p q : List String) :
    diverge (a :: p) (b :: q) = true ↔ a ≠ b ∨ (a = b ∧ diverge p q = true) := by
  by_cases h : a = b <;> simp [diverge, h]

theorem diverge_nil_right (p : List String) : diverge p [] = false := by
  cases p <;> simp [diverge]

theorem diverge_nil_left (q : List String) : diverge [] q = false := by
  simp [diverge]

/-- Frame property of one walkable entry: a path that parts ways with the written path
reads the same value before and after. -/
theorem getPath_setPath_diverge (p : List String) :
    ∀ (t t' v : JVal) (q : List String), walkable t p = true → setPath t p v = .ok t' →
      diverge p q = true → getPath t' q = getPath t q := by
  induction p with
  | nil => intro t t' v q _ _ hd; simp [diverge] at hd
  | cons k rest ih =>
    intro t t' v q hw h hd
    cases q with
    | nil => simp [diverge] at hd
    | cons b q' =>
      rw [diverge_cons_cons] at hd
      cases rest with
      | nil =>
        obtain ⟨fs, rfl, rfl⟩ := setPath_single_ok hw h
        rcases hd with hd | ⟨_, hd⟩
        · rw [getPath_obj_cons, getPath_obj_cons, lookupField_putField_other (Ne.symm hd)]
        · simp [diverge] at hd
      | cons k2 rest =>
        obtain ⟨fs, c', rfl, hw', hc', rfl⟩ := setPath_cons_cons_ok hw h
        rcases hd with hd | ⟨hkb, hd⟩
        · rw [getPath_obj_cons, getPath_obj_cons, lookupField_putField_other (Ne.symm hd)]
        · subst hkb
          cases q' with
          | nil => simp [diverge] at hd
          | cons b2 q'' =>
            rw [getPath_obj_cons, lookupField_putField_same, ← getPath_childOf]
            exact ih (childOf fs k) c' v (b2 :: q'') hw' hc' hd

/-- Read-back through one walkable entry: at the written path and below it the state holds
the written value and nothing else. -/
theorem getPath_setPath_append (p : List String) :
    ∀ (t t' v : JVal) (r : List String), walkable t p = true → setPath t p v = .ok t' →
      getPath t' (p ++ r) = getPath v r := by
  induction p with
  | nil => intro t t' v r hw; simp [walkable] at hw
  | cons k rest ih =>
    intro t t' v r hw h
    cases rest with
    | nil =>
      obtain ⟨fs, rfl, rfl⟩ := setPath_single_ok hw h
      simp [getPath_obj_cons, lookupField_putField_same]
    | cons k2 rest =>
      obtain ⟨fs, c', rfl, hw', hc', rfl⟩ := setPath_cons_cons_ok hw h
      have := ih (childOf fs k) c' v r hw' hc'
      simpa [getPath_obj_cons, lookupField_putField_same] using this

theorem setPath_ok_isObj {p : List String} {t t' v : JVal} (hw : walkable t p = true)
    (h : setPath t p v = .ok t') : ∃ fs', t' = .obj fs' := by
  cases p with
  | nil => simp [walkable] at hw
  | cons k rest =>
    cases rest with
    | nil => obtain ⟨fs, _, rfl⟩ := setPath_single_ok hw h; exact ⟨_, rfl⟩
    | cons k2 rest => obtain ⟨fs, c', _, _, _, rfl⟩ := setPath_cons_cons_ok hw h; exact ⟨_, rfl⟩

/-- After one walkable entry every proper initial part of the written path holds an
object. -/
theorem getPath_setPath_initial (q : List String) :
    ∀ (t t' v : JVal) (x : String) (r : List String), walkable t (q ++ x :: r) = true →
      setPath t (q ++ x :: r) v = .ok t' → ∃ fs', getPath t' q = some (.obj fs') := by
  induction q with
  | nil =>
    intro t t' v x r hw h
    obtain ⟨fs', rfl⟩ := setPath_ok_isObj hw h
    exact ⟨fs', rfl⟩
  | cons k q' ih =>
    intro t t' v x r hw h
    have hne : q' ++ x :: r ≠ [] := by simp
    obtain ⟨k2, rest, hrest⟩ : ∃ k2 rest, q' ++ x :: r = k2 :: rest := by
      cases hq : q' ++ x :: r with
      | nil => exact absurd hq hne
      | cons k2 rest => exact ⟨k2, rest, rfl⟩
    rw [List.cons_append, hrest] at h hw
    obtain ⟨fs, c', rfl, hw', hc', rfl⟩ := setPath_cons_cons_ok hw h
    rw [← hrest] at hc' hw'
    obtain ⟨fs', hfs'⟩ := ih (childOf fs k) c' v x r hw' hc'
    exact ⟨fs', by simp [getPath_obj_cons, lookupField_putField_same, hfs']⟩

theorem walkable_obj_congr {fs gs : List (String × JVal)} {b : String}
    (h : lookupField b fs = lookupField b gs) (q : List String) :
    walkable (.obj fs) (b :: q) = walkable (.obj gs) (b :: q) := by
  cases q with
  | nil => simp [walkable, h]
  | cons b2 q => simp [walkable, h]

/-- Applying one walkable entry keeps every path that parts ways with it walkable. -/
theorem walkable_setPath_diverge (p : List String) :
    ∀ (t t' v : JVal) (q : List String), walkable t p = true → setPath t p v = .ok t' →
      diverge p q = true → walkable t q = true → walkable t' q = true := by
  induction p with
  | nil => intro t t' v q _ _ hd; simp [diverge] at hd
  | cons k rest ih =>
    intro t t' v q hwp h hd hw
    cases q with
    | nil => simp [diverge] at hd
    | cons b q' =>
      rw [diverge_cons_cons] at hd
      cases rest with
      | nil =>
        obtain ⟨fs, rfl, rfl⟩ := setPath_single_ok hwp h
        rcases hd with hd | ⟨_, hd⟩
        · rw [walkable_obj_congr (lookupField_putField_other (Ne.symm hd) v fs)]
          exact hw
        · simp [diverge] at hd
      | cons k2 rest =>
        obtain ⟨fs, c', rfl, hwp', hc', rfl⟩ := setPath_cons_cons_ok hwp h
        rcases hd with hd | ⟨hkb, hd⟩
        · rw [walkable_obj_congr (lookupField_putField_other (Ne.symm hd) c' fs)]
          exact hw
        · subst hkb
          cases q' with
          | nil => simp [diverge] at hd
          | cons b2 q'' =>
            obtain ⟨fs₀, hfs₀, _, hw'⟩ := walkable_cons_cons hw
            injection hfs₀ with hfs₀
            subst hfs₀
            have hc'w := ih (childOf fs k) c' v (b2 :: q'') hwp' hc' hd hw'
            obtain ⟨fs', rfl⟩ := setPath_ok_isObj hwp' hc'
            simpa [walkable, lookupField_putField_same, truthy] using hc'w

theorem diverge_symm (p : List String) : ∀ q, diverge p q = diverge q p := by
  induction p with
  | nil => intro q; cases q <;> simp [diverge]
  | cons a p ih =>
    intro q
    cases q with
    | nil => simp [diverge]
    | cons b q =>
      by_cases h : a = b
      · subst h; simp [diverge, ih q]
      · simp [diverge, h, Ne.symm h]

theorem diverge_append_right (p : List String) :
    ∀ q r, diverge p q = true → diverge p (q ++ r) = true := by
  induction p with
  | nil => intro q r h; simp [diverge] at h
  | cons a p ih =>
    intro q r h
    cases q with
    | nil => simp [diverge] at h
    | cons b q =>
      rw [List.cons_append, diverge_cons_cons]
      rw [diverge_cons_cons] at h
      rcases h with h | ⟨h1, h2⟩
      · exact Or.inl h
      · exact Or.inr ⟨h1, ih q r h2⟩

/-- Two segment lists are comparable or part ways: the first is an initial part of the
second, or the second is a proper initial part of the first, or they diverge. -/
theorem initial_or_diverge (p : List String) :
    ∀ q, (∃ r, q = p ++ r) ∨ (∃ x r, p = q ++ x :: r) ∨ diverge p q = true := by
  induction p with
  | nil => intro q; exact Or.inl ⟨q, rfl⟩
  | cons a p ih =>
    intro q
    cases q with
    | nil => exact Or.inr (Or.inl ⟨a, p, rfl⟩)
    | cons b q =>
      by_cases h : a = b
      · subst h
        rcases ih q with ⟨r, hr⟩ | ⟨x, r, hr⟩ | hd
        · exact Or.inl ⟨r, by simp [hr]⟩
        · exact Or.inr (Or.inl ⟨x, r, by simp [hr]⟩)
        · exact Or.inr (Or.inr (by simp [diverge, hd]))
      · exact Or.inr (Or.inr (by simp [diverge, h]))

theorem diverge_self_append (p : List String) : ∀ r, diverge p (p ++ r) = false := by
  induction p with
  | nil => intro r; simp [diverge]
  | cons a p ih => intro r; simp [diverge, ih r]

/-- Diverging lists are not comparable. -/
theorem diverge_iff (p q : List String) :
    diverge p q = true ↔ ¬ p <+: q ∧ ¬ q <+: p := by
  constructor
  · intro h
    constructor
    · rintro ⟨r, rfl⟩
      simp [diverge_self_append] at h
    · rintro ⟨r, rfl⟩
      rw [diverge_symm] at h
      simp [diverge_self_append] at h
  · rintro ⟨h1, h2⟩
    rcases initial_or_diverge p q with ⟨r, hr⟩ | ⟨x, r, hr⟩ | hd
    · exact absurd ⟨r, hr.symm⟩ h1
    · exact absurd ⟨x :: r, hr.symm⟩ h2
    · exact hd

/-- What a patch of independent, walkable paths does to the state, stated without
reference to the order of its entries: no exception; each written path, and everything
below it, reads what the written value holds; every proper initial part of a written path
holds an object; every path that parts ways with all written paths reads what it read
before. -/
theorem applyStateUpdates_independent (patch : List (String × JVal)) :
    ∀ s : JVal, independentPaths patch →
      (∀ e ∈ patch, walkable s (splitPath e.1) = true) →
      ∃ s', applyStateUpdates s patch = (s', none) ∧
        (∀ e ∈ patch, ∀ r, getPath s' (splitPath e.1 ++ r) = getPath e.2 r) ∧
        (∀ e ∈ patch, ∀ q x r, splitPath e.1 = q ++ x :: r →
          ∃ fs, getPath s' q = some (.obj fs)) ∧
        (∀ q, (∀ e ∈ patch, diverge (splitPath e.1) q = true) → getPath s' q = getPath s q) := by
  induction patch with
  | nil =>
    intro s _ _
    exact ⟨s, rfl, by simp, by simp, fun q _ => rfl⟩
  | cons e patch ih =>
    intro s hind hw
    obtain ⟨path, v⟩ := e
    have hind' : (∀ e' ∈ patch, diverge (splitPath path) (splitPath e'.1) = true) ∧
        independentPaths patch := by
      simpa [independentPaths] using hind
    obtain ⟨hhead, htail⟩ := hind'
    obtain ⟨s₁, hs₁⟩ := setPath_ok_of_walkable (splitPath path) s v (hw (path, v) (by simp))
    have hw₁ : ∀ e' ∈ patch, walkable s₁ (splitPath e'.1) = true := fun e' he' =>
      walkable_setPath_diverge (splitPath path) s s₁ v (splitPath e'.1)
        (hw (path, v) (by simp)) hs₁ (hhead e' he') (hw e' (by simp [he']))
    obtain ⟨s', happ, ha, hb, hc⟩ := ih s₁ htail hw₁
    refine ⟨s', ?_, ?_, ?_, ?_⟩
    · rw [applyStateUpdates_single_ok hs₁]; exact happ
    · intro e' he' r
      rcases List.mem_cons.mp he' with rfl | he'
      · have hdiv : ∀ e'' ∈ patch, diverge (splitPath e''.1) (splitPath path ++ r) = true := by
          intro e'' he''
          apply diverge_append_right
          rw [diverge_symm]
          exact hhead e'' he''
        rw [hc _ hdiv]
        exact getPath_setPath_append (splitPath path) s s₁ v r (hw (path, v) (by simp)) hs₁
      · exact ha e' he' r
    · intro e' he' q x r hq
      rcases List.mem_cons.mp he' with rfl | he'
      · by_cases hex : ∃ e'' ∈ patch, ∃ x' r', splitPath e''.1 = q ++ x' :: r'
        · obtain ⟨e'', he'', x', r', hq'⟩ := hex
          exact hb e'' he'' q x' r' hq'
        · have hdiv : ∀ e'' ∈ patch, diverge (splitPath e''.1) q = true := by
            intro e'' he''
            rcases initial_or_diverge (splitPath e''.1) q with ⟨r', hr'⟩ | ⟨x', r', hr'⟩ | hd
            · exfalso
              have h1 := hhead e'' he''
              simp only at hq
              rw [hq, hr', diverge_symm, List.append_assoc, diverge_self_append] at h1
              cases h1
            · exact absurd ⟨e'', he'', x', r', hr'⟩ hex
            · exact hd
          rw [hc q hdiv]
          simp only at hq
          have hwq := hw (path, v) (by simp)
          simp only at hwq
          rw [hq] at hs₁ hwq
          exact getPath_setPath_initial q s s₁ v x r hwq hs₁
      · exact hb e' he' q x r hq
    · intro q hq
      rw [hc q (fun e' he' => hq e' (by simp [he']))]
      exact getPath_setPath_diverge (splitPath path) s s₁ v q (hw (path, v) (by simp)) hs₁
        (hq (path, v) (by simp))

theorem independentPaths_perm {patch patch' : List (String × JVal)} (hp : patch.Perm patch')
    (h : independentPaths patch) : independentPaths patch' := by
  unfold independentPaths at *
  refine hp.pairwise h ?_
  intro a b hab
  rw [diverge_symm]
  exact hab

/-! ## Lemmas on `mergeState` -/

theorem lookupField_isSome_iff (k : String) (fs : List (String × JVal)) :
    (lookupField k fs).isSome = true ↔ k ∈ fs.map Prod.fst := by
  induction fs with
  | nil => simp [lookupField]
  | cons e fs ih =>
    obtain ⟨k', x⟩ := e
    by_cases h : k' = k
    · simp [lookupField, h]
    · simp only [lookupField, h, if_false, ih, List.map_cons, List.mem_cons]
      constructor
      · exact Or.inr
      · rintro (h' | h')
        · exact absurd h'.symm h
        · exact h'

theorem getOwn_eq_none_iff (t : JVal) (k : String) : getOwn t k = none ↔ k ∉ ownKeys t := by
  unfold getOwn ownKeys
  rw [← lookupField_isSome_iff]
  cases lookupField k (ownEntries t) <;> simp

theorem lookupField_spread_fold (t : JVal) (f : String) (ks : List String) :
    ∀ acc : List (String × JVal),
      lookupField f (ks.foldl
        (fun a k => match getOwn t k with
          | some x => putField k x a
          | none => a) acc)
      = if f ∈ ks then (match getOwn t f with
          | some x => some x
          | none => lookupField f acc) else lookupField f acc := by
  induction ks with
  | nil => intro acc; simp
  | cons k ks ih =>
    intro acc
    rw [List.foldl_cons, ih]
    by_cases hf : f ∈ ks
    · simp only [hf, if_true, List.mem_cons, or_true]
      cases hg : getOwn t f with
      | some x => rfl
      | none =>
        simp only
        cases hk : getOwn t k with
        | none => rfl
        | some y =>
          simp only
          have hne : f ≠ k := by
            rintro rfl
            rw [hg] at hk
            cases hk
          exact lookupField_putField_other hne y acc
    · simp only [hf, if_false, List.mem_cons, or_false]
      by_cases hfk : f = k
      · subst hfk
        simp only [if_true]
        cases hg : getOwn t f with
        | none => rfl
        | some x => simp [lookupField_putField_same]
      · simp only [hfk, if_false]
        cases hk : getOwn t k with
        | none => rfl
        | some y => exact lookupField_putField_other hfk y acc

/-- A field of `{...acc, ...src}` is the field of `src` when `src` has it, the field of
`acc` otherwise. -/
theorem lookupField_spreadInto (acc : List (String × JVal)) (src : Option JVal) (f : String) :
    lookupField f (spreadInto acc src) =
      match src.bind (fun t => getOwn t f) with
      | some x => some x
      | none => lookupField f acc := by
  cases src with
  | none => simp [spreadInto]
  | some t =>
    simp only [spreadInto, Option.bind]
    rw [lookupField_spread_fold]
    by_cases hf : f ∈ ownKeys t
    · simp [hf]
    · have hnone : getOwn t f = none := (getOwn_eq_none_iff t f).mpr hf
      simp [hf, hnone]

theorem assignProp_obj_ok {mf : List (String × JVal)} {k : String} (v : JVal)
    (h : k = "__proto__" → (lookupField k mf).isSome = true) :
    assignProp (.obj mf) k v = .ok (.obj (putField k v mf)) := by
  simp only [assignProp]
  cases hl : lookupField k mf with
  | some _ => rfl
  | none =>
    by_cases hk : k = "__proto__"
    · have := h hk
      rw [hl] at this
      cases this
    · simp [hk]

theorem mergeStep_eq (savedState defaultState merged : JVal) (key : String)
    (h : (getOwn savedState key).isSome = true) :
    mergeStep savedState defaultState merged key
      = assignProp merged key (mergedValue savedState defaultState key) := by
  unfold mergeStep mergedValue
  cases hg : getOwn savedState key with
  | none => rw [hg] at h; cases h
  | some x => cases x <;> rfl

/-- The loop of `mergeState` over keys of the saved state: it completes when `__proto__`
is not among the keys, and the result holds the merged value at every key visited and the
former value at every other key. -/
theorem mergeLoop_spec (savedState defaultState : JVal) (keys : List String) :
    ∀ mf : List (String × JVal),
      (∀ k ∈ keys, (getOwn savedState k).isSome = true) → "__proto__" ∉ keys →
      ∃ mf', mergeLoop savedState defaultState (.obj mf) keys = .ok (.obj mf') ∧
        ∀ k, lookupField k mf' =
          if k ∈ keys then some (mergedValue savedState defaultState k) else lookupField k mf := by
  induction keys with
  | nil => intro mf _ _; exact ⟨mf, rfl, by simp⟩
  | cons key keys ih =>
    intro mf hsome hproto
    have hkey : key ≠ "__proto__" := fun h => hproto (by simp [h])
    have hstep : mergeStep savedState defaultState (.obj mf) key
        = .ok (.obj (putField key (mergedValue savedState defaultState key) mf)) := by
      rw [mergeStep_eq _ _ _ _ (hsome key (by simp))]
      exact assignProp_obj_ok _ (fun h => absurd h hkey)
    obtain ⟨mf', hloop, hlook⟩ := ih (putField key (mergedValue savedState defaultState key) mf)
      (fun k hk => hsome k (by simp [hk])) (fun h => hproto (by simp [h]))
    refine ⟨mf', by simp only [mergeLoop, hstep]; exact hloop, ?_⟩
    intro k
    rw [hlook k]
    by_cases hk : k ∈ keys
    · simp [hk]
    · by_cases hkk : k = key
      · subst hkk
        simp [hk, lookupField_putField_same]
      · simp [hk, hkk, lookupField_putField_other hkk]

theorem getOwn_isSome_of_mem {t : JVal} {k : String} (h : k ∈ ownKeys t) :
    (getOwn t k).isSome = true := by
  cases hg : getOwn t k with
  | none => exact absurd h ((getOwn_eq_none_iff t k).mp hg)
  | some _ => rfl

theorem putField_keeps {k k' : String} {fs : List (String × JVal)} (v : JVal)
    (h : (lookupField k' fs).isSome = true) : (lookupField k' (putField k v fs)).isSome = true := by
  by_cases hk : k' = k
  · subst hk; simp [lookupField_putField_same]
  · rw [lookupField_putField_other hk]; exact h

theorem getPath_single_obj (fs : List (String × JVal)) (k : String) :
    getPath (.obj fs) [k] = lookupField k fs := by
  rw [getPath_obj_cons]
  cases lookupField k fs <;> rfl

theorem hasDomains_iff (s : JVal) :
    hasDomains s = true ↔ ∀ k ∈ domainKeys, (getPath s [k]).isSome = true := by
  simp [hasDomains, List.all_eq_true]

/-- A state that has the seven domains is an object. -/
theorem hasDomains_obj {s : JVal} (h : hasDomains s = true) : ∃ fs, s = .obj fs := by
  have hc := (hasDomains_iff s).mp h "character" (by decide)
  cases s with
  | obj fs => exact ⟨fs, rfl⟩
  | arr xs =>
    have hidx : arrayIndex "character" = none := by decide
    simp [getPath, hidx] at hc
  | _ => simp [getPath] at hc

theorem hasDomains_obj_iff (fs : List (String × JVal)) :
    hasDomains (.obj fs) = true ↔ ∀ k ∈ domainKeys, (lookupField k fs).isSome = true := by
  rw [hasDomains_iff]
  constructor
  · intro h k hk
    have := h k hk
    rwa [getPath_single_obj] at this
  · intro h k hk
    rw [getPath_single_obj]
    exact h k hk

theorem assignProp_obj_inv {fs : List (String × JVal)} {t' : JVal} {k : String} {v : JVal}
    (h : assignProp (.obj fs) k v = .ok t') : t' = .obj (putField k v fs) := by
  simp only [assignProp] at h
  split at h
  · injection h with h; exact h.symm
  · split at h
    · cases h
    · injection h with h; exact h.symm

/-- One entry applied to an object yields an object that has every key the object had. -/
theorem setPath_obj_keeps {p : List String} {fs : List (String × JVal)} {t' v : JVal}
    (h : setPath (.obj fs) p v = .ok t') :
    ∃ fs', t' = .obj fs' ∧
      ∀ k', (lookupField k' fs).isSome = true → (lookupField k' fs').isSome = true := by
  have hput : ∀ k c', ∃ fs', JVal.obj (putField k c' fs) = .obj fs' ∧
      ∀ k', (lookupField k' fs).isSome = true → (lookupField k' fs').isSome = true :=
    fun k c' => ⟨_, rfl, fun _ hk' => putField_keeps c' hk'⟩
  have hmap : ∀ (k : String) (r : Except Fault JVal),
      r.map (fun c' => JVal.obj (putField k c' fs)) = .ok t' →
      ∃ fs', t' = .obj fs' ∧
        ∀ k', (lookupField k' fs).isSome = true → (lookupField k' fs').isSome = true := by
    intro k r hr
    cases r with
    | error e => simp [Except.map] at hr
    | ok c' =>
      simp only [Except.map] at hr
      injection hr with hr
      rw [← hr]
      exact hput k c'
  cases p with
  | nil =>
    have ht : t' = .obj (putField "undefined" v fs) :=
      assignProp_obj_inv (by simpa [setPath] using h)
    rw [ht]
    exact hput _ _
  | cons k rest =>
    cases rest with
    | nil =>
      have ht : t' = .obj (putField k v fs) :=
        assignProp_obj_inv (by simpa [setPath] using h)
      rw [ht]
      exact hput _ _
    | cons k2 rest =>
      simp only [setPath] at h
      cases hl : lookupField k fs with
      | none =>
        rw [hl] at h
        simp only at h
        split at h
        · cases h
        · exact hmap k _ h
      | some c =>
        rw [hl] at h
        simp only at h
        split at h
        · exact hmap k _ h
        · exact hmap k _ h

/-- A patch applied to an object yields an object that has every key the object had,
wherever the run stops. -/
theorem applyStateUpdates_obj_keeps (patch : List (String × JVal)) :
    ∀ fs : List (String × JVal), ∃ fs', (applyStateUpdates (.obj fs) patch).1 = .obj fs' ∧
      ∀ k', (lookupField k' fs).isSome = true → (lookupField k' fs').isSome = true := by
  induction patch with
  | nil => intro fs; exact ⟨fs, rfl, fun _ h => h⟩
  | cons e patch ih =>
    intro fs
    obtain ⟨path, v⟩ := e
    simp only [applyStateUpdates]
    cases hs : setPath (.obj fs) (splitPath path) v with
    | error e => exact ⟨fs, rfl, fun _ h => h⟩
    | ok s' =>
      obtain ⟨fs₁, rfl, h₁⟩ := setPath_obj_keeps hs
      obtain ⟨fs₂, h₂, h₃⟩ := ih fs₁
      exact ⟨fs₂, h₂, fun k' hk' => h₃ k' (h₁ k' hk')⟩

/-- The loop of `mergeState` started on an object yields an object that has every key the
object had. -/
theorem mergeLoop_obj_keeps (savedState defaultState : JVal) (keys : List String) :
    ∀ (mf : List (String × JVal)) (merged' : JVal),
      mergeLoop savedState defaultState (.obj mf) keys = .ok merged' →
      ∃ mf', merged' = .obj mf' ∧
        ∀ k', (lookupField k' mf).isSome = true → (lookupField k' mf').isSome = true := by
  induction keys with
  | nil =>
    intro mf merged' h
    simp only [mergeLoop] at h
    injection h with h
    exact ⟨mf, h.symm, fun _ hk' => hk'⟩
  | cons key keys ih =>
    intro mf merged' h
    simp only [mergeLoop] at h
    cases hs : mergeStep savedState defaultState (.obj mf) key with
    | error e => rw [hs] at h; cases h
    | ok m₁ =>
      rw [hs] at h
      have hm₁ : ∃ x, m₁ = .obj (putField key x mf) := by
        unfold mergeStep at hs
        split at hs
        · exact ⟨_, assignProp_obj_inv hs⟩
        · exact ⟨_, assignProp_obj_inv hs⟩
        · cases hs
      obtain ⟨x, rfl⟩ := hm₁
      obtain ⟨mf', hmf', hkeep⟩ := ih _ merged' h
      exact ⟨mf', hmf', fun k' hk' => hkeep k' (putField_keeps x hk')⟩

/-! ## Theorems: `applyStateUpdates` -/

/-- C1 (as stated, refuted): on the default state the patch `character.mood.x := 1` walks
into the string `"neutral"`; the assignment throws, nothing is written and the value read
back at the path is not the patched value. -/
theorem applyStateUpdates_readback_counterexample :
    applyStateUpdates getDefaultState [("character.mood.x", .num 1)]
        = (getDefaultState, some Fault.typeError) ∧
      getPath (applyStateUpdates getDefaultState [("character.mood.x", .num 1)]).1
        (splitPath "character.mood.x") ≠ some (.num 1) := by
  have h : applyStateUpdates getDefaultState [("character.mood.x", .num 1)]
      = (getDefaultState, some Fault.typeError) := rfl
  refine ⟨h, ?_⟩
  rw [h]
  have h2 : getPath getDefaultState (splitPath "character.mood.x") = none := rfl
  rw [h2]
  exact nofun

/-- C1 (amended): when the walk of the path only meets objects and missing or falsy
nodes, the single-entry patch `path := v` is applied without exception, the value read
back at the path is exactly `v`, and below the path the state holds what `v` holds and
nothing of the old value. -/
theorem applyStateUpdates_single_readback (s : JVal) (path : String) (v : JVal)
    (hw : walkable s (splitPath path) = true) :
    (applyStateUpdates s [(path, v)]).2 = none ∧
      getPath (applyStateUpdates s [(path, v)]).1 (splitPath path) = some v ∧
      ∀ r : List String,
        getPath (applyStateUpdates s [(path, v)]).1 (splitPath path ++ r) = getPath v r := by
  obtain ⟨s', hs'⟩ := setPath_ok_of_walkable (splitPath path) s v hw
  have happ : applyStateUpdates s [(path, v)] = (s', none) := by
    rw [applyStateUpdates_single_ok hs']; rfl
  rw [happ]
  have hr := getPath_setPath_append (splitPath path) s s' v
  refine ⟨rfl, ?_, fun r => hr r hw hs'⟩
  simpa [getPath] using hr [] hw hs'

/-- C1 (witness): the blouse record with five fields, patched with `{fastened: false}`,
becomes exactly `{fastened: false}`. -/
theorem applyStateUpdates_single_readback_witness :
    walkable blouseState (splitPath "appearance.clothes_details.blouse") = true ∧
      getPath
        (applyStateUpdates blouseState
          [("appearance.clothes_details.blouse", .obj [("fastened", .bool false)])]).1
        (splitPath "appearance.clothes_details.blouse")
        = some (.obj [("fastened", .bool false)]) :=
  ⟨by decide,
    (applyStateUpdates_single_readback blouseState "appearance.clothes_details.blouse"
      (.obj [("fastened", .bool false)]) (by decide)).2.1⟩

/-- C2: the empty patch is a no-op: the state is returned as it was, with no exception. -/
theorem applyStateUpdates_empty_patch (s : JVal) : applyStateUpdates s [] = (s, none) := rfl

/-- C4 (as stated, refuted): no path is rejected as malformed.  The empty path and a path
with a trailing dot are applied without any error, and the state is modified: the value
is stored under the property named by the empty string. -/
theorem applyStateUpdates_malformed_counterexample :
    (applyStateUpdates getDefaultState [("", .num 1)]).2 = none ∧
      getPath (applyStateUpdates getDefaultState [("", .num 1)]).1 [""] = some (.num 1) ∧
      getPath getDefaultState [""] = none ∧
      (applyStateUpdates getDefaultState [("character.", .num 1)]).2 = none ∧
      getPath (applyStateUpdates getDefaultState [("character.", .num 1)]).1 ["character", ""]
        = some (.num 1) :=
  ⟨rfl, rfl, rfl, rfl, rfl⟩

/-- C4 (amended): a path with an empty segment is treated like any other path, the empty
string being an ordinary property name.  When its walk only meets objects and missing or
falsy nodes, the entry is applied without exception, the state then has a property
named by the empty string at every place where the path has an empty segment, the value is
read back at the path, and the remaining entries of the patch are applied to the state so
modified. -/
theorem applyStateUpdates_empty_segment (s : JVal) (path : String) (v : JVal)
    (more : List (String × JVal)) (he : hasEmptySegment path = true)
    (hw : walkable s (splitPath path) = true) :
    ∃ s', setPath s (splitPath path) v = .ok s' ∧
      getPath s' (splitPath path) = some v ∧
      (∃ pre post, splitPath path = pre ++ "" :: post ∧ (getPath s' (pre ++ [""])).isSome = true) ∧
      applyStateUpdates s ((path, v) :: more) = applyStateUpdates s' more := by
  obtain ⟨s', hs'⟩ := setPath_ok_of_walkable (splitPath path) s v hw
  have hr := getPath_setPath_append (splitPath path) s s' v
  have hread : getPath s' (splitPath path) = some v := by
    simpa [getPath] using hr [] hw hs'
  refine ⟨s', hs', hread, ?_, applyStateUpdates_single_ok hs' more⟩
  have hmem : "" ∈ splitPath path := by simpa [hasEmptySegment] using he
  obtain ⟨pre, post, hsplit⟩ := List.append_of_mem hmem
  refine ⟨pre, post, hsplit, ?_⟩
  cases post with
  | nil =>
    rw [← hsplit, hread]; rfl
  | cons x r =>
    have hsplit' : splitPath path = (pre ++ [""]) ++ x :: r := by simp [hsplit]
    rw [hsplit'] at hs' hw
    obtain ⟨fs', hfs'⟩ := getPath_setPath_initial (pre ++ [""]) s s' v x r hw hs'
    rw [hfs']; rfl

/-- C4 (witness): the path `appearance..blouse` on the default state. -/
theorem applyStateUpdates_empty_segment_witness :
    hasEmptySegment "appearance..blouse" = true ∧
      walkable getDefaultState (splitPath "appearance..blouse") = true ∧
      ∃ s', setPath getDefaultState (splitPath "appearance..blouse") (.str "x") = .ok s' ∧
        getPath s' (splitPath "appearance..blouse") = some (.str "x") ∧
        (∃ pre post, splitPath "appearance..blouse" = pre ++ "" :: post ∧
          (getPath s' (pre ++ [""])).isSome = true) ∧
        applyStateUpdates getDefaultState
            [("appearance..blouse", .str "x"), ("character.mood", .str "happy")]
          = applyStateUpdates s' [("character.mood", .str "happy")] :=
  ⟨by decide, by decide,
    applyStateUpdates_empty_segment getDefaultState "appearance..blouse" (.str "x")
      [("character.mood", .str "happy")] (by decide) (by decide)⟩

/-- C5 (as stated, refuted): an intermediate node that already exists is not always
descended into.  On the default state `conversation.turn_count` holds `0`; the patch
`conversation.turn_count.value := 1` replaces that node by a fresh object.  And
`environment.location` holds the string `"unknown"`; the patch
`environment.location.city := "Paris"` does not complete: the assignment throws and the
value is not reachable at the path. -/
theorem applyStateUpdates_intermediate_counterexample :
    getPath getDefaultState ["conversation", "turn_count"] = some (.num 0) ∧
      getPath (applyStateUpdates getDefaultState [("conversation.turn_count.value", .num 1)]).1
        ["conversation", "turn_count"] = some (.obj [("value", .num 1)]) ∧
      applyStateUpdates getDefaultState [("environment.location.city", .str "Paris")]
        = (getDefaultState, some Fault.typeError) ∧
      getPath getDefaultState (splitPath "environment.location.city") = none :=
  ⟨rfl, rfl, rfl, rfl⟩

/-- C5 (amended): for a path (of two or more segments, or of one) whose walk only meets objects and
missing or falsy nodes (a truthy scalar on the way is excluded), the entry is applied
without exception; afterwards every proper initial part of the path holds an object, the
value is reachable at the full path, and every path that parts ways with the written path
reads what it read before: the objects on the way were descended into with their other
fields kept, and a node created on the way holds nothing but the continuation of the
path. -/
theorem applyStateUpdates_creates_intermediates (s : JVal) (path : String) (v : JVal)
    (hw : walkable s (splitPath path) = true) :
    ∃ s', applyStateUpdates s [(path, v)] = (s', none) ∧
      getPath s' (splitPath path) = some v ∧
      (∀ q x r, splitPath path = q ++ x :: r → ∃ fs, getPath s' q = some (.obj fs)) ∧
      (∀ q, diverge (splitPath path) q = true → getPath s' q = getPath s q) := by
  obtain ⟨s', hs'⟩ := setPath_ok_of_walkable (splitPath path) s v hw
  have hr := getPath_setPath_append (splitPath path) s s' v
  refine ⟨s', ?_, ?_, ?_, ?_⟩
  · rw [applyStateUpdates_single_ok hs']; rfl
  · simpa [getPath] using hr [] hw hs'
  · intro q x r hq
    rw [hq] at hs' hw
    exact getPath_setPath_initial q s s' v x r hw hs'
  · intro q hq
    exact getPath_setPath_diverge (splitPath path) s s' v q hw hs' hq

/-- C5 (witness): `scene.props.lamp := "lit"` on the default state, where `scene` exists
and `props` does not. -/
theorem applyStateUpdates_creates_intermediates_witness :
    walkable getDefaultState (splitPath "scene.props.lamp") = true ∧
      ∃ s', applyStateUpdates getDefaultState [("scene.props.lamp", .str "lit")] = (s', none) ∧
        getPath s' (splitPath "scene.props.lamp") = some (.str "lit") ∧
        (∀ q x r, splitPath "scene.props.lamp" = q ++ x :: r →
          ∃ fs, getPath s' q = some (.obj fs)) ∧
        (∀ q, diverge (splitPath "scene.props.lamp") q = true →
          getPath s' q = getPath getDefaultState q) :=
  ⟨by decide,
    applyStateUpdates_creates_intermediates getDefaultState "scene.props.lamp" (.str "lit")
      (by decide)⟩

/-- C3 (as stated, refuted): when one path of the patch is an initial part of another, the
order of application changes the final state.  Writing `a.b := 1` and then `a := {c: 2}`
leaves `a` equal to `{c: 2}`; the other order leaves `a.b` equal to `1`. -/
theorem applyStateUpdates_order_counterexample :
    [("a.b", JVal.num 1), ("a", JVal.obj [("c", .num 2)])].Perm
        [("a", JVal.obj [("c", .num 2)]), ("a.b", JVal.num 1)] ∧
      getPath (applyStateUpdates (.obj [])
        [("a.b", .num 1), ("a", .obj [("c", .num 2)])]).1 ["a", "b"] = none ∧
      getPath (applyStateUpdates (.obj [])
        [("a", .obj [("c", .num 2)]), ("a.b", .num 1)]).1 ["a", "b"] = some (.num 1) ∧
      ¬ sameContent
        (applyStateUpdates (.obj []) [("a.b", .num 1), ("a", .obj [("c", .num 2)])]).1
        (applyStateUpdates (.obj []) [("a", .obj [("c", .num 2)]), ("a.b", .num 1)]).1 := by
  refine ⟨List.Perm.swap _ _ _, rfl, rfl, ?_⟩
  intro h
  have h1 := h ["a", "b"]
  have e1 : getPath (applyStateUpdates (.obj [])
      [("a.b", .num 1), ("a", .obj [("c", .num 2)])]).1 ["a", "b"] = none := rfl
  have e2 : getPath (applyStateUpdates (.obj [])
      [("a", .obj [("c", .num 2)]), ("a.b", .num 1)]).1 ["a", "b"] = some (.num 1) := rfl
  rw [e1, e2] at h1
  cases h1

/-- C3 (amended): when the paths of the patch diverge two by two (no path is an initial
part of another) and each of them is walkable in the state, every permutation of the
entries is applied without exception and the final states hold the same content: they read
the same at every path, and can differ only in the enumeration order of object keys. -/
theorem applyStateUpdates_order_independent (s : JVal) (patch patch' : List (String × JVal))
    (hperm : patch.Perm patch') (hind : independentPaths patch)
    (hw : ∀ e ∈ patch, walkable s (splitPath e.1) = true) :
    (applyStateUpdates s patch).2 = none ∧ (applyStateUpdates s patch').2 = none ∧
      sameContent (applyStateUpdates s patch).1 (applyStateUpdates s patch').1 := by
  obtain ⟨s₁, h₁, ha₁, hb₁, hc₁⟩ := applyStateUpdates_independent patch s hind hw
  obtain ⟨s₂, h₂, ha₂, hb₂, hc₂⟩ := applyStateUpdates_independent patch' s
    (independentPaths_perm hperm hind) (fun e he => hw e (hperm.mem_iff.mpr he))
  rw [h₁, h₂]
  refine ⟨rfl, rfl, ?_⟩
  intro q
  by_cases hex : ∃ e ∈ patch, ∃ r, q = splitPath e.1 ++ r
  · obtain ⟨e, he, r, rfl⟩ := hex
    rw [ha₁ e he r, ha₂ e (hperm.mem_iff.mp he) r]
  · by_cases hex' : ∃ e ∈ patch, ∃ x r, splitPath e.1 = q ++ x :: r
    · obtain ⟨e, he, x, r, hq⟩ := hex'
      obtain ⟨fs₁, hfs₁⟩ := hb₁ e he q x r hq
      obtain ⟨fs₂, hfs₂⟩ := hb₂ e (hperm.mem_iff.mp he) q x r hq
      rw [hfs₁, hfs₂]
      rfl
    · have hdiv : ∀ e ∈ patch, diverge (splitPath e.1) q = true := by
        intro e he
        rcases initial_or_diverge (splitPath e.1) q with ⟨r, hr⟩ | ⟨x, r, hr⟩ | hd
        · exact absurd ⟨e, he, r, hr⟩ hex
        · exact absurd ⟨e, he, x, r, hr⟩ hex'
        · exact hd
      rw [hc₁ q hdiv, hc₂ q (fun e he => hdiv e (hperm.mem_iff.mpr he))]

/-- C3 (witness): the two entries of the "unbutton" patch, in both orders, on the state
with a tracked blouse. -/
theorem applyStateUpdates_order_independent_witness :
    sameContent
      (applyStateUpdates blouseState
        [("appearance.clothes_details.blouse", .obj [("fastened", .bool false)]),
         ("appearance.clothes_details.bra", .obj [("visibility", .str "visible")])]).1
      (applyStateUpdates blouseState
        [("appearance.clothes_details.bra", .obj [("visibility", .str "visible")]),
         ("appearance.clothes_details.blouse", .obj [("fastened", .bool false)])]).1 :=
  (applyStateUpdates_order_independent blouseState
    [("appearance.clothes_details.blouse", .obj [("fastened", .bool false)]),
     ("appearance.clothes_details.bra", .obj [("visibility", .str "visible")])]
    [("appearance.clothes_details.bra", .obj [("visibility", .str "visible")]),
     ("appearance.clothes_details.blouse", .obj [("fastened", .bool false)])]
    (List.Perm.swap _ _ _)
    (by simp only [independentPaths, List.pairwise_cons, List.mem_singleton, forall_eq,
          List.not_mem_nil, false_implies, implies_true, List.Pairwise.nil, and_true]
        decide)
    (by
      intro e he
      simp only [List.mem_cons, List.mem_singleton, List.not_mem_nil, or_false] at he
      rcases he with rfl | rfl <;> decide)).2.2

/-! ## Theorems: state store -/

/-- C6: loading when the metadata store holds no saved state (no `rpg_chatbot` entry, or
one without a `state`) completes and yields a state equal to `getDefaultState()`: its
top-level keys are exactly the seven domains, each holding its default value. -/
theorem loadStateFromMetadata_absent (rpg_chatbot : Option SavedChat) (sm : StateManager)
    (h : ∀ saved, rpg_chatbot = some saved → saved.state = none) :
    (loadStateFromMetadata rpg_chatbot sm).2 = none ∧
      (loadStateFromMetadata rpg_chatbot sm).1.state = getDefaultState ∧
      ownKeys (loadStateFromMetadata rpg_chatbot sm).1.state = domainKeys ∧
      ∀ k ∈ domainKeys,
        getPath (loadStateFromMetadata rpg_chatbot sm).1.state [k]
          = getPath getDefaultState [k] := by
  have hload : loadStateFromMetadata rpg_chatbot sm
      = ({ sm with state := getDefaultState }, none) := by
    cases rpg_chatbot with
    | none => rfl
    | some saved =>
      have hs := h saved rfl
      simp [loadStateFromMetadata, hs]
  rw [hload]
  exact ⟨rfl, rfl, rfl, fun _ _ => rfl⟩

/-- C6 (witness): a store whose `rpg_chatbot` entry has a ledger but no state, loaded over
a manager whose state is `null`. -/
theorem loadStateFromMetadata_absent_witness :
    (loadStateFromMetadata
        (some { state := none, messageHistory := some ["User: hi"], compressedMemories := none })
        { state := .null, messageHistory := [], compressedMemories := [],
          initialized := true }).1.state = getDefaultState :=
  (loadStateFromMetadata_absent
    (some { state := none, messageHistory := some ["User: hi"], compressedMemories := none })
    { state := .null, messageHistory := [], compressedMemories := [], initialized := true }
    (by intro saved hs; injection hs with hs; rw [← hs])).2.1

/-- C7: for a default state that is an object and a saved state without an own
`__proto__` key, `mergeState` completes and, key by key: where the saved value is an
object, the result holds an object whose every field is the saved field when the saved
object has it and the default domain's field otherwise (fields are taken whole, one level
deep); where the saved value is a scalar, `null` or a list, the result holds the saved
value; where the saved state has no such key, the result holds the default value. -/
theorem mergeState_by_domain (savedState : JVal) (df : List (String × JVal))
    (hproto : "__proto__" ∉ ownKeys savedState) :
    ∃ mf, mergeState savedState (.obj df) = .ok (.obj mf) ∧
      (∀ k sf, getOwn savedState k = some (.obj sf) →
        ∃ fields, lookupField k mf = some (.obj fields) ∧
          ∀ f, lookupField f fields =
            match lookupField f sf with
            | some x => some x
            | none => (lookupField k df).bind (fun d => getOwn d f)) ∧
      (∀ k x, getOwn savedState k = some x → (∀ sf, x ≠ .obj sf) → lookupField k mf = some x) ∧
      (∀ k, getOwn savedState k = none → lookupField k mf = lookupField k df) := by
  obtain ⟨mf, hm, hlook⟩ := mergeLoop_spec savedState (.obj df) (ownKeys savedState) df
    (fun k hk => getOwn_isSome_of_mem hk) hproto
  refine ⟨mf, hm, ?_, ?_, ?_⟩
  · intro k sf hk
    have hmem : k ∈ ownKeys savedState := by
      by_contra hn
      rw [(getOwn_eq_none_iff savedState k).mpr hn] at hk
      cases hk
    refine ⟨spreadInto (spreadInto [] (getOwn (.obj df) k)) (some (.obj sf)), ?_, ?_⟩
    · rw [hlook k, if_pos hmem]
      simp only [mergedValue, hk]
    intro f
    rw [lookupField_spreadInto, lookupField_spreadInto]
    have e1 : (some (JVal.obj sf)).bind (fun t => getOwn t f) = lookupField f sf := rfl
    have e2 : (getOwn (.obj df) k).bind (fun t => getOwn t f)
        = (lookupField k df).bind (fun d => getOwn d f) := rfl
    rw [e1, e2]
    cases lookupField f sf with
    | some x => rfl
    | none =>
      simp only [lookupField]
      cases ((lookupField k df).bind fun d => getOwn d f) <;> rfl
  · intro k x hk hx
    have hmem : k ∈ ownKeys savedState := by
      by_contra hn
      rw [(getOwn_eq_none_iff savedState k).mpr hn] at hk
      cases hk
    rw [hlook k, if_pos hmem]
    unfold mergedValue
    rw [hk]
    cases x with
    | obj sf => exact absurd rfl (hx sf)
    | _ => rfl
  · intro k hk
    rw [hlook k, if_neg ((getOwn_eq_none_iff savedState k).mp hk)]

/-- C7 (witness): a saved state with a partial `character` domain and a scalar in place of
`history`, merged with the defaults: `character.mood` is the saved one, `character.energy`
the default one, `history` is the saved scalar and `pov` the default domain. -/
theorem mergeState_by_domain_witness :
    ∃ mf, mergeState
        (.obj [("character", .obj [("mood", .str "happy")]), ("history", .num 3)])
        getDefaultState = .ok (.obj mf) ∧
      (∃ fields, lookupField "character" mf = some (.obj fields) ∧
        lookupField "mood" fields = some (.str "happy") ∧
        lookupField "energy" fields = some (.num 10)) ∧
      lookupField "history" mf = some (.num 3) ∧
      lookupField "pov" mf = getPath getDefaultState ["pov"] := by
  obtain ⟨mf, hm, h1, h2, h3⟩ := mergeState_by_domain
    (.obj [("character", .obj [("mood", .str "happy")]), ("history", .num 3)])
    (ownEntries getDefaultState) (by decide)
  obtain ⟨fields, hf, hall⟩ := h1 "character" [("mood", .str "happy")] rfl
  exact ⟨mf, hm, ⟨fields, hf, (hall "mood").trans rfl, (hall "energy").trans rfl⟩,
    h2 "history" (.num 3) rfl (fun sf h => by cases h), h3 "pov" rfl⟩

/-- C8: all seven top-level domains are own properties of the conversation state at all
times (a domain exists when the state has its key; the value under it is whatever the saved
state or a patch put there, `null` included).  They are in the initial state and in the
state after `resetState`.  For every saved value without an own `__proto__` key
`mergeState` returns a state that has them, and a domain holds an object there wherever
the saved value holds an object or nothing under that key; `loadStateFromMetadata` then
completes, and whenever it completes the state has them.  `applyStateUpdates` keeps them
for every patch whose run is followed to its end or to the `TypeError` that stops it,
writes on the items and the `length` of lists included. -/
theorem domains_always_exist :
    hasDomains initialStateManager.state = true ∧
      (∀ sm, hasDomains (resetState sm).state = true) ∧
      (∀ saved, "__proto__" ∉ ownKeys saved →
        ∃ mf, mergeState saved getDefaultState = .ok (.obj mf) ∧
          hasDomains (.obj mf) = true ∧
          ∀ k ∈ domainKeys, (∀ x, getOwn saved k = some x → ∃ sf, x = .obj sf) →
            ∃ fields, lookupField k mf = some (.obj fields)) ∧
      (∀ rpg_chatbot sm,
        (∀ saved st, rpg_chatbot = some saved → saved.state = some st →
          "__proto__" ∉ ownKeys st) →
        (loadStateFromMetadata rpg_chatbot sm).2 = none) ∧
      (∀ rpg_chatbot sm, (loadStateFromMetadata rpg_chatbot sm).2 = none →
        hasDomains (loadStateFromMetadata rpg_chatbot sm).1.state = true) ∧
      (∀ s patch, hasDomains s = true →
        (applyStateUpdates s patch).2 ≠ some Fault.outsideModel →
        hasDomains (applyStateUpdates s patch).1 = true) := by
  have hdef : hasDomains getDefaultState = true := by decide
  have hdefk : ∀ k ∈ domainKeys, (lookupField k (ownEntries getDefaultState)).isSome = true :=
    (hasDomains_obj_iff (ownEntries getDefaultState)).mp hdef
  have hmerge : ∀ saved merged, mergeState saved getDefaultState = .ok merged →
      hasDomains merged = true := by
    intro saved merged h
    obtain ⟨mf', rfl, hkeep⟩ := mergeLoop_obj_keeps saved getDefaultState (ownKeys saved)
      (ownEntries getDefaultState) merged h
    rw [hasDomains_obj_iff]
    exact fun k hk => hkeep k (hdefk k hk)
  have hspec : ∀ saved, "__proto__" ∉ ownKeys saved →
      ∃ mf, mergeState saved getDefaultState = .ok (.obj mf) ∧
        hasDomains (.obj mf) = true ∧
        ∀ k ∈ domainKeys, (∀ x, getOwn saved k = some x → ∃ sf, x = .obj sf) →
          ∃ fields, lookupField k mf = some (.obj fields) := by
    intro saved hproto
    obtain ⟨mf, hm, hlook⟩ := mergeLoop_spec saved getDefaultState (ownKeys saved)
      (ownEntries getDefaultState) (fun k hk => getOwn_isSome_of_mem hk) hproto
    refine ⟨mf, hm, hmerge saved _ hm, ?_⟩
    intro k hk hobj
    rw [hlook k]
    by_cases hmem : k ∈ ownKeys saved
    · rw [if_pos hmem]
      have hsome := getOwn_isSome_of_mem hmem
      cases hg : getOwn saved k with
      | none => rw [hg] at hsome; cases hsome
      | some x =>
        obtain ⟨sf, rfl⟩ := hobj x hg
        exact ⟨_, by unfold mergedValue; rw [hg]⟩
    · rw [if_neg hmem]
      simp only [domainKeys, List.mem_cons, List.mem_singleton, List.not_mem_nil,
        or_false] at hk
      rcases hk with rfl | rfl | rfl | rfl | rfl | rfl | rfl <;> exact ⟨_, rfl⟩
  refine ⟨hdef, fun _ => hdef, hspec, ?_, ?_, ?_⟩
  · intro rpg_chatbot sm hproto
    unfold loadStateFromMetadata
    cases hsel : rpg_chatbot.bind (fun saved => saved.state.bind
        (fun st => if truthy st then some (saved, st) else none)) with
    | none => rfl
    | some pair =>
      obtain ⟨saved, st⟩ := pair
      have hst : "__proto__" ∉ ownKeys st := by
        cases rpg_chatbot with
        | none => simp at hsel
        | some saved' =>
          simp only [Option.bind] at hsel
          cases hs' : saved'.state with
          | none => rw [hs'] at hsel; simp at hsel
          | some st' =>
            rw [hs'] at hsel
            simp only at hsel
            split at hsel
            · injection hsel with hsel
              injection hsel with h1 h2
              subst h2
              exact hproto saved' st' rfl hs'
            · cases hsel
      obtain ⟨mf, hm, _⟩ := hspec st hst
      simp only [hm]
  · intro rpg_chatbot sm hnone
    unfold loadStateFromMetadata at hnone ⊢
    cases hsel : rpg_chatbot.bind (fun saved => saved.state.bind
        (fun st => if truthy st then some (saved, st) else none)) with
    | none => exact hdef
    | some pair =>
      obtain ⟨saved, st⟩ := pair
      rw [hsel] at hnone
      simp only at hnone ⊢
      cases hm : mergeState st getDefaultState with
      | ok merged => exact hmerge st merged hm
      | error e => rw [hm] at hnone; simp at hnone
  · intro s patch hs _
    obtain ⟨fs, rfl⟩ := hasDomains_obj hs
    obtain ⟨fs', hfs', hkeep⟩ := applyStateUpdates_obj_keeps patch fs
    rw [hfs', hasDomains_obj_iff]
    exact fun k hk => hkeep k ((hasDomains_obj_iff fs).mp hs k hk)

/-- C8 (witness): the default state patched with `character := null`, then
`history.recent_actions.0 := "waves"` (a write on a list) and `scene.props.lamp := "lit"`
still has the seven domains; the run is followed to its end. -/
theorem domains_always_exist_witness :
    hasDomains getDefaultState = true ∧
      (applyStateUpdates getDefaultState
        [("character", .null), ("history.recent_actions.0", .str "waves"),
         ("scene.props.lamp", .str "lit")]).2 = none ∧
      hasDomains (applyStateUpdates getDefaultState
        [("character", .null), ("history.recent_actions.0", .str "waves"),
         ("scene.props.lamp", .str "lit")]).1 = true :=
  ⟨by decide, rfl,
    domains_always_exist.2.2.2.2.2 getDefaultState
      [("character", .null), ("history.recent_actions.0", .str "waves"),
       ("scene.props.lamp", .str "lit")] (by decide) (by decide)⟩

/-! ## Theorems: transcript ledger and compaction -/

theorem representedTurns_pushTurn (turn : String) (sm : StateManager) :
    representedTurns (pushTurn turn sm) = representedTurns sm + 1 := by
  simp [representedTurns, pushTurn]
  omega

theorem representedTurns_compressMemory (callLLMA : List ChatMessage → Option String)
    (now : String) (sm : StateManager) :
    representedTurns (compressMemory callLLMA now sm) = representedTurns sm := by
  unfold compressMemory
  simp only
  split
  · rfl
  · split
    · simp only [representedTurns, List.map_append, List.sum_append, List.map_cons,
        List.map_nil, List.sum_cons, List.sum_nil, List.length_take, List.length_drop]
      omega
    · rfl

theorem representedTurns_runEvent (sm : StateManager) (ev : LedgerEvent) :
    representedTurns (runEvent sm ev) = representedTurns sm + ev.appended := by
  cases ev with
  | userTurn settings callLLMA now userMessage =>
    simp only [runEvent, recordUserTurn, LedgerEvent.appended]
    split
    · rw [representedTurns_compressMemory, representedTurns_pushTurn]
    · rw [representedTurns_pushTurn]
  | characterTurn characterName mes =>
    simp only [runEvent, recordCharacterTurn, LedgerEvent.appended, representedTurns_pushTurn]
  | compress callLLMA now =>
    simp only [runEvent, LedgerEvent.appended, representedTurns_compressMemory, Nat.add_zero]

theorem representedTurns_runEvents (events : List LedgerEvent) :
    ∀ sm : StateManager,
      representedTurns (runEvents sm events) = representedTurns sm + appendedTurns events := by
  induction events with
  | nil => intro sm; simp [runEvents, appendedTurns]
  | cons ev events ih =>
    intro sm
    have h := ih (runEvent sm ev)
    simp only [runEvents, List.foldl_cons] at h ⊢
    rw [h, representedTurns_runEvent]
    simp [appendedTurns]
    omega

/-- C9: turn conservation.  From any ledger and compaction log, after any sequence of
user turns (each followed by the compaction trigger), character turns and direct runs of
`compressMemory`, each with a summarizer that answers or throws, the sum of
`original_count` over the records plus the number of live turns has grown by exactly the
number of turns appended; from the empty ledger and log it equals that number. -/
theorem turns_conserved (events : List LedgerEvent) :
    (∀ sm : StateManager,
      (((runEvents sm events).compressedMemories.map Memory.original_count).sum
          + (runEvents sm events).messageHistory.length)
        = ((sm.compressedMemories.map Memory.original_count).sum + sm.messageHistory.length)
          + appendedTurns events) ∧
      (((runEvents initialStateManager events).compressedMemories.map Memory.original_count).sum
          + (runEvents initialStateManager events).messageHistory.length)
        = appendedTurns events := by
  refine ⟨fun sm => representedTurns_runEvents events sm, ?_⟩
  have h := representedTurns_runEvents events initialStateManager
  simpa [representedTurns, initialStateManager] using h

/-- C10: on a ledger of `n > 6` live turns, a run of `compressMemory` whose summarizer
answers `summary` to the request built from the oldest `n - 6` turns, joined in their
order, appends exactly one record, with `original_count = n - 6`, after the earlier
records, and leaves exactly the last six turns in the ledger, in their order: the batch
followed by the turns kept is the former ledger.  The conversation state is untouched. -/
theorem compressMemory_success (callLLMA : List ChatMessage → Option String) (now : String)
    (sm : StateManager) (summary : String) (hn : 6 < sm.messageHistory.length)
    (hcall : callLLMA (compressionMessages
      (sm.messageHistory.take (sm.messageHistory.length - 6))) = some summary) :
    (compressMemory callLLMA now sm).compressedMemories
        = sm.compressedMemories ++
          [{ summary := summary, original_count := sm.messageHistory.length - 6,
             timestamp := now }] ∧
      (compressMemory callLLMA now sm).messageHistory
        = sm.messageHistory.drop (sm.messageHistory.length - 6) ∧
      (compressMemory callLLMA now sm).messageHistory.length = 6 ∧
      sm.messageHistory.take (sm.messageHistory.length - 6)
          ++ (compressMemory callLLMA now sm).messageHistory = sm.messageHistory ∧
      (compressMemory callLLMA now sm).state = sm.state := by
  have hlen : (sm.messageHistory.take (sm.messageHistory.length - 6)).length
      = sm.messageHistory.length - 6 := by
    rw [List.length_take]; omega
  have hne : ¬ (sm.messageHistory.take (sm.messageHistory.length - 6)).length = 0 := by
    rw [hlen]; omega
  have hrun : compressMemory callLLMA now sm =
      { sm with
          compressedMemories := sm.compressedMemories ++
            [{ summary := summary, original_count := sm.messageHistory.length - 6,
               timestamp := now }]
          messageHistory := sm.messageHistory.drop (sm.messageHistory.length - 6) } := by
    unfold compressMemory
    simp only [hne, if_false, hcall, hlen]
    rw [if_neg (by omega)]
  rw [hrun]
  refine ⟨rfl, rfl, ?_, ?_, rfl⟩
  · simp only [List.length_drop]; omega
  · exact List.take_append_drop _ _

set_option maxRecDepth 100000 in
/-- C10 (witness): threshold 20, twenty-one appended turns: the twenty-first triggers one
compaction, covering the oldest fifteen turns, and six live turns are left. -/
theorem compressMemory_success_witness :
    ((runEvents initialStateManager
        (List.replicate 21 (.userTurn defaultSettings (fun _ => some "summary") "now" "hi"))
      ).compressedMemories = [{ summary := "summary", original_count := 15, timestamp := "now" }]) ∧
      (runEvents initialStateManager
        (List.replicate 21 (.userTurn defaultSettings (fun _ => some "summary") "now" "hi"))
      ).messageHistory.length = 6 ∧
      (compressMemory (fun _ => some "summary") "now" ledgerOf21).compressedMemories
        = [{ summary := "summary", original_count := 15, timestamp := "now" }] :=
  ⟨rfl, rfl,
    (compressMemory_success (fun _ => some "summary") "now" ledgerOf21 "summary"
      (by decide) rfl).1⟩

/-! ## Theorems: summarizer failure and the compaction trigger -/

/-- C11: when the summarizer call inside `compressMemory` throws, `compressMemory` returns
normally (the `catch` of lines 571-573 absorbs the exception) with the manager as it was:
the ledger holds the same turns in the same order and no record is added.  The user-turn
step around it then leaves exactly the ledger with the new turn appended. -/
theorem compressMemory_summarizer_fails (callLLMA : List ChatMessage → Option String)
    (now : String) (sm : StateManager)
    (hfail : callLLMA (compressionMessages
      (sm.messageHistory.take (sm.messageHistory.length - 6))) = none) :
    compressMemory callLLMA now sm = sm ∧
      (compressMemory callLLMA now sm).messageHistory = sm.messageHistory ∧
      (compressMemory callLLMA now sm).compressedMemories = sm.compressedMemories := by
  have h : compressMemory callLLMA now sm = sm := by
    unfold compressMemory
    simp only
    split
    · rfl
    · rw [hfail]
  rw [h]
  exact ⟨rfl, rfl, rfl⟩

/-- C11 (witness): the ledger of twenty-one turns with a summarizer that always throws. -/
theorem compressMemory_summarizer_fails_witness :
    (compressMemory (fun _ => none) "now" ledgerOf21).messageHistory
        = ledgerOf21.messageHistory ∧
      (compressMemory (fun _ => none) "now" ledgerOf21).compressedMemories = [] :=
  ⟨(compressMemory_summarizer_fails (fun _ => none) "now" ledgerOf21 rfl).2.1,
    (compressMemory_summarizer_fails (fun _ => none) "now" ledgerOf21 rfl).2.2⟩

/-- The value of the traced `compressMemory` is the result of `compressMemory`. -/
theorem compressMemoryTraced_value (callLLMA : List ChatMessage → Option String)
    (now : String) (sm : StateManager) :
    (compressMemoryTraced callLLMA now sm).value = compressMemory callLLMA now sm := by
  unfold compressMemoryTraced compressMemory
  simp only
  split
  · rfl
  · simp only [Traced.bind, askLLMA]
    cases callLLMA (compressionMessages
      (sm.messageHistory.take (sm.messageHistory.length - 6))) <;> rfl

/-- The requests of `compressMemory`: none for an empty batch, one for the batch
otherwise. -/
theorem compressMemoryTraced_requests (callLLMA : List ChatMessage → Option String)
    (now : String) (sm : StateManager) :
    (compressMemoryTraced callLLMA now sm).requests =
      if sm.messageHistory.take (sm.messageHistory.length - 6) = [] then []
      else [compressionMessages (sm.messageHistory.take (sm.messageHistory.length - 6))] := by
  unfold compressMemoryTraced
  simp only
  by_cases h : sm.messageHistory.take (sm.messageHistory.length - 6) = []
  · rw [if_pos (by rw [h]; rfl), if_pos h]
    rfl
  · have hlen : ¬ (sm.messageHistory.take (sm.messageHistory.length - 6)).length = 0 :=
      fun h0 => h (List.length_eq_zero.mp h0)
    rw [if_neg hlen, if_neg h]
    simp only [Traced.bind, askLLMA]
    cases callLLMA (compressionMessages
      (sm.messageHistory.take (sm.messageHistory.length - 6))) <;> rfl

/-- C12: with compression enabled, the compaction step of a user turn sends no request to
the summarizer exactly when the live turn count does not exceed the threshold
(`count <= compression_threshold`) or the batch of turns older than the six most recent
is empty; the step then returns the manager as it was, ledger and compaction log
unchanged.  In every other case it sends exactly one request, for the batch.  The requests
are those of the step itself: its value is the result of the compaction step, and that
step is the one the user turn runs after its append. -/
theorem compaction_noop_iff (settings : Settings) (callLLMA : List ChatMessage → Option String)
    (now : String) (sm : StateManager) (hen : settings.memory_compression = true) :
    ((compactionTriggerTraced settings callLLMA now sm).requests = [] ↔
        ((sm.messageHistory.length : Int) ≤ settings.compression_threshold ∨
          sm.messageHistory.take (sm.messageHistory.length - 6) = [])) ∧
      ((compactionTriggerTraced settings callLLMA now sm).requests = [] →
        (compactionTriggerTraced settings callLLMA now sm).value = sm) ∧
      ((compactionTriggerTraced settings callLLMA now sm).requests ≠ [] →
        (compactionTriggerTraced settings callLLMA now sm).requests
          = [compressionMessages (sm.messageHistory.take (sm.messageHistory.length - 6))]) ∧
      (compactionTriggerTraced settings callLLMA now sm).value
        = compactionTrigger settings callLLMA now sm ∧
      (∀ userMessage, recordUserTurn settings callLLMA now userMessage sm
        = compactionTrigger settings callLLMA now (pushTurn ("User: " ++ userMessage) sm)) := by
  by_cases hgt : (sm.messageHistory.length : Int) > settings.compression_threshold
  · have htr : compactionTriggerTraced settings callLLMA now sm
        = compressMemoryTraced callLLMA now sm := by
      simp [compactionTriggerTraced, hen, hgt]
    have htrig : compactionTrigger settings callLLMA now sm = compressMemory callLLMA now sm := by
      simp [compactionTrigger, hen, hgt]
    rw [htr, htrig, compressMemoryTraced_requests]
    by_cases hb : sm.messageHistory.take (sm.messageHistory.length - 6) = []
    · rw [if_pos hb]
      refine ⟨⟨fun _ => Or.inr hb, fun _ => rfl⟩, fun _ => ?_, fun h => absurd rfl h,
        compressMemoryTraced_value callLLMA now sm, fun _ => rfl⟩
      rw [compressMemoryTraced_value]
      unfold compressMemory
      simp only
      rw [if_pos (by rw [hb]; rfl)]
    · rw [if_neg hb]
      refine ⟨⟨nofun, ?_⟩, nofun, fun _ => rfl,
        compressMemoryTraced_value callLLMA now sm, fun _ => rfl⟩
      rintro (h | h)
      · omega
      · exact absurd h hb
  · have htr : compactionTriggerTraced settings callLLMA now sm = Traced.pure sm := by
      simp [compactionTriggerTraced, hgt]
    have htrig : compactionTrigger settings callLLMA now sm = sm := by
      simp [compactionTrigger, hgt]
    rw [htr, htrig]
    refine ⟨⟨fun _ => Or.inl (by omega), fun _ => rfl⟩, fun _ => rfl, fun h => absurd rfl h,
      rfl, fun _ => rfl⟩

/-- C12 (witness): threshold 20.  Twenty-one live turns give one request, for the oldest
fifteen; twenty live turns give none. -/
theorem compaction_noop_iff_witness :
    (compactionTriggerTraced defaultSettings (fun _ => none) "now" ledgerOf21).requests
        = [compressionMessages (ledgerOf21.messageHistory.take 15)] ∧
      (compactionTriggerTraced defaultSettings (fun _ => none) "now"
        { ledgerOf21 with messageHistory := List.replicate 20 "User: hi" }).requests = [] :=
  ⟨(compaction_noop_iff defaultSettings (fun _ => none) "now" ledgerOf21 rfl).2.2.1
      (by
        intro h
        have h2 :=
          (compaction_noop_iff defaultSettings (fun _ => none) "now" ledgerOf21 rfl).1.mp h
        revert h2
        decide),
    (compaction_noop_iff defaultSettings (fun _ => none) "now"
      { ledgerOf21 with messageHistory := List.replicate 20 "User: hi" } rfl).1.mpr
      (Or.inl (by decide))⟩

/-! ## Theorems: frame of `applyStateUpdates` -/

/-- C20 (as stated, refuted): a write on a list changes locations that part ways with the
written path.  With two important events recorded, the patch
`history.important_events.length := 0` is applied without exception and empties the list
(the state is the default state again): the location `history.important_events.0`, which is neither an initial part nor an
extension of the patch path, held the first event before and holds nothing after.
Likewise `history.important_events.2 := "wedding"` appends an item, and the location
`history.important_events.length` goes from 2 to 3. -/
theorem applyStateUpdates_frame_counterexample :
    diverge (splitPath "history.important_events.length")
        ["history", "important_events", "0"] = true ∧
      getPath eventsState ["history", "important_events", "0"]
        = some (.str "met at the library") ∧
      applyStateUpdates eventsState [("history.important_events.length", .num 0)]
        = (getDefaultState, none) ∧
      getPath (applyStateUpdates eventsState [("history.important_events.length", .num 0)]).1
        ["history", "important_events", "0"] = none ∧
      diverge (splitPath "history.important_events.2")
        ["history", "important_events", "length"] = true ∧
      getPath eventsState ["history", "important_events", "length"] = some (.num 2) ∧
      (applyStateUpdates eventsState [("history.important_events.2", .str "wedding")]).2
        = none ∧
      getPath (applyStateUpdates eventsState
          [("history.important_events.2", .str "wedding")]).1
        ["history", "important_events", "length"] = some (.num 3) :=
  ⟨by decide, rfl, rfl, rfl, by decide, rfl, rfl, rfl⟩

/-- C20 (amended): `applyStateUpdates` changes nothing outside the written paths as long as
no entry walks into a list.  For every state and every patch whose entries, at the moment
each is applied, walk through objects only (or are stopped at a scalar by the `TypeError`
that ends the patch), the run stays inside the model, and every location `q` that parts
ways with every path of the patch (it is neither an initial part nor an extension of any
of them) holds the same value before and after the call, locations inside lists
included.  And for every patch the call touches the `state` member of the manager only:
the ledger and the compaction log are as they were. -/
theorem applyStateUpdates_frame (sm : StateManager) (patch : List (String × JVal)) :
    (walkablePatch sm.state patch = true →
        (applyStateUpdates sm.state patch).2 ≠ some Fault.outsideModel ∧
        ∀ q : List String, (∀ e ∈ patch, diverge (splitPath e.1) q = true) →
          getPath (applyStateUpdates sm.state patch).1 q = getPath sm.state q ∧
          getPath (applyStateUpdatesOn sm patch).1.state q = getPath sm.state q) ∧
      (applyStateUpdatesOn sm patch).1.messageHistory = sm.messageHistory ∧
      (applyStateUpdatesOn sm patch).1.compressedMemories = sm.compressedMemories := by
  have key : ∀ (patch : List (String × JVal)) (s : JVal), walkablePatch s patch = true →
      (applyStateUpdates s patch).2 ≠ some Fault.outsideModel ∧
      ∀ q : List String, (∀ e ∈ patch, diverge (splitPath e.1) q = true) →
        getPath (applyStateUpdates s patch).1 q = getPath s q := by
    intro patch
    induction patch with
    | nil => intro s _; exact ⟨nofun, fun _ _ => rfl⟩
    | cons e patch ih =>
      intro s hwalk
      obtain ⟨path, v⟩ := e
      simp only [walkablePatch] at hwalk
      simp only [applyStateUpdates]
      cases hs : setPath s (splitPath path) v with
      | error f =>
        rw [hs] at hwalk
        simp only [beq_iff_eq] at hwalk
        subst hwalk
        exact ⟨nofun, fun _ _ => rfl⟩
      | ok s' =>
        rw [hs] at hwalk
        simp only [Bool.and_eq_true] at hwalk
        obtain ⟨hfault, hframe⟩ := ih s' hwalk.2
        refine ⟨hfault, fun q h => ?_⟩
        rw [hframe q (fun e he => h e (by simp [he]))]
        exact getPath_setPath_diverge (splitPath path) s s' v q hwalk.1 hs
          (h (path, v) (by simp))
  refine ⟨fun hwalk => ?_, rfl, rfl⟩
  obtain ⟨hfault, hframe⟩ := key patch sm.state hwalk
  exact ⟨hfault, fun q hq => ⟨hframe q hq, hframe q hq⟩⟩

/-- C20 (witness): the "unbutton" patch on the state with a tracked blouse walks through
objects only and leaves the skirt record as it was. -/
theorem applyStateUpdates_frame_witness :
    walkablePatch blouseState
        [("appearance.clothes_details.blouse", .obj [("fastened", .bool false)]),
         ("appearance.body_exposure", .str "partial")] = true ∧
      getPath (applyStateUpdates blouseState
        [("appearance.clothes_details.blouse", .obj [("fastened", .bool false)]),
         ("appearance.body_exposure", .str "partial")]).1
        ["appearance", "clothes_details", "skirt"]
      = getPath blouseState ["appearance", "clothes_details", "skirt"] :=
  ⟨by decide,
    (((applyStateUpdates_frame
      { state := blouseState, messageHistory := [], compressedMemories := [],
        initialized := true }
      [("appearance.clothes_details.blouse", .obj [("fastened", .bool false)]),
       ("appearance.body_exposure", .str "partial")]).1 (by decide)).2
      ["appearance", "clothes_details", "skirt"]
      (by
        intro e he
        simp only [List.mem_cons, List.mem_singleton, List.not_mem_nil, or_false] at he
        rcases he with rfl | rfl <;> decide)).1⟩

/-! ## Theorems: `buildSmartContextForLLMB` -/

theorem compressedHistoryOf_eq (config : ModeConfig) (compressedMemories : List Memory) :
    compressedHistoryOf config compressedMemories =
      if config.includeCompressed then
        compressedMemories.map
          (fun mem => { summary := mem.summary, messageCount := mem.original_count })
      else [] := by
  unfold compressedHistoryOf
  cases hinc : config.includeCompressed
  · simp
  · cases compressedMemories with
    | nil => simp
    | cons m ms => simp

theorem cardBudgetExceeded_some_iff (settings : ExtensionSettings) (context : HostContext)
    (config : ModeConfig) (budget : Nat) (charDesc : String) :
    cardBudgetExceeded settings context config = some (budget, charDesc) ↔
      context.characterDescription = some charDesc ∧ config.charCardTokens = some budget ∧
        settings.compress_character_card = true ∧ charDesc ≠ "" ∧
        estimatedTokens charDesc > budget := by
  unfold cardBudgetExceeded
  cases hd : context.characterDescription with
  | none => simp
  | some d =>
    cases hb : config.charCardTokens with
    | none => simp
    | some b =>
      simp only [Option.some.injEq]
      by_cases hc : settings.compress_character_card = true ∧ d ≠ "" ∧ estimatedTokens d > b
      · obtain ⟨h1, h2, h3⟩ := hc
        have hcond : (settings.compress_character_card && d != ""
            && decide (estimatedTokens d > b)) = true := by
          simp [h1, h2, h3]
        rw [if_pos hcond]
        constructor
        · intro h
          injection h with h
          injection h with hb' hd'
          subst hb'
          subst hd'
          exact ⟨rfl, rfl, h1, h2, h3⟩
        · rintro ⟨rfl, rfl, _⟩
          rfl
      · have hcond : ¬ (settings.compress_character_card && d != ""
            && decide (estimatedTokens d > b)) = true := by
          intro hne
          simp only [Bool.and_eq_true, bne_iff_ne, ne_eq, decide_eq_true_eq] at hne
          exact hc ⟨hne.1.1, hne.1.2, hne.2⟩
        rw [if_neg hcond]
        constructor
        · intro h
          cases h
        · rintro ⟨rfl, rfl, h1, h2, h3⟩
          exact absurd ⟨h1, h2, h3⟩ hc

theorem estimatedTokens_gt_iff (charDesc : String) (budget : Nat) :
    estimatedTokens charDesc > budget ↔ utf16Length charDesc > 4 * budget := by
  unfold estimatedTokens
  omega

theorem ne_empty_of_estimatedTokens_gt {charDesc : String} {budget : Nat}
    (h : estimatedTokens charDesc > budget) : charDesc ≠ "" := by
  rintro rfl
  have h0 : estimatedTokens "" = 0 := by decide
  omega

theorem utf16Length_sheetOf (n : Nat) : utf16Length (sheetOf n) = n := by
  unfold utf16Length sheetOf
  induction n with
  | zero => rfl
  | succ n ih =>
    simp only [List.replicate_succ, List.map_cons, List.sum_cons] at ih ⊢
    rw [ih]
    have ha : ¬ ('a'.val ≥ 0x10000) := by decide
    rw [if_neg ha]
    omega

theorem estimatedTokens_sheetOf (n : Nat) : estimatedTokens (sheetOf n) = (n + 3) / 4 := by
  unfold estimatedTokens
  rw [utf16Length_sheetOf]

/-- The test of lines 609-614 spelled out for a description and a budget: with card
compression enabled the card is sent to the summarizer exactly when its estimate exceeds
the budget. -/
theorem cardBudgetExceeded_eq (settings : ExtensionSettings) (context : HostContext)
    (config : ModeConfig) (budget : Nat) (charDesc : String)
    (hen : settings.compress_character_card = true)
    (hb : config.charCardTokens = some budget)
    (hd : context.characterDescription = some charDesc) :
    cardBudgetExceeded settings context config
      = if estimatedTokens charDesc > budget then some (budget, charDesc) else none := by
  by_cases hgt : estimatedTokens charDesc > budget
  · rw [if_pos hgt]
    exact (cardBudgetExceeded_some_iff _ _ _ _ _).mpr
      ⟨hd, hb, hen, ne_empty_of_estimatedTokens_gt hgt, hgt⟩
  · rw [if_neg hgt]
    cases hc : cardBudgetExceeded settings context config with
    | none => rfl
    | some pair =>
      obtain ⟨b, d⟩ := pair
      obtain ⟨hd', hb', _, _, hgt'⟩ := (cardBudgetExceeded_some_iff _ _ _ _ _).mp hc
      rw [hd] at hd'
      rw [hb] at hb'
      injection hd' with hd'
      injection hb' with hb'
      subst hd'
      subst hb'
      exact absurd hgt' hgt

/-- With card compression switched off, or without a description, no card is sent. -/
theorem cardBudgetExceeded_none (settings : ExtensionSettings) (context : HostContext)
    (config : ModeConfig)
    (h : settings.compress_character_card = false ∨ context.characterDescription = none) :
    cardBudgetExceeded settings context config = none := by
  cases hc : cardBudgetExceeded settings context config with
  | none => rfl
  | some pair =>
    obtain ⟨b, d⟩ := pair
    obtain ⟨hd, _, hen, _, _⟩ := (cardBudgetExceeded_some_iff _ _ _ _ _).mp hc
    rcases h with h | h
    · rw [h] at hen; cases hen
    · rw [h] at hd; cases hd

/-- The builder for a profile other than `off`: the requests are those of the card step,
and the value is assembled from the card, the compaction log, the chat and the rendered
state. -/
theorem buildSmartContext_eq (settings : ExtensionSettings) (context : HostContext)
    (callLLMA : List ChatMessage → Option String) (sm : StateManager)
    (hoff : activeProfile settings ≠ "off") :
    (buildSmartContextForLLMB settings context callLLMA sm).requests
        = (compressCharacterCard settings context (configFor (activeProfile settings))
            callLLMA).requests ∧
      (buildSmartContextForLLMB settings context callLLMA sm).value
        = match (compressCharacterCard settings context (configFor (activeProfile settings))
            callLLMA).value, renderStateContext sm.state with
          | some card, .ok text =>
            some { characterCard := card
                   compressedHistory :=
                     compressedHistoryOf (configFor (activeProfile settings))
                       sm.compressedMemories
                   recentMessages :=
                     recentMessagesOf (configFor (activeProfile settings)) context.chat
                   stateContext := text }
          | _, _ => none := by
  unfold buildSmartContextForLLMB
  rw [if_neg hoff]
  simp only [Traced.bind]
  cases (compressCharacterCard settings context (configFor (activeProfile settings))
      callLLMA).value with
  | none => exact ⟨by simp [Traced.pure], rfl⟩
  | some card =>
    cases renderStateContext sm.state with
    | error e => exact ⟨by simp [Traced.pure], rfl⟩
    | ok text => exact ⟨by simp [Traced.pure], rfl⟩

/-- The card step: it sends the card exactly when the test of lines 609-614 succeeds, and
its value is then the answer of the summarizer; otherwise it sends nothing and its value
is the description, or the empty string when card compression is off or nothing is
described. -/
theorem compressCharacterCard_eq (settings : ExtensionSettings) (context : HostContext)
    (config : ModeConfig) (callLLMA : List ChatMessage → Option String) :
    compressCharacterCard settings context config callLLMA
      = match cardBudgetExceeded settings context config with
        | some (budget, charDesc) =>
          { value := callLLMA (characterCardMessages budget charDesc),
            requests := [characterCardMessages budget charDesc] }
        | none =>
          { value := some (match context.characterDescription with
              | some charDesc => if settings.compress_character_card then charDesc else ""
              | none => ""),
            requests := [] } := by
  unfold compressCharacterCard
  cases cardBudgetExceeded settings context config with
  | some pair => rfl
  | none =>
    cases context.characterDescription with
    | none => rfl
    | some charDesc =>
      cases settings.compress_character_card <;> rfl

/-- A context is built whenever the profile is not `off`, the summarizer answers every
request and the state renders. -/
theorem buildSmartContext_exists (settings : ExtensionSettings) (context : HostContext)
    (callLLMA : List ChatMessage → Option String) (sm : StateManager)
    (hoff : activeProfile settings ≠ "off") (hcall : ∀ req, (callLLMA req).isSome = true)
    (hrender : ∃ text, renderStateContext sm.state = .ok text) :
    ∃ ctx, (buildSmartContextForLLMB settings context callLLMA sm).value = some ctx := by
  obtain ⟨text, htext⟩ := hrender
  rw [(buildSmartContext_eq settings context callLLMA sm hoff).2, htext,
    compressCharacterCard_eq]
  cases hc : cardBudgetExceeded settings context (configFor (activeProfile settings)) with
  | none => exact ⟨_, rfl⟩
  | some pair =>
    obtain ⟨budget, charDesc⟩ := pair
    have := hcall (characterCardMessages budget charDesc)
    cases hans : callLLMA (characterCardMessages budget charDesc) with
    | none => rw [hans] at this; cases this
    | some card =>
      simp only [hans]
      exact ⟨_, rfl⟩

/-- What a context holds when one is built: the compaction log and the chat as the
configuration of the profile selects them. -/
theorem buildSmartContext_some (settings : ExtensionSettings) (context : HostContext)
    (callLLMA : List ChatMessage → Option String) (sm : StateManager) (ctx : SmartContext)
    (h : (buildSmartContextForLLMB settings context callLLMA sm).value = some ctx) :
    activeProfile settings ≠ "off" ∧
      (compressCharacterCard settings context (configFor (activeProfile settings))
        callLLMA).value = some ctx.characterCard ∧
      ctx.compressedHistory
        = compressedHistoryOf (configFor (activeProfile settings)) sm.compressedMemories ∧
      ctx.recentMessages = recentMessagesOf (configFor (activeProfile settings)) context.chat := by
  have hoff : activeProfile settings ≠ "off" := by
    intro hoff
    simp [buildSmartContextForLLMB, hoff, Traced.pure] at h
  rw [(buildSmartContext_eq settings context callLLMA sm hoff).2] at h
  cases hcard : (compressCharacterCard settings context (configFor (activeProfile settings))
      callLLMA).value with
  | none => rw [hcard] at h; cases h
  | some card =>
    rw [hcard] at h
    cases hrender : renderStateContext sm.state with
    | error e => rw [hrender] at h; cases h
    | ok text =>
      rw [hrender] at h
      simp only [Option.some.injEq] at h
      subst h
      exact ⟨hoff, rfl, rfl, rfl⟩

/-- C13 (as stated, refuted): the messages kept are not turns of the ledger.  Under
`minimal`, with a ledger of one live turn and a host chat of five messages, the context
holds three recent messages, the last three of the host chat; and it is the same context
when the ledger is empty. -/
theorem smartContext_profiles_counterexample :
    managerWithTwoRecords.messageHistory.length = 1 ∧
      (buildSmartContextForLLMB (settingsWith "minimal" true)
          { characterDescription := none, chat := chatOf 5 }
          (fun _ => some "card") managerWithTwoRecords).value.map SmartContext.recentMessages
        = some (((chatOf 5).drop 2).map toRecentMessage) ∧
      (((chatOf 5).drop 2).map toRecentMessage).length = 3 ∧
      (buildSmartContextForLLMB (settingsWith "minimal" true)
          { characterDescription := none, chat := chatOf 5 }
          (fun _ => some "card") { managerWithTwoRecords with messageHistory := [] }).value
        = (buildSmartContextForLLMB (settingsWith "minimal" true)
          { characterDescription := none, chat := chatOf 5 }
          (fun _ => some "card") managerWithTwoRecords).value :=
  ⟨rfl, rfl, rfl, rfl⟩

/-- C13 (amended): the budget profile fixes the parameters.  Profile `off` returns `null`
and sends no request.  For `minimal` (keep 3, budget 150, no compaction log), `balanced`
and `auto` (keep 6, budget 300, with the log) and `aggressive` (keep 10, budget 500, with
the log): every context built holds the last `keep` messages of the host chat
`context.chat` and, as `compressedHistory`, every compaction record in log order when the
log is included and nothing otherwise; with card compression enabled the builder sends
the described character sheet to the summarizer, naming the budget of the profile, exactly
when the estimate of the sheet exceeds that budget, and sends nothing otherwise; and a
context is built whenever the summarizer answers and the state renders. -/
theorem smartContext_profiles (settings : ExtensionSettings) (context : HostContext)
    (callLLMA : List ChatMessage → Option String) (sm : StateManager) :
    (activeProfile settings = "off" →
        (buildSmartContextForLLMB settings context callLLMA sm).value = none ∧
        (buildSmartContextForLLMB settings context callLLMA sm).requests = []) ∧
      (∀ (name : String) (keep budget : Nat) (incl : Bool),
        (name, keep, budget, incl) ∈
          [("minimal", 3, 150, false), ("balanced", 6, 300, true), ("auto", 6, 300, true),
           ("aggressive", 10, 500, true)] →
        activeProfile settings = name →
        (∀ ctx, (buildSmartContextForLLMB settings context callLLMA sm).value = some ctx →
          ctx.recentMessages
            = (context.chat.drop (context.chat.length - keep)).map toRecentMessage ∧
          ctx.compressedHistory =
            if incl = true then
              sm.compressedMemories.map
                (fun mem => { summary := mem.summary, messageCount := mem.original_count })
            else []) ∧
        (∀ charDesc, settings.compress_character_card = true →
          context.characterDescription = some charDesc →
          (buildSmartContextForLLMB settings context callLLMA sm).requests =
            if estimatedTokens charDesc > budget then [characterCardMessages budget charDesc]
            else []) ∧
        ((∀ req, (callLLMA req).isSome = true) →
          (∃ text, renderStateContext sm.state = .ok text) →
          ∃ ctx, (buildSmartContextForLLMB settings context callLLMA sm).value = some ctx)) := by
  refine ⟨?_, ?_⟩
  · intro hoff
    simp [buildSmartContextForLLMB, hoff, Traced.pure]
  · intro name keep budget incl hmem hp
    have hrow : activeProfile settings ≠ "off" ∧
        configFor (activeProfile settings)
          = { keepMessages := some keep, charCardTokens := some budget,
              includeCompressed := incl } := by
      simp only [List.mem_cons, Prod.mk.injEq, List.mem_singleton, List.not_mem_nil,
        or_false] at hmem
      rcases hmem with ⟨rfl, rfl, rfl, rfl⟩ | ⟨rfl, rfl, rfl, rfl⟩ | ⟨rfl, rfl, rfl, rfl⟩
        | ⟨rfl, rfl, rfl, rfl⟩ <;> rw [hp] <;> exact ⟨by decide, rfl⟩
    obtain ⟨hoff, hcfg⟩ := hrow
    refine ⟨?_, ?_, buildSmartContext_exists settings context callLLMA sm hoff⟩
    · intro ctx hctx
      obtain ⟨_, _, h1, h2⟩ := buildSmartContext_some settings context callLLMA sm ctx hctx
      rw [h1, h2, hcfg, compressedHistoryOf_eq]
      exact ⟨rfl, rfl⟩
    · intro charDesc hen hd
      rw [(buildSmartContext_eq settings context callLLMA sm hoff).1,
        compressCharacterCard_eq,
        cardBudgetExceeded_eq settings context _ budget charDesc hen (by rw [hcfg]) hd]
      by_cases hgt : estimatedTokens charDesc > budget
      · simp only [hgt, if_true]
      · simp only [hgt, if_false]

/-- C13 (witness): profile `minimal` on a chat of five messages and a log of two records:
a context is built, its `compressedHistory` is empty and it holds three messages; a sheet
of 2000 characters is sent with the budget 150. -/
theorem smartContext_profiles_witness :
    (∃ ctx, (buildSmartContextForLLMB (settingsWith "minimal" true)
        { characterDescription := some "A shy librarian.", chat := chatOf 5 }
        (fun _ => some "card") managerWithTwoRecords).value = some ctx ∧
      ctx.compressedHistory = [] ∧ ctx.recentMessages.length = 3) ∧
    (buildSmartContextForLLMB (settingsWith "minimal" true)
        { characterDescription := some (sheetOf 2000), chat := chatOf 5 }
        (fun _ => some "card") managerWithTwoRecords).requests
      = [characterCardMessages 150 (sheetOf 2000)] := by
  have h := (smartContext_profiles (settingsWith "minimal" true)
    { characterDescription := some "A shy librarian.", chat := chatOf 5 }
    (fun _ => some "card") managerWithTwoRecords).2 "minimal" 3 150 false (by simp) rfl
  have h' := (smartContext_profiles (settingsWith "minimal" true)
    { characterDescription := some (sheetOf 2000), chat := chatOf 5 }
    (fun _ => some "card") managerWithTwoRecords).2 "minimal" 3 150 false (by simp) rfl
  obtain ⟨ctx, hctx⟩ := h.2.2 (fun _ => rfl) ⟨_, rfl⟩
  obtain ⟨h1, h2⟩ := h.1 ctx hctx
  refine ⟨⟨ctx, hctx, h2, by rw [h1]; rfl⟩, ?_⟩
  have hreq := h'.2.1 (sheetOf 2000) rfl rfl
  rw [hreq, if_pos (by rw [estimatedTokens_sheetOf]; decide)]

/-- C14 (as stated, refuted): with the setting `compress_character_card` switched off and
the profile `minimal` (budget 150), a sheet of 2000 characters (estimate 500) is not sent
to the summarizer, and for a sheet of 400 characters (estimate 100) the card of the
result is empty, not the sheet. -/
theorem characterCard_counterexample :
    estimatedTokens (sheetOf 2000) = 500 ∧
      (buildSmartContextForLLMB (settingsWith "minimal" false)
        { characterDescription := some (sheetOf 2000), chat := [] }
        (fun _ => some "card") initialStateManager).requests = [] ∧
      estimatedTokens (sheetOf 400) = 100 ∧
      (buildSmartContextForLLMB (settingsWith "minimal" false)
        { characterDescription := some (sheetOf 400), chat := [] }
        (fun _ => some "card") initialStateManager).value.map SmartContext.characterCard
        = some "" :=
  ⟨estimatedTokens_sheetOf 2000, rfl, estimatedTokens_sheetOf 400, rfl⟩

/-- C14 (amended): when the setting `compress_character_card` is enabled, for every sheet
of length `L` (in UTF-16 units) and every profile with budget `B`,
`buildSmartContextForLLMB` sends the sheet to the summarizer, once, if and only if
`ceil(L / 4) > B`, equivalently `L > 4 * B`.  In that case the result is `null` when the
call throws, and when it answers and the state renders the result is a context whose card
is the answer.  Otherwise no request is sent, and when the state renders the result is a
context whose card is the sheet unchanged. -/
theorem characterCard_budget (settings : ExtensionSettings) (context : HostContext)
    (callLLMA : List ChatMessage → Option String) (sm : StateManager)
    (charDesc : String) (budget : Nat)
    (hen : settings.compress_character_card = true)
    (hoff : activeProfile settings ≠ "off")
    (hb : (configFor (activeProfile settings)).charCardTokens = some budget)
    (hd : context.characterDescription = some charDesc) :
    ((buildSmartContextForLLMB settings context callLLMA sm).requests
          = [characterCardMessages budget charDesc] ↔
        estimatedTokens charDesc > budget) ∧
      ((buildSmartContextForLLMB settings context callLLMA sm).requests = [] ↔
        ¬ estimatedTokens charDesc > budget) ∧
      (estimatedTokens charDesc > budget ↔ utf16Length charDesc > 4 * budget) ∧
      (estimatedTokens charDesc > budget →
        (callLLMA (characterCardMessages budget charDesc) = none →
          (buildSmartContextForLLMB settings context callLLMA sm).value = none) ∧
        (∀ card text, callLLMA (characterCardMessages budget charDesc) = some card →
          renderStateContext sm.state = .ok text →
          ∃ ctx, (buildSmartContextForLLMB settings context callLLMA sm).value = some ctx ∧
            ctx.characterCard = card)) ∧
      (¬ estimatedTokens charDesc > budget →
        ∀ text, renderStateContext sm.state = .ok text →
          ∃ ctx, (buildSmartContextForLLMB settings context callLLMA sm).value = some ctx ∧
            ctx.characterCard = charDesc) := by
  obtain ⟨hreq, hval⟩ := buildSmartContext_eq settings context callLLMA sm hoff
  rw [hreq, hval, compressCharacterCard_eq,
    cardBudgetExceeded_eq settings context _ budget charDesc hen hb hd]
  by_cases hgt : estimatedTokens charDesc > budget
  · rw [if_pos hgt]
    refine ⟨⟨fun _ => hgt, fun _ => rfl⟩, ⟨nofun, fun h => absurd hgt h⟩,
      estimatedTokens_gt_iff _ _, fun _ => ⟨?_, ?_⟩, fun h => absurd hgt h⟩
    · intro hnone
      simp only [hnone]
    · intro card text hcard htext
      simp only [hcard, htext]
      exact ⟨_, rfl, rfl⟩
  · rw [if_neg hgt]
    refine ⟨⟨nofun, fun h => absurd h hgt⟩, ⟨fun _ => hgt, fun _ => rfl⟩,
      estimatedTokens_gt_iff _ _, fun h => absurd h hgt, fun _ text htext => ?_⟩
    simp only [hd, hen, htext, if_true]
    exact ⟨_, rfl, rfl⟩

/-- C14 (witness): profile `minimal` (budget 150) with card compression enabled: a sheet
of 2000 characters (estimate 500) is sent to the summarizer; a sheet of 400 characters
(estimate 100) passes through unchanged. -/
theorem characterCard_budget_witness :
    (buildSmartContextForLLMB (settingsWith "minimal" true)
        { characterDescription := some (sheetOf 2000), chat := [] }
        (fun _ => none) initialStateManager).requests
        = [characterCardMessages 150 (sheetOf 2000)] ∧
      ∃ ctx, (buildSmartContextForLLMB (settingsWith "minimal" true)
          { characterDescription := some (sheetOf 400), chat := [] }
          (fun _ => none) initialStateManager).value = some ctx ∧
        ctx.characterCard = sheetOf 400 := by
  have h1 := characterCard_budget (settingsWith "minimal" true)
    { characterDescription := some (sheetOf 2000), chat := [] } (fun _ => none)
    initialStateManager (sheetOf 2000) 150 rfl (by decide) rfl rfl
  have h2 := characterCard_budget (settingsWith "minimal" true)
    { characterDescription := some (sheetOf 400), chat := [] } (fun _ => none)
    initialStateManager (sheetOf 400) 150 rfl (by decide) rfl rfl
  have hsmall : ¬ estimatedTokens (sheetOf 400) > 150 := by
    rw [estimatedTokens_sheetOf]; decide
  have hbig : estimatedTokens (sheetOf 2000) > 150 := by
    rw [estimatedTokens_sheetOf]; decide
  exact ⟨h1.1.mpr hbig, h2.2.2.2.2 hsmall _ rfl⟩

/-- C15 (as stated, refuted): the recent messages are not the live turns of the ledger.
After twenty-one user turns and the compaction that follows, the ledger holds six live
turns; with a host chat of twenty-one messages the profile `aggressive` (keep 10) yields
ten recent messages, not `min(10, 6)`. -/
theorem recentMessages_counterexample :
    (compressMemory (fun _ => some "summary") "now" ledgerOf21).messageHistory.length = 6 ∧
      (buildSmartContextForLLMB (settingsWith "aggressive" true)
          { characterDescription := none, chat := chatOf 21 }
          (fun _ => some "card")
          (compressMemory (fun _ => some "summary") "now" ledgerOf21)).value.map
            (fun ctx => ctx.recentMessages.length)
        = some 10 :=
  ⟨rfl, rfl⟩

/-- C15 (amended): for every profile other than `off` with keep count `k` and every host
chat `context.chat` of `n` messages, the `recentMessages` of a context built are exactly
the last `min(k, n)` messages of that chat, in their order, each with the text and the
speaker name of its message and the role of its side; the ledger `messageHistory` is not
consulted: another ledger gives the same result.  A context is built whenever the
summarizer answers and the state renders. -/
theorem recentMessages_last (settings : ExtensionSettings) (context : HostContext)
    (callLLMA : List ChatMessage → Option String) (sm : StateManager) (keep : Nat)
    (hoff : activeProfile settings ≠ "off")
    (hk : (configFor (activeProfile settings)).keepMessages = some keep) :
    (∀ ctx, (buildSmartContextForLLMB settings context callLLMA sm).value = some ctx →
        ctx.recentMessages
          = (context.chat.drop (context.chat.length - keep)).map toRecentMessage ∧
        ctx.recentMessages.length = min keep context.chat.length ∧
        context.chat.drop (context.chat.length - keep) <:+ context.chat ∧
        ctx.recentMessages.map RecentMessage.content
          = (context.chat.drop (context.chat.length - keep)).map ChatEntry.mes ∧
        ctx.recentMessages.map RecentMessage.name
          = (context.chat.drop (context.chat.length - keep)).map ChatEntry.name ∧
        ctx.recentMessages.map RecentMessage.role
          = (context.chat.drop (context.chat.length - keep)).map
              (fun msg => if msg.is_user then "user" else "assistant")) ∧
      (∀ ledger : List String,
        buildSmartContextForLLMB settings context callLLMA { sm with messageHistory := ledger }
          = buildSmartContextForLLMB settings context callLLMA sm) ∧
      ((∀ req, (callLLMA req).isSome = true) →
        (∃ text, renderStateContext sm.state = .ok text) →
        ∃ ctx, (buildSmartContextForLLMB settings context callLLMA sm).value = some ctx) := by
  refine ⟨?_, fun _ => rfl, buildSmartContext_exists settings context callLLMA sm hoff⟩
  intro ctx hctx
  obtain ⟨_, _, _, h2⟩ := buildSmartContext_some settings context callLLMA sm ctx hctx
  have hrm : recentMessagesOf (configFor (activeProfile settings)) context.chat
      = (context.chat.drop (context.chat.length - keep)).map toRecentMessage := by
    simp only [recentMessagesOf, hk]
  rw [h2, hrm]
  refine ⟨rfl, ?_, List.drop_suffix _ _, ?_, ?_, ?_⟩
  · simp only [List.length_map, List.length_drop]
    omega
  · simp [List.map_map, Function.comp_def, toRecentMessage]
  · simp [List.map_map, Function.comp_def, toRecentMessage]
  · simp [List.map_map, Function.comp_def, toRecentMessage]

/-- C15 (witness): profile `aggressive` (keep 10) on a chat of twelve messages: ten
messages are kept, the last ones. -/
theorem recentMessages_last_witness :
    ∃ ctx, (buildSmartContextForLLMB (settingsWith "aggressive" true)
        { characterDescription := none, chat := chatOf 12 }
        (fun _ => some "card") managerWithTwoRecords).value = some ctx ∧
      ctx.recentMessages = ((chatOf 12).drop 2).map toRecentMessage := by
  have h := recentMessages_last (settingsWith "aggressive" true)
    { characterDescription := none, chat := chatOf 12 }
    (fun _ => some "card") managerWithTwoRecords 10 (by decide) rfl
  obtain ⟨ctx, hctx⟩ := h.2.2 (fun _ => rfl) ⟨_, rfl⟩
  exact ⟨ctx, hctx, (h.1 ctx hctx).1⟩

/-! ## Theorems: the context injection -/

theorem clothingStep_ok (groups : ClothingGroups) (item : String) (details : JVal)
    (h : details ≠ .null) :
    ∃ groups', clothingStep groups item details = .ok groups' ∧
      groups'.underwearVisible = groups.underwearVisible ++
        (if (isStr (getField details "state") "worn" && flagsUnderwear item details) = true
          then [item] else []) := by
  have hstep : clothingStep groups item details =
      (if isStr (getField details "state") "worn" then
        .ok { groups with
          worn := groups.worn ++ [wornDescription item details]
          underwearVisible :=
            if flagsUnderwear item details then groups.underwearVisible ++ [item]
            else groups.underwearVisible }
      else if isStr (getField details "state") "removed" then
        .ok { groups with removed := groups.removed ++ [item] }
      else if isStr (getField details "state") "loosened"
          || isStr (getField details "state") "shifted" then
        .ok { groups with
          loosened := groups.loosened
            ++ [item ++ " (" ++ renderValue (getField details "state") ++ ")"] }
      else if isStr (getField details "state") "torn" then
        .ok { groups with damaged := groups.damaged ++ [item ++ " (torn)"] }
      else .ok groups) := by
    cases details with
    | null => exact absurd rfl h
    | _ => rfl
  rw [hstep]
  by_cases hw : isStr (getField details "state") "worn" = true
  · by_cases hf : flagsUnderwear item details = true
    · exact ⟨_, by rw [if_pos hw], by simp [hw, hf]⟩
    · exact ⟨_, by rw [if_pos hw], by simp [hw, hf]⟩
  · rw [if_neg hw]
    have hnil : (if (isStr (getField details "state") "worn" && flagsUnderwear item details) = true
        then [item] else []) = ([] : List String) := by
      simp [hw]
    rw [hnil, List.append_nil]
    split
    · exact ⟨_, rfl, rfl⟩
    · split
      · exact ⟨_, rfl, rfl⟩
      · split
        · exact ⟨_, rfl, rfl⟩
        · exact ⟨_, rfl, rfl⟩

theorem clothingLoop_ok (entries : List (String × JVal)) :
    ∀ groups : ClothingGroups, (∀ e ∈ entries, e.2 ≠ .null) →
      ∃ groups', clothingLoop groups entries = .ok groups' ∧
        groups'.underwearVisible = groups.underwearVisible ++ flaggedItems entries := by
  induction entries with
  | nil => intro groups _; exact ⟨groups, rfl, by simp [flaggedItems]⟩
  | cons e entries ih =>
    intro groups h
    obtain ⟨item, details⟩ := e
    obtain ⟨g₁, hg₁, hu₁⟩ := clothingStep_ok groups item details (h (item, details) (by simp))
    obtain ⟨g₂, hg₂, hu₂⟩ := ih g₁ (fun e he => h e (by simp [he]))
    refine ⟨g₂, by simp only [clothingLoop, hg₁]; exact hg₂, ?_⟩
    rw [hu₂, hu₁, List.append_assoc]
    congr 1
    by_cases hc : (isStr (getField details "state") "worn" && flagsUnderwear item details) = true
    · simp [flaggedItems, List.filter_cons, hc]
    · simp [flaggedItems, List.filter_cons, hc]

theorem groupLine_eq_empty_iff (label : String) (items : List String) (hl : label ≠ "") :
    groupLine label items = "" ↔ items = [] := by
  unfold groupLine
  cases items with
  | nil => simp
  | cons x xs =>
    simp only [List.length_cons, gt_iff_lt, Nat.zero_lt_succ, if_true, reduceCtorEq, iff_false]
    intro h
    have hlen := congrArg String.length h
    simp only [String.length_append] at hlen
    have hlabel : label.length ≠ 0 := by
      intro h0
      apply hl
      have : label.data = [] := List.length_eq_zero.mp h0
      exact String.ext this
    have : ("" : String).length = 0 := rfl
    omega

/-- C16 (as stated, refuted): a bra that is removed and marked visible is an underwear item
with visibility `visible`, yet the summary has no flagged line: the item is listed under
"Removed" only.  And a bracelet that is worn and visible is flagged, though it is no
underwear: the test of line 440 looks for `bra` inside the name. -/
theorem clothingSummary_underwear_counterexample :
    getPath removedBraAppearance ["clothes_details", "bra", "visibility"]
        = some (.str "visible") ∧
      (clothingGroups removedBraAppearance).map ClothingGroups.underwearVisible = .ok [] ∧
      clothingSummary removedBraAppearance
        = .ok "CLOTHING STATE:\nRemoved: bra\nBody exposure: partial" ∧
      (clothingGroups braceletAppearance).map ClothingGroups.underwearVisible
        = .ok ["bracelet"] ∧
      clothingSummary braceletAppearance
        = .ok "CLOTHING STATE:\nWearing: bracelet\n⚠️ Underwear visible: bracelet\nBody exposure: none" :=
  ⟨rfl, rfl, rfl, rfl, rfl⟩

/-- A record that is `null` makes the loop of lines 431-450 throw. -/
theorem clothingLoop_null (entries : List (String × JVal)) :
    ∀ groups : ClothingGroups, (∃ e ∈ entries, e.2 = .null) →
      clothingLoop groups entries = .error Fault.typeError := by
  induction entries with
  | nil => intro groups h; obtain ⟨e, he, _⟩ := h; cases he
  | cons e entries ih =>
    intro groups h
    obtain ⟨item, details⟩ := e
    by_cases hd : details = .null
    · subst hd
      rfl
    · obtain ⟨g₁, hg₁, _⟩ := clothingStep_ok groups item details hd
      have hrest : ∃ e ∈ entries, e.2 = .null := by
        obtain ⟨e', he', hn⟩ := h
        rcases List.mem_cons.mp he' with rfl | he'
        · exact absurd hn hd
        · exact ⟨e', he', hn⟩
      simp only [clothingLoop, hg₁]
      exact ih g₁ hrest

/-- C16 (amended): for every `clothes_details` mapping without a `null` record the clothing
summary is rendered, and the flagged underwear line is part of it if and only if at least
one item whose state is `worn` and whose name contains `bra`, `panties` or `underwear` has
visibility `visible`; the line lists exactly those items, in the order of the mapping,
separated by commas.  Records of any other shape are covered: a record without a state is
in no group and is never flagged.  A record that is `null` makes the rendering throw. -/
theorem clothingSummary_underwear (appearance : JVal) :
    ((∀ e ∈ clothesEntries appearance, e.2 ≠ .null) →
      ∃ groups, clothingGroups appearance = .ok groups ∧
        groups.underwearVisible = flaggedItems (clothesEntries appearance) ∧
        clothingSummary appearance = .ok
          (if (clothesEntries appearance).length > 0 then
            clothingText groups (jsOr (getField appearance "body_exposure") (.str "none"))
          else "CLOTHING: Not tracked (no outfit specified yet)") ∧
        (underwearLine groups.underwearVisible = "" ↔
          flaggedItems (clothesEntries appearance) = []) ∧
        (flaggedItems (clothesEntries appearance) ≠ [] →
          underwearLine groups.underwearVisible
            = "⚠️ Underwear visible: "
              ++ ", ".intercalate (flaggedItems (clothesEntries appearance)) ++ "\n") ∧
        (∀ item, item ∈ flaggedItems (clothesEntries appearance) ↔
          ∃ details, (item, details) ∈ clothesEntries appearance ∧
            isStr (getField details "state") "worn" = true ∧
            (jsIncludes item "bra" || jsIncludes item "panties" || jsIncludes item "underwear")
              = true ∧
            isStr (getField details "visibility") "visible" = true)) ∧
      ((∃ e ∈ clothesEntries appearance, e.2 = .null) →
        clothingSummary appearance = .error Fault.typeError) := by
  constructor
  · intro hnull
    obtain ⟨groups, hg, hu⟩ := clothingLoop_ok (clothesEntries appearance)
      { worn := [], removed := [], loosened := [], damaged := [], underwearVisible := [] } hnull
    simp only [List.nil_append] at hu
    have hgroups : clothingGroups appearance = .ok groups := hg
    refine ⟨groups, hgroups, hu, ?_, ?_, ?_, ?_⟩
    · unfold clothingSummary
      have hlen : (ownKeys (jsOr (getField appearance "clothes_details") (.obj []))).length
          = (clothesEntries appearance).length := by
        simp [ownKeys, clothesEntries]
      rw [hlen, hgroups]
      split <;> rfl
    · rw [hu]
      exact groupLine_eq_empty_iff _ _ (by decide)
    · intro hne
      rw [hu]
      unfold underwearLine groupLine
      have hpos : (flaggedItems (clothesEntries appearance)).length > 0 :=
        List.length_pos.mpr hne
      rw [if_pos hpos]
    · intro item
      simp only [flaggedItems, flagsUnderwear, List.mem_map, List.mem_filter, Bool.and_eq_true,
        Prod.exists, and_assoc]
      constructor
      · rintro ⟨a, details, hmem, hw, hn, hv, rfl⟩
        exact ⟨details, hmem, hw, hn, hv⟩
      · rintro ⟨details, hmem, hw, hn, hv⟩
        exact ⟨item, details, hmem, hw, hn, hv, rfl⟩
  · intro hnull
    have hloop : clothingGroups appearance = .error Fault.typeError :=
      clothingLoop_null (clothesEntries appearance) _ hnull
    have hpos : (ownKeys (jsOr (getField appearance "clothes_details") (.obj []))).length > 0 := by
      obtain ⟨e, he, _⟩ := hnull
      have : (clothesEntries appearance).length > 0 := List.length_pos_of_mem he
      simpa [ownKeys, clothesEntries] using this
    unfold clothingSummary
    rw [if_pos hpos, hloop]
    rfl

/-- C16 (witness): blouse removed, bra worn and visible: the flagged line lists the bra.
With the records the example patches of the prompt leave (no state), the summary is
rendered and has no flagged line. -/
theorem clothingSummary_underwear_witness :
    (∃ groups, clothingGroups visibleBraAppearance = .ok groups ∧
      underwearLine groups.underwearVisible = "⚠️ Underwear visible: bra\n") ∧
    (∃ groups, clothingGroups statelessBraAppearance = .ok groups ∧
      underwearLine groups.underwearVisible = "" ∧
      clothingSummary statelessBraAppearance
        = .ok "CLOTHING STATE:\nBody exposure: partial") := by
  constructor
  · obtain ⟨groups, hg, hu, _, _, hline, _⟩ :=
      (clothingSummary_underwear visibleBraAppearance).1
        (by
          intro e he
          simp only [clothesEntries, visibleBraAppearance, getField, lookupField, jsOr, truthy,
            ownEntries, List.mem_cons, List.mem_singleton, List.not_mem_nil, or_false,
            if_true, if_false] at he
          rcases he with rfl | rfl <;> exact nofun)
    have hflag : flaggedItems (clothesEntries visibleBraAppearance) = ["bra"] := by decide
    refine ⟨groups, hg, ?_⟩
    rw [hline (by rw [hflag]; exact List.cons_ne_nil _ _), hflag]
    decide
  · obtain ⟨groups, hg, hu, hsum, hempty, _, _⟩ :=
      (clothingSummary_underwear statelessBraAppearance).1
        (by
          intro e he
          simp only [clothesEntries, statelessBraAppearance, getField, lookupField, jsOr,
            truthy, ownEntries, List.mem_cons, List.mem_singleton, List.not_mem_nil, or_false,
            if_true, if_false] at he
          rcases he with rfl | rfl <;> exact nofun)
    have hflag : flaggedItems (clothesEntries statelessBraAppearance) = [] := by decide
    exact ⟨groups, hg, hempty.mpr hflag, rfl⟩

theorem clothingSummary_ok (appearance : JVal)
    (h : ∀ e ∈ clothesEntries appearance, e.2 ≠ .null) :
    ∃ text, clothingSummary appearance = .ok text := by
  obtain ⟨groups, hg, _⟩ := clothingLoop_ok (clothesEntries appearance)
    { worn := [], removed := [], loosened := [], damaged := [], underwearVisible := [] } h
  have hgroups : clothingGroups appearance = .ok groups := hg
  unfold clothingSummary
  rw [hgroups]
  split
  · exact ⟨_, rfl⟩
  · exact ⟨_, rfl⟩

theorem modeInstructionBlock_spec (conversationMode : JVal)
    (hkey : tableLookup (jsToString conversationMode) CONVERSATION_MODES = none →
      inheritedKey (jsToString conversationMode) = false) :
    ∃ block, modeInstructionBlock conversationMode = .ok block ∧
      (∀ entry, tableLookup (jsToString conversationMode) CONVERSATION_MODES = some entry →
        entry.restricts ≠ [] →
        block = "\n[RESPONSE INSTRUCTIONS]\n" ++ entry.instruction ++ "\n") ∧
      (∀ entry, tableLookup (jsToString conversationMode) CONVERSATION_MODES = some entry →
        entry.restricts = [] → block = "") ∧
      (tableLookup (jsToString conversationMode) CONVERSATION_MODES = none → block = "") := by
  unfold modeInstructionBlock
  cases hl : tableLookup (jsToString conversationMode) CONVERSATION_MODES with
  | none =>
    simp only [hkey hl, Bool.false_eq_true, if_false]
    exact ⟨"", rfl, nofun, nofun, fun _ => rfl⟩
  | some entry =>
    simp only
    cases hr : entry.restricts with
    | nil =>
      simp only [List.length_nil, gt_iff_lt, Nat.lt_irrefl, if_false]
      refine ⟨"", rfl, ?_, fun _ _ _ => rfl, nofun⟩
      intro e he hne
      injection he with he
      subst he
      exact absurd hr hne
    | cons r rs =>
      simp only [List.length_cons, gt_iff_lt, Nat.zero_lt_succ, if_true]
      refine ⟨_, rfl, ?_, ?_, nofun⟩
      · intro e he _
        injection he with he
        subst he
        rfl
      · intro e he hnil
        injection he with he
        subst he
        rw [hr] at hnil
        cases hnil

/-- C17: for every state from which the context injection is rendered (the state is not
`null`, no garment record is `null`, and the active mode is not a name inherited from
`Object.prototype`), the prompt is the scene context, the mode block, the pacing line, the
trailer, the point-of-view line and the footer, in this order, and the mode block is
`[RESPONSE INSTRUCTIONS]` followed by the instruction string of the active mode, verbatim,
if and only if the active mode is in the mode table with a non-empty `restricts` list;
otherwise the block is empty.  In particular mode `text_message` yields its instruction
text and mode `in_person` yields no block. -/
theorem modeBlock_iff (state analysis : JVal) (characterName : String)
    (hstate : state ≠ .null)
    (hclothes : ∀ e ∈ clothesEntries (jsOr (getField state "appearance") (.obj [])),
      e.2 ≠ .null)
    (hkey : tableLookup (jsToString (activeConversationMode state)) CONVERSATION_MODES = none →
      inheritedKey (jsToString (activeConversationMode state)) = false) :
    ∃ parts, renderPromptParts state analysis characterName = .ok parts ∧
      parts.text = parts.sceneContext ++ parts.modeBlock ++ parts.pacingLine ++ parts.trailer
        ++ parts.povLine ++ parts.footer ∧
      (∀ entry,
        tableLookup (jsToString (activeConversationMode state)) CONVERSATION_MODES = some entry →
        entry.restricts ≠ [] →
        parts.modeBlock = "\n[RESPONSE INSTRUCTIONS]\n" ++ entry.instruction ++ "\n") ∧
      (parts.modeBlock ≠ "" ↔
        ∃ entry, tableLookup (jsToString (activeConversationMode state)) CONVERSATION_MODES
            = some entry ∧ entry.restricts ≠ []) ∧
      (activeConversationMode state = .str "text_message" →
        parts.modeBlock = "\n[RESPONSE INSTRUCTIONS]\nCRITICAL: Respond ONLY with the text message content. NO actions, narration, or descriptions. Just the message text.\n") ∧
      (activeConversationMode state = .str "in_person" → parts.modeBlock = "") := by
  obtain ⟨clothes, hclothes'⟩ := clothingSummary_ok _ hclothes
  obtain ⟨block, hblock, hb1, hb2, hb3⟩ := modeInstructionBlock_spec _ hkey
  have hrender : ∃ parts, renderPromptParts state analysis characterName = .ok parts ∧
      parts.modeBlock = block := by
    unfold renderPromptParts
    cases state with
    | null => exact absurd rfl hstate
    | _ =>
      simp only [hclothes']
      unfold activeConversationMode at hblock
      simp only [hblock]
      exact ⟨_, rfl, rfl⟩
  obtain ⟨parts, hparts, hmb⟩ := hrender
  refine ⟨parts, hparts, rfl, ?_, ?_, ?_, ?_⟩
  · intro entry he hne
    rw [hmb]
    exact hb1 entry he hne
  · rw [hmb]
    constructor
    · intro hne
      cases hl : tableLookup (jsToString (activeConversationMode state)) CONVERSATION_MODES with
      | none => exact absurd (hb3 hl) hne
      | some entry =>
        refine ⟨entry, rfl, ?_⟩
        intro hnil
        exact hne (hb2 entry hl hnil)
    · rintro ⟨entry, he, hne⟩
      rw [hb1 entry he hne]
      intro h
      have hlen := congrArg String.length h
      simp only [String.length_append] at hlen
      have h1 : ("\n[RESPONSE INSTRUCTIONS]\n" : String).length = 25 := by decide
      have h2 : ("" : String).length = 0 := rfl
      omega
  · intro hmode
    rw [hmb]
    rw [hmode] at hb1
    exact hb1 _ rfl (by decide)
  · intro hmode
    rw [hmb]
    rw [hmode] at hb2
    exact hb2 _ rfl rfl

/-- C17 (witness): the default state switched to `text_message` renders the instruction
of that mode; the default state (mode `in_person`) renders no block. -/
theorem modeBlock_iff_witness :
    (∃ parts, renderPromptParts (stateWithMode "text_message") fallbackAnalysis "Mira"
        = .ok parts ∧
      parts.modeBlock = "\n[RESPONSE INSTRUCTIONS]\nCRITICAL: Respond ONLY with the text message content. NO actions, narration, or descriptions. Just the message text.\n") ∧
      (∃ parts, renderPromptParts getDefaultState fallbackAnalysis "Mira" = .ok parts ∧
        parts.modeBlock = "") := by
  obtain ⟨p₁, h₁, _, _, _, ht, _⟩ := modeBlock_iff (stateWithMode "text_message")
    fallbackAnalysis "Mira" (by intro h; cases h) (by intro e he; cases he) (by intro _; decide)
  obtain ⟨p₂, h₂, _, _, _, _, hi⟩ := modeBlock_iff getDefaultState
    fallbackAnalysis "Mira" (by intro h; cases h) (by intro e he; cases he) (by intro _; decide)
  exact ⟨⟨p₁, h₁, ht rfl⟩, ⟨p₂, h₂, hi rfl⟩⟩

/-! ## Theorems: `processWithLLMA` -/

theorem compressMemory_state (callLLMA : List ChatMessage → Option String) (now : String)
    (sm : StateManager) : (compressMemory callLLMA now sm).state = sm.state := by
  unfold compressMemory
  simp only
  split
  · rfl
  · split <;> rfl

theorem compressMemory_getLast (callLLMA : List ChatMessage → Option String) (now : String)
    (sm : StateManager) :
    (compressMemory callLLMA now sm).messageHistory.getLast? = sm.messageHistory.getLast? := by
  unfold compressMemory
  simp only
  split
  · rfl
  · split
    · simp only
      cases hh : sm.messageHistory.getLast? with
      | none =>
        have hnil : sm.messageHistory = [] := List.getLast?_eq_none_iff.mp hh
        simp [hnil]
      | some t =>
        obtain ⟨ys, hys⟩ := (List.getLast?_eq_some_iff).mp hh
        have hle : sm.messageHistory.length - 6 ≤ ys.length := by
          rw [hys]; simp only [List.length_append, List.length_singleton]; omega
        rw [hys] at hle ⊢
        rw [List.drop_append_of_le_length hle, List.getLast?_append]
        rfl
    · rfl

theorem recordUserTurn_state (settings : Settings) (callLLMA : List ChatMessage → Option String)
    (now userMessage : String) (sm : StateManager) :
    (recordUserTurn settings callLLMA now userMessage sm).state = sm.state := by
  unfold recordUserTurn
  simp only
  split
  · rw [compressMemory_state]; rfl
  · rfl

theorem recordUserTurn_getLast (settings : Settings)
    (callLLMA : List ChatMessage → Option String) (now userMessage : String)
    (sm : StateManager) :
    (recordUserTurn settings callLLMA now userMessage sm).messageHistory.getLast?
      = some ("User: " ++ userMessage) := by
  unfold recordUserTurn
  simp only
  split
  · rw [compressMemory_getLast]
    simp [pushTurn]
  · simp [pushTurn]

theorem parseAnalysis_unparseable (jsonParse : String → Option JVal) (reply : String)
    (hbad : extractJson reply = none ∨
      ∃ text, extractJson reply = some text ∧ jsonParse text = none) :
    parseAnalysis jsonParse reply = fallbackAnalysis := by
  unfold parseAnalysis
  rcases hbad with h | ⟨text, h1, h2⟩
  · rw [h]
  · rw [h1]
    simp only [h2]

/-- C18: for every classifier reply that is unparseable (no brace-delimited part, or a
brace-delimited part that `JSON.parse` rejects), `processWithLLMA` substitutes the
fallback analysis with the empty patch and the summary "Continuing conversation".  The
turn then runs as a turn with an empty patch: the conversation state after the turn is
the state before it, the user turn is appended and is the last turn of the ledger, the
count of turns represented grows by one, and the call ends without error with the
fallback analysis as result and the prompt rendered from it, unless the rendering of the
unchanged state itself throws.  The parse failure is never reported as an error. -/
theorem processWithLLMA_unparseable (settings : ExtensionSettings)
    (jsonParse : String → Option JVal) (callLLMA : List ChatMessage → Option String)
    (input : TurnInput) (sm : StateManager) (reply : String)
    (hen : settings.enabled = true) (hreply : input.llmAResponse = some reply)
    (hbad : extractJson reply = none ∨
      ∃ text, extractJson reply = some text ∧ jsonParse text = none) :
    parseAnalysis jsonParse reply = fallbackAnalysis ∧
      getField fallbackAnalysis "state_updates" = some (.obj []) ∧
      getField fallbackAnalysis "context_summary" = some (.str "Continuing conversation") ∧
      (processWithLLMA settings jsonParse callLLMA input sm).manager
        = recordUserTurn settings.toSettings callLLMA input.now input.userMessage sm ∧
      (processWithLLMA settings jsonParse callLLMA input sm).manager.state = sm.state ∧
      (processWithLLMA settings jsonParse callLLMA input sm).manager.messageHistory.getLast?
        = some ("User: " ++ input.userMessage) ∧
      representedTurns (processWithLLMA settings jsonParse callLLMA input sm).manager
        = representedTurns sm + 1 ∧
      (∀ parts,
        renderPromptParts sm.state fallbackAnalysis (characterNameOf input.name2) = .ok parts →
        (processWithLLMA settings jsonParse callLLMA input sm).error = none ∧
        (processWithLLMA settings jsonParse callLLMA input sm).result = some fallbackAnalysis ∧
        (processWithLLMA settings jsonParse callLLMA input sm).extensionPrompt
          = some parts.text) ∧
      (∀ f,
        renderPromptParts sm.state fallbackAnalysis (characterNameOf input.name2) = .error f →
        (processWithLLMA settings jsonParse callLLMA input sm).error = some (.fault f)) := by
  have hparse := parseAnalysis_unparseable jsonParse reply hbad
  have hst : (recordUserTurn settings.toSettings callLLMA input.now input.userMessage sm).state
      = sm.state := recordUserTurn_state _ _ _ _ _
  have hout : processWithLLMA settings jsonParse callLLMA input sm =
      match renderPromptParts sm.state fallbackAnalysis (characterNameOf input.name2) with
      | .error f =>
        { manager := recordUserTurn settings.toSettings callLLMA input.now input.userMessage sm,
          result := none, extensionPrompt := none, error := some (.fault f) }
      | .ok parts =>
        { manager := recordUserTurn settings.toSettings callLLMA input.now input.userMessage sm,
          result := some fallbackAnalysis, extensionPrompt := some parts.text,
          error := none } := by
    unfold processWithLLMA
    simp only [hen, Bool.not_true, Bool.false_eq_true, if_false, hreply, hparse]
    have hsm : applyStateUpdatesOn sm
        (ownEntries (jsOr (getField fallbackAnalysis "state_updates") (.obj []))) = (sm, none) := rfl
    simp only [fallbackAnalysis] at hsm ⊢
    rw [hsm]
    simp only [hst]
  have hmgr : (processWithLLMA settings jsonParse callLLMA input sm).manager
      = recordUserTurn settings.toSettings callLLMA input.now input.userMessage sm := by
    rw [hout]
    split <;> rfl
  refine ⟨hparse, rfl, rfl, hmgr, ?_, ?_, ?_, ?_, ?_⟩
  · rw [hmgr, hst]
  · rw [hmgr]
    exact recordUserTurn_getLast _ _ _ _ _
  · rw [hmgr]
    have h := representedTurns_runEvent sm
      (.userTurn settings.toSettings callLLMA input.now input.userMessage)
    simpa [runEvent, LedgerEvent.appended] using h
  · intro parts hparts
    rw [hout, hparts]
    exact ⟨rfl, rfl, rfl⟩
  · intro f hf
    rw [hout, hf]

/-- C18 (witness): a reply without braces on the default manager: the state is unchanged,
the user turn is the last turn, and the call ends without error with the fallback
analysis. -/
theorem processWithLLMA_unparseable_witness :
    (processWithLLMA (settingsWith "auto" true) (fun _ => none) (fun _ => none)
        { userMessage := "hello", name2 := some "Mira",
          llmAResponse := some "I cannot answer that.", now := "t" }
        initialStateManager).manager.state = getDefaultState ∧
      (processWithLLMA (settingsWith "auto" true) (fun _ => none) (fun _ => none)
        { userMessage := "hello", name2 := some "Mira",
          llmAResponse := some "I cannot answer that.", now := "t" }
        initialStateManager).manager.messageHistory = ["User: hello"] ∧
      (processWithLLMA (settingsWith "auto" true) (fun _ => none) (fun _ => none)
        { userMessage := "hello", name2 := some "Mira",
          llmAResponse := some "I cannot answer that.", now := "t" }
        initialStateManager).error = none := by
  have h := processWithLLMA_unparseable (settingsWith "auto" true) (fun _ => none)
    (fun _ => none)
    { userMessage := "hello", name2 := some "Mira",
      llmAResponse := some "I cannot answer that.", now := "t" }
    initialStateManager "I cannot answer that." rfl rfl (Or.inl (by decide))
  obtain ⟨parts, hparts⟩ : ∃ parts,
      renderPromptParts getDefaultState fallbackAnalysis "Mira" = .ok parts := ⟨_, rfl⟩
  exact ⟨h.2.2.2.2.1, by rw [h.2.2.2.1]; rfl, (h.2.2.2.2.2.2.2.1 parts hparts).1⟩

/-- C19: when the classifier call of `processWithLLMA` throws, the turn is reported as
failed (the result is `null` and the error is shown) and nothing is committed: no prompt
is injected and the manager is the one before the turn, with the same conversation state,
ledger and compaction log. -/
theorem processWithLLMA_transport_failure (settings : ExtensionSettings)
    (jsonParse : String → Option JVal) (callLLMA : List ChatMessage → Option String)
    (input : TurnInput) (sm : StateManager)
    (hen : settings.enabled = true) (hfail : input.llmAResponse = none) :
    (processWithLLMA settings jsonParse callLLMA input sm).result = none ∧
      (processWithLLMA settings jsonParse callLLMA input sm).error = some .transport ∧
      (processWithLLMA settings jsonParse callLLMA input sm).extensionPrompt = none ∧
      (processWithLLMA settings jsonParse callLLMA input sm).manager = sm ∧
      (processWithLLMA settings jsonParse callLLMA input sm).manager.state = sm.state ∧
      (processWithLLMA settings jsonParse callLLMA input sm).manager.messageHistory
        = sm.messageHistory ∧
      (processWithLLMA settings jsonParse callLLMA input sm).manager.compressedMemories
        = sm.compressedMemories := by
  have hout : processWithLLMA settings jsonParse callLLMA input sm =
      { manager := sm, result := none, extensionPrompt := none, error := some .transport } := by
    unfold processWithLLMA
    simp only [hen, Bool.not_true, Bool.false_eq_true, if_false, hfail]
  rw [hout]
  exact ⟨rfl, rfl, rfl, rfl, rfl, rfl, rfl⟩

/-- C19 (witness): a failed classifier call on the manager with two compaction records. -/
theorem processWithLLMA_transport_failure_witness :
    (processWithLLMA (settingsWith "auto" true) (fun _ => none) (fun _ => some "s")
        { userMessage := "hello", name2 := none, llmAResponse := none, now := "t" }
        managerWithTwoRecords).manager.messageHistory = ["User: hi"] ∧
      (processWithLLMA (settingsWith "auto" true) (fun _ => none) (fun _ => some "s")
        { userMessage := "hello", name2 := none, llmAResponse := none, now := "t" }
        managerWithTwoRecords).result = none :=
  ⟨(processWithLLMA_transport_failure (settingsWith "auto" true) (fun _ => none)
      (fun _ => some "s")
      { userMessage := "hello", name2 := none, llmAResponse := none, now := "t" }
      managerWithTwoRecords rfl rfl).2.2.2.2.2.1,
    (processWithLLMA_transport_failure (settingsWith "auto" true) (fun _ => none)
      (fun _ => some "s")
      { userMessage := "hello", name2 := none, llmAResponse := none, now := "t" }
      managerWithTwoRecords rfl rfl).1⟩

/-! ## Lemmas on key order -/

theorem fieldKeys_putField (k : String) (v : JVal) (fs : List (String × JVal)) :
    fieldKeys (putField k v fs) = if k ∈ fieldKeys fs then fieldKeys fs else fieldKeys fs ++ [k] := by
  induction fs with
  | nil => simp [putField, fieldKeys]
  | cons e fs ih =>
    obtain ⟨k', x⟩ := e
    by_cases h : k' = k
    · subst h
      simp [putField, fieldKeys]
    · have hne : ¬ k = k' := fun h' => h h'.symm
      simp only [putField, h, if_false, fieldKeys, List.map_cons, List.mem_cons, hne, false_or,
        List.cons_append] at ih ⊢
      rw [ih]
      split <;> rfl

theorem fieldKeys_foldl_putField (g : String → JVal) (ks : List String) :
    ∀ acc : List (String × JVal),
      fieldKeys (ks.foldl (fun a k => putField k (g k) a) acc) = appendNew (fieldKeys acc) ks := by
  induction ks with
  | nil => intro acc; rfl
  | cons k ks ih =>
    intro acc
    rw [List.foldl_cons, ih, fieldKeys_putField]
    rfl

theorem lookupField_foldl_putField (g : String → JVal) (f : String) (ks : List String) :
    ∀ acc : List (String × JVal),
      lookupField f (ks.foldl (fun a k => putField k (g k) a) acc)
        = if f ∈ ks then some (g f) else lookupField f acc := by
  induction ks with
  | nil => intro acc; simp
  | cons k ks ih =>
    intro acc
    rw [List.foldl_cons, ih]
    by_cases hf : f ∈ ks
    · simp [hf]
    · by_cases hfk : f = k
      · subst hfk
        simp [hf, lookupField_putField_same]
      · simp [hf, hfk, lookupField_putField_other hfk]

theorem appendNew_of_subset (acc : List String) (xs : List String) (h : ∀ x ∈ xs, x ∈ acc) :
    appendNew acc xs = acc := by
  induction xs with
  | nil => rfl
  | cons x xs ih =>
    unfold appendNew
    rw [List.foldl_cons, if_pos (h x (by simp))]
    exact ih (fun y hy => h y (by simp [hy]))

theorem appendNew_of_nodup_append (r : List String) :
    ∀ acc : List String, (acc ++ r).Nodup → appendNew acc r = acc ++ r := by
  induction r with
  | nil => intro acc _; simp [appendNew]
  | cons x r ih =>
    intro acc h
    have hx : x ∉ acc := by
      intro hmem
      have := List.nodup_append.mp h
      exact this.2.2 hmem (by simp)
    unfold appendNew
    rw [List.foldl_cons, if_neg hx]
    have h' : ((acc ++ [x]) ++ r).Nodup := by simpa using h
    have := ih (acc ++ [x]) h'
    unfold appendNew at this
    rw [this]
    simp

theorem appendNew_append (acc xs ys : List String) :
    appendNew acc (xs ++ ys) = appendNew (appendNew acc xs) ys := by
  unfold appendNew
  rw [List.foldl_append]

/-- Assigning again the keys of a list with unique keys that starts with `acc` gives that
list. -/
theorem appendNew_self (acc r : List String) (h : (acc ++ r).Nodup) :
    appendNew acc (acc ++ r) = acc ++ r := by
  rw [appendNew_append, appendNew_of_subset acc acc (fun _ hx => hx)]
  exact appendNew_of_nodup_append r acc h

/-- The key order after assigning keys extends the former order, has the former keys and
the assigned ones, and has every key once when the former order had. -/
theorem appendNew_spec (ks : List String) :
    ∀ acc : List String, ∃ r, appendNew acc ks = acc ++ r ∧
      (acc.Nodup → (acc ++ r).Nodup) ∧ (∀ k, k ∈ acc ++ r ↔ k ∈ acc ∨ k ∈ ks) := by
  induction ks with
  | nil => intro acc; exact ⟨[], by simp [appendNew], by simp, by simp⟩
  | cons k ks ih =>
    intro acc
    by_cases hk : k ∈ acc
    · obtain ⟨r, hr, hnd, hmem⟩ := ih acc
      refine ⟨r, ?_, hnd, ?_⟩
      · unfold appendNew at hr ⊢
        rw [List.foldl_cons, if_pos hk]
        exact hr
      · intro k'
        rw [hmem k']
        simp only [List.mem_cons]
        constructor
        · rintro (h | h)
          · exact Or.inl h
          · exact Or.inr (Or.inr h)
        · rintro (h | h | h)
          · exact Or.inl h
          · subst h; exact Or.inl hk
          · exact Or.inr h
    · obtain ⟨r, hr, hnd, hmem⟩ := ih (acc ++ [k])
      refine ⟨k :: r, ?_, ?_, ?_⟩
      · unfold appendNew at hr ⊢
        rw [List.foldl_cons, if_neg hk, hr]
        simp
      · intro hacc
        have h1 : (acc ++ [k]).Nodup := by
          rw [List.nodup_append]
          refine ⟨hacc, by simp, ?_⟩
          intro a ha hb
          simp only [List.mem_singleton] at hb
          subst hb
          exact hk ha
        have := hnd h1
        simpa using this
      · intro k'
        have := hmem k'
        simp only [List.mem_append, List.mem_singleton, List.mem_cons] at this ⊢
        tauto

/-- Two property lists with the same keys in the same order, each key once, and the same
value under every key are equal. -/
theorem fields_ext (fs : List (String × JVal)) :
    ∀ gs : List (String × JVal), fieldKeys fs = fieldKeys gs → (fieldKeys fs).Nodup →
      (∀ k, lookupField k fs = lookupField k gs) → fs = gs := by
  induction fs with
  | nil =>
    intro gs hk _ _
    cases gs with
    | nil => rfl
    | cons g gs => simp [fieldKeys] at hk
  | cons e fs ih =>
    intro gs hk hnd hl
    cases gs with
    | nil => simp [fieldKeys] at hk
    | cons g gs =>
      obtain ⟨k, x⟩ := e
      obtain ⟨k', y⟩ := g
      simp only [fieldKeys, List.map_cons, List.cons.injEq] at hk
      obtain ⟨hkk, hrest⟩ := hk
      subst hkk
      have hxy : x = y := by
        have := hl k
        simpa [lookupField] using this
      subst hxy
      simp only [fieldKeys, List.map_cons, List.nodup_cons] at hnd
      congr 1
      apply ih gs hrest hnd.2
      intro k'
      by_cases hk' : k = k'
      · subst hk'
        have h1 : lookupField k fs = none := by
          cases hlk : lookupField k fs with
          | none => rfl
          | some v =>
            have : (lookupField k fs).isSome = true := by rw [hlk]; rfl
            exact absurd ((lookupField_isSome_iff k fs).mp this) hnd.1
        have h2 : lookupField k gs = none := by
          cases hlk : lookupField k gs with
          | none => rfl
          | some v =>
            have : (lookupField k gs).isSome = true := by rw [hlk]; rfl
            have hmem := (lookupField_isSome_iff k gs).mp this
            rw [← hrest] at hmem
            exact absurd hmem hnd.1
        rw [h1, h2]
      · have := hl k'
        simpa [lookupField, hk'] using this

/-! ## Lemmas on the spread and the merge loop as assignments in a row -/

theorem spreadInto_eq_foldl (acc : List (String × JVal)) (t : JVal) :
    spreadInto acc (some t)
      = (ownKeys t).foldl (fun a k => putField k ((getOwn t k).getD .null) a) acc := by
  unfold spreadInto
  apply List.foldl_ext
  intro a k hk
  have := getOwn_isSome_of_mem hk
  cases hg : getOwn t k with
  | none => rw [hg] at this; cases this
  | some x => rfl

theorem fieldKeys_spreadInto (acc : List (String × JVal)) (t : JVal) :
    fieldKeys (spreadInto acc (some t)) = appendNew (fieldKeys acc) (ownKeys t) := by
  rw [spreadInto_eq_foldl]
  exact fieldKeys_foldl_putField (fun k => (getOwn t k).getD .null) (ownKeys t) acc

/-- Spreading an object with unique keys over a list whose keys open that object's key
order gives the object back. -/
theorem spreadInto_refill (acc B : List (String × JVal)) (hnd : (fieldKeys B).Nodup)
    (hpre : ∃ r, fieldKeys B = fieldKeys acc ++ r) :
    spreadInto acc (some (.obj B)) = B := by
  obtain ⟨r, hr⟩ := hpre
  have hkeys : fieldKeys (spreadInto acc (some (.obj B))) = fieldKeys B := by
    rw [fieldKeys_spreadInto]
    show appendNew (fieldKeys acc) (fieldKeys B) = fieldKeys B
    rw [hr]
    apply appendNew_self
    rw [← hr]
    exact hnd
  apply fields_ext _ _ hkeys (by rw [hkeys]; exact hnd)
  intro f
  rw [lookupField_spreadInto]
  show (match getOwn (.obj B) f with
      | some x => some x
      | none => lookupField f acc) = lookupField f B
  cases hg : getOwn (.obj B) f with
  | some x => exact hg.symm
  | none =>
    have hf : f ∉ fieldKeys B := (getOwn_eq_none_iff (.obj B) f).mp hg
    have hfa : f ∉ fieldKeys acc := fun h => hf (by rw [hr]; simp [h])
    have h1 : lookupField f B = none := hg
    rw [h1]
    cases hl : lookupField f acc with
    | none => rfl
    | some v =>
      have : (lookupField f acc).isSome = true := by rw [hl]; rfl
      exact absurd ((lookupField_isSome_iff f acc).mp this) hfa

/-- The object built by `{ ...a, ...b }` has every key once, and spreading `a` and then
the object itself gives it back. -/
theorem spread_pair_refill (a : Option JVal) (sf : List (String × JVal)) :
    spreadInto (spreadInto [] a)
        (some (.obj (spreadInto (spreadInto [] a) (some (.obj sf)))))
      = spreadInto (spreadInto [] a) (some (.obj sf)) := by
  have hA : (fieldKeys (spreadInto [] a)).Nodup := by
    cases a with
    | none => simp [spreadInto, fieldKeys]
    | some t =>
      rw [fieldKeys_spreadInto]
      obtain ⟨r, hr, hnd, _⟩ := appendNew_spec (ownKeys t) (fieldKeys [])
      rw [hr]
      exact hnd (by simp [fieldKeys])
  obtain ⟨r, hr, hnd, _⟩ := appendNew_spec (ownKeys (.obj sf)) (fieldKeys (spreadInto [] a))
  apply spreadInto_refill
  · rw [fieldKeys_spreadInto, hr]
    exact hnd hA
  · exact ⟨r, by rw [fieldKeys_spreadInto, hr]⟩

/-- Spreading an object with unique keys twice into a fresh object gives it back. -/
theorem spread_self_refill (vf : List (String × JVal)) (hnd : (fieldKeys vf).Nodup) :
    spreadInto (spreadInto [] (some (.obj vf))) (some (.obj vf)) = vf := by
  have h0 : spreadInto [] (some (.obj vf)) = vf :=
    spreadInto_refill [] vf hnd ⟨fieldKeys vf, by simp [fieldKeys]⟩
  rw [h0]
  exact spreadInto_refill vf vf hnd ⟨[], by simp⟩

/-- The loop of `mergeState` as assignments in a row: it completes when every key visited
is an own key of the saved state and `__proto__` is visited only as an own key of the
object under construction. -/
theorem mergeLoop_closed (savedState defaultState : JVal) (keys : List String) :
    ∀ mf : List (String × JVal),
      (∀ k ∈ keys, (getOwn savedState k).isSome = true) →
      (∀ k ∈ keys, k = "__proto__" → (lookupField k mf).isSome = true) →
      mergeLoop savedState defaultState (.obj mf) keys
        = .ok (.obj (keys.foldl
            (fun a k => putField k (mergedValue savedState defaultState k) a) mf)) := by
  induction keys with
  | nil => intro mf _ _; rfl
  | cons key keys ih =>
    intro mf hsome hproto
    have hstep : mergeStep savedState defaultState (.obj mf) key
        = .ok (.obj (putField key (mergedValue savedState defaultState key) mf)) := by
      rw [mergeStep_eq _ _ _ _ (hsome key (by simp))]
      exact assignProp_obj_ok _ (hproto key (by simp))
    simp only [mergeLoop, hstep, List.foldl_cons]
    exact ih _ (fun k hk => hsome k (by simp [hk]))
      (fun k hk hp => putField_keeps _ (hproto k (by simp [hk]) hp))

/-- An entry found by a lookup is an entry of the list. -/
theorem mem_of_lookupField {k : String} {v : JVal} {fs : List (String × JVal)}
    (h : lookupField k fs = some v) : (k, v) ∈ fs := by
  induction fs with
  | nil => simp [lookupField] at h
  | cons e fs ih =>
    obtain ⟨k', x⟩ := e
    by_cases hk : k' = k
    · subst hk
      simp only [lookupField, if_true, Option.some.injEq] at h
      subst h
      simp
    · simp only [lookupField, hk, if_false] at h
      exact List.mem_cons_of_mem _ (ih h)

theorem wellKeyed_top {df : List (String × JVal)} (h : wellKeyed df = true) :
    (fieldKeys df).Nodup := by
  unfold wellKeyed uniqueKeys at h
  simp only [Bool.and_eq_true, decide_eq_true_eq] at h
  exact h.1

theorem wellKeyed_domain {df : List (String × JVal)} (h : wellKeyed df = true)
    {k : String} {vf : List (String × JVal)} (hk : lookupField k df = some (.obj vf)) :
    (fieldKeys vf).Nodup := by
  unfold wellKeyed at h
  simp only [Bool.and_eq_true, List.all_eq_true] at h
  have := h.2 _ (mem_of_lookupField hk)
  simpa [uniqueKeys] using this

/-- The result of `mergeState` on an object default, as assignments in a row. -/
theorem mergeState_closed (s : JVal) (df : List (String × JVal))
    (hproto : "__proto__" ∉ ownKeys s) :
    mergeState s (.obj df)
      = .ok (.obj ((ownKeys s).foldl (fun a k => putField k (mergedValue s (.obj df) k) a) df)) :=
  mergeLoop_closed s (.obj df) (ownKeys s) df (fun _ hk => getOwn_isSome_of_mem hk)
    (fun _ hk hp => absurd (hp ▸ hk) hproto)

/-- A merged value that is an object is rebuilt as itself by a second merge. -/
theorem mergedValue_again (s : JVal) (df vf : List (String × JVal)) (k : String)
    (h : mergedValue s (.obj df) k = .obj vf) :
    spreadInto (spreadInto [] (getOwn (.obj df) k)) (some (.obj vf)) = vf := by
  unfold mergedValue at h
  cases hg : getOwn s k with
  | none => rw [hg] at h; cases h
  | some x =>
    rw [hg] at h
    cases x with
    | obj sf =>
      simp only [JVal.obj.injEq] at h
      rw [← h]
      exact spread_pair_refill _ _
    | _ => cases h

/-- Merging the result of a merge with the same default gives that result. -/
theorem mergeState_again (s : JVal) (df : List (String × JVal))
    (hproto : "__proto__" ∉ ownKeys s) (hwell : wellKeyed df = true) :
    mergeState
        (.obj ((ownKeys s).foldl (fun a k => putField k (mergedValue s (.obj df) k) a) df))
        (.obj df)
      = .ok (.obj ((ownKeys s).foldl
          (fun a k => putField k (mergedValue s (.obj df) k) a) df)) := by
  generalize hmf : (ownKeys s).foldl (fun a k => putField k (mergedValue s (.obj df) k) a) df = mf
  have hkeys : fieldKeys mf = appendNew (fieldKeys df) (ownKeys s) := by
    rw [← hmf]
    exact fieldKeys_foldl_putField _ _ _
  have hlook : ∀ k, lookupField k mf
      = if k ∈ ownKeys s then some (mergedValue s (.obj df) k) else lookupField k df := by
    intro k
    rw [← hmf]
    exact lookupField_foldl_putField _ _ _ _
  obtain ⟨r, hr, hnd, hmem⟩ := appendNew_spec (ownKeys s) (fieldKeys df)
  have hnd' : (fieldKeys mf).Nodup := by
    rw [hkeys, hr]
    exact hnd (wellKeyed_top hwell)
  have hmem' : ∀ k, k ∈ fieldKeys mf ↔ k ∈ fieldKeys df ∨ k ∈ ownKeys s := by
    intro k
    rw [hkeys, hr]
    exact hmem k
  have hloop := mergeLoop_closed (.obj mf) (.obj df) (fieldKeys mf) df
    (fun k hk => getOwn_isSome_of_mem (t := .obj mf) hk)
    (fun k hk hp => by
      rcases (hmem' k).mp hk with h | h
      · exact (lookupField_isSome_iff k df).mpr h
      · exact absurd (hp ▸ h) hproto)
  show mergeLoop (.obj mf) (.obj df) (.obj df) (fieldKeys mf) = _
  rw [hloop]
  have hkeys2 : fieldKeys ((fieldKeys mf).foldl
      (fun a k => putField k (mergedValue (.obj mf) (.obj df) k) a) df) = fieldKeys mf := by
    rw [fieldKeys_foldl_putField]
    rw [hkeys, hr]
    apply appendNew_self
    rw [← hr, ← hkeys]
    exact hnd'
  have hfields : (fieldKeys mf).foldl
      (fun a k => putField k (mergedValue (.obj mf) (.obj df) k) a) df = mf := by
    apply fields_ext _ _ hkeys2 (by rw [hkeys2]; exact hnd')
    intro k
    rw [lookupField_foldl_putField]
    by_cases hk : k ∈ fieldKeys mf
    · rw [if_pos hk]
      have hsome := (lookupField_isSome_iff k mf).mpr hk
      cases hv : lookupField k mf with
      | none => rw [hv] at hsome; cases hsome
      | some v =>
        have hg : getOwn (.obj mf) k = some v := hv
        unfold mergedValue
        rw [hg]
        cases v with
        | obj vf =>
          simp only [Option.some.injEq, JVal.obj.injEq]
          have hl := hlook k
          rw [hv] at hl
          by_cases hks : k ∈ ownKeys s
          · rw [if_pos hks] at hl
            simp only [Option.some.injEq] at hl
            exact mergedValue_again s df vf k hl.symm
          · rw [if_neg hks] at hl
            have hd : getOwn (.obj df) k = some (.obj vf) := hl.symm
            rw [hd]
            exact spread_self_refill vf (wellKeyed_domain hwell hl.symm)
        | _ => rfl
    · rw [if_neg hk]
      have h1 : k ∉ ownKeys s := fun h => hk ((hmem' k).mpr (Or.inr h))
      rw [hlook k, if_neg h1]
  rw [hfields]

/-- A state that holds every default field of every domain has the content of its merge
with the default. -/
theorem mergeState_holdsDefaults (sf df : List (String × JVal))
    (hhold : holdsDefaults sf df) :
    sameContent
      (.obj ((fieldKeys sf).foldl
        (fun a k => putField k (mergedValue (.obj sf) (.obj df) k) a) df))
      (.obj sf) := by
  intro q
  cases q with
  | nil => rfl
  | cons k rest =>
    rw [getPath_obj_cons, getPath_obj_cons, lookupField_foldl_putField]
    by_cases hk : k ∈ fieldKeys sf
    · rw [if_pos hk]
      have hsome := (lookupField_isSome_iff k sf).mpr hk
      cases hv : lookupField k sf with
      | none => rw [hv] at hsome; cases hsome
      | some x =>
        have hg : getOwn (.obj sf) k = some x := hv
        unfold mergedValue
        rw [hg]
        cases x with
        | obj xs =>
          cases rest with
          | nil => rfl
          | cons f rest' =>
            have hfield : lookupField f
                (spreadInto (spreadInto [] (getOwn (.obj df) k)) (some (.obj xs)))
                  = lookupField f xs := by
              rw [lookupField_spreadInto]
              show (match getOwn (.obj xs) f with
                | some x => some x
                | none => lookupField f (spreadInto [] (getOwn (.obj df) k))) = lookupField f xs
              cases hx : getOwn (.obj xs) f with
              | some y => exact hx.symm
              | none =>
                have hx0 : lookupField f xs = none := hx
                show lookupField f (spreadInto [] (getOwn (.obj df) k)) = lookupField f xs
                rw [lookupField_spreadInto, hx0]
                cases hd : getOwn (.obj df) k with
                | none => rfl
                | some d =>
                  show (match getOwn d f with
                    | some x => some x
                    | none => lookupField f []) = none
                  cases hdf : getOwn d f with
                  | none => rfl
                  | some z =>
                    obtain ⟨x', hx1, hx2⟩ := hhold k d hd
                    rw [hv] at hx1
                    simp only [Option.some.injEq] at hx1
                    have := hx2 xs hx1.symm f (by rw [hdf]; rfl)
                    rw [hx0] at this
                    cases this
            simp only [Option.some_bind]
            rw [getPath_obj_cons, getPath_obj_cons, hfield]
        | _ => rfl
    · rw [if_neg hk]
      have h1 : lookupField k sf = none := by
        cases hl : lookupField k sf with
        | none => rfl
        | some v =>
          have : (lookupField k sf).isSome = true := by rw [hl]; rfl
          exact absurd ((lookupField_isSome_iff k sf).mp this) hk
      have h2 : lookupField k df = none := by
        cases hl : lookupField k df with
        | none => rfl
        | some d =>
          obtain ⟨x, hx, _⟩ := hhold k d hl
          rw [h1] at hx
          cases hx
      rw [h1, h2]

/-- Every state holds its own fields. -/
theorem holdsDefaults_self (df : List (String × JVal)) : holdsDefaults df df :=
  fun _ d hd => ⟨d, hd, fun _ hx f hf => by subst hx; exact hf⟩

/-! ## Theorems: bounded ledger -/

/-- C22: with memory compression enabled and a summarizer that answers every request,
immediately after the compaction step of a user turn (the turn is appended, then
`compressMemory` runs when the count exceeds the threshold `t`) the ledger holds at most
`max(t, 6)` turns, whatever the ledger was before the turn. -/
theorem ledger_bounded_after_user_turn (settings : Settings)
    (callLLMA : List ChatMessage → Option String) (now userMessage : String)
    (sm : StateManager) (hen : settings.memory_compression = true)
    (hcall : ∀ req, (callLLMA req).isSome = true) :
    ((recordUserTurn settings callLLMA now userMessage sm).messageHistory.length : Int)
      ≤ max settings.compression_threshold 6 := by
  unfold recordUserTurn
  simp only [hen, Bool.true_and]
  by_cases hgt : ((pushTurn ("User: " ++ userMessage) sm).messageHistory.length : Int)
      > settings.compression_threshold
  · simp only [hgt, decide_True, if_true]
    generalize pushTurn ("User: " ++ userMessage) sm = sm₁
    unfold compressMemory
    simp only
    split
    · rename_i h0
      rw [List.length_take] at h0
      have : sm₁.messageHistory.length ≤ 6 := by omega
      omega
    · cases hc : callLLMA (compressionMessages
          (sm₁.messageHistory.take (sm₁.messageHistory.length - 6))) with
      | none =>
        have := hcall (compressionMessages
          (sm₁.messageHistory.take (sm₁.messageHistory.length - 6)))
        rw [hc] at this
        cases this
      | some summary =>
        simp only [List.length_drop]
        omega
  · simp only [hgt, decide_False, Bool.false_eq_true, if_false]
    omega

/-- C22 (witness): threshold 20 and a ledger of twenty-five turns (grown by character
turns): after the user turn six turns are live. -/
theorem ledger_bounded_after_user_turn_witness :
    ((recordUserTurn defaultSettings (fun _ => some "summary") "now" "hi"
        { initialStateManager with messageHistory := List.replicate 25 "Mira: hello" }
      ).messageHistory.length : Int) ≤ max 20 6 :=
  ledger_bounded_after_user_turn defaultSettings (fun _ => some "summary") "now" "hi"
    { initialStateManager with messageHistory := List.replicate 25 "Mira: hello" } rfl
    (fun _ => rfl)

/-! ## Theorems: reload of a merged state -/

/-- C21: for a default state that is an object with every key once (at the top level and
in every domain that is an object) and a saved state without an own `__proto__` key,
`mergeState` completes, and merging its result with the same default completes and gives
that result again.  In particular a state that holds every default field of every domain
is returned with its content unchanged: every path reads the same value in the result as
in the state. -/
theorem mergeState_idempotent (s : JVal) (df : List (String × JVal))
    (hproto : "__proto__" ∉ ownKeys s) (hwell : wellKeyed df = true) :
    ∃ m, mergeState s (.obj df) = .ok m ∧ mergeState m (.obj df) = .ok m ∧
      (∀ sf, s = .obj sf → holdsDefaults sf df → sameContent m s) := by
  refine ⟨_, mergeState_closed s df hproto, mergeState_again s df hproto hwell, ?_⟩
  intro sf hs hhold
  subst hs
  exact mergeState_holdsDefaults sf df hhold

/-- C21 (witness): a saved state with a partial `character` domain and a scalar in place
of `history`, merged with the defaults, is returned as it is by a second merge; and the
default state, which holds every default field, is returned with its content by a merge. -/
theorem mergeState_idempotent_witness :
    (∃ m, mergeState
        (.obj [("character", .obj [("mood", .str "happy")]), ("history", .num 3)])
        (.obj (ownEntries getDefaultState)) = .ok m ∧
      mergeState m (.obj (ownEntries getDefaultState)) = .ok m) ∧
    (∃ m, mergeState getDefaultState (.obj (ownEntries getDefaultState)) = .ok m ∧
      sameContent m getDefaultState) := by
  constructor
  · obtain ⟨m, h1, h2, _⟩ := mergeState_idempotent
      (.obj [("character", .obj [("mood", .str "happy")]), ("history", .num 3)])
      (ownEntries getDefaultState) (by decide) (by decide)
    exact ⟨m, h1, h2⟩
  · obtain ⟨m, h1, _, h3⟩ := mergeState_idempotent getDefaultState
      (ownEntries getDefaultState) (by decide) (by decide)
    exact ⟨m, h1, h3 (ownEntries getDefaultState) rfl (holdsDefaults_self _)⟩

end RpgChatbot
